import Mathlib

/-!
# FOAM-FSI: adaptive control-point coarsening for RBF interpolation

A shallow embedding of `src/RBFMeshMotionSolver/RBFCoarsening.C`, and of the
selection of its distributed variant `src/RBFMeshMotionSolver/UnitCoarsening.C`.

* Scalars (`scalar`, a C++ `double`) are exact rationals; `std::sqrt` is a
  parameter of the embedding (`Env.sqrt`), as are the OpenFOAM constants
  `SMALL` and `GREAT`.
* Where the source accumulates over calls (the running total of source line
  463, the correction delta of source lines 607-608) a rounded sum differs from
  the exact one, so these sums and differences are taken with the machine
  operations `Env.add` and `Env.sub`: exact in `sampleEnv`, rounded to the
  nearest `double` in `doubleEnv`.
* Eigen matrices are lists of rows, vectors are lists.
* `int` indices are integers, so the sentinel `-1` of the source is kept.
* A failed `assert` and an access outside a matrix are results of type
  `Fault`; every method returns `Except Fault _`.
* The interpolation solver `RBFInterpolation` and the kernel
  `WendlandC2Function` are external: their numerical results are oracles
  carried by `Env`.
* A distributed matrix (`ElDistVector`) is the matrix it holds, whatever process
  owns a row; the Elemental reductions are functions of that matrix. The pull
  protocol of `selectData` is followed on one process of a store `PullStore`.
-/

namespace rbf

/-- Abnormal ends of a run. -/
inductive Fault where
  /-- An `assert` of the source failed. -/
  | assertion
  /-- A row outside the matrix was addressed, or an unwritten entry was read -/
  | undefined
  /-- The iteration bound of the embedding was exhausted (shown not to happen) -/
  | fuel
  deriving DecidableEq, Repr

abbrev scalar := ℚ

abbrev vector := List ℚ

abbrev matrix := List (List ℚ)

/-- Modelled from the spec: the interpolation solver `RBFInterpolation`, whose
source is not part of the repository files at hand. The spec gives it the
capabilities `compute(points, queryPoints)` and `interpolate(values)`, the flag
`computed` ("has it been fitted") and an operator matrix `Hhat` whose column
count can be reduced. `HhatTrim` is the number of columns taken off `Hhat`
since the last `compute`. -/
structure RBFInterpolation where
  computed : Bool
  positions : matrix
  positionsInterpolation : matrix
  HhatTrim : Int
  deriving DecidableEq, Repr

/-- Modelled from the spec: a solver that has just been constructed
(`new RBFInterpolation( rbfFunction, polynomialTerm, cpu )`) has not been
fitted. -/
def RBFInterpolation.fresh : RBFInterpolation :=
  { computed := false, positions := [], positionsInterpolation := [], HhatTrim := 0 }

/-- Modelled from the spec: `RBFInterpolation::compute( positions,
positionsInterpolation )` fits the solver on the given control points and
query points; the operator is rebuilt, so nothing is trimmed from it yet. -/
def RBFInterpolation.compute (_r : RBFInterpolation) (positions positionsInterpolation : matrix) :
    RBFInterpolation :=
  { computed := true, positions := positions, positionsInterpolation := positionsInterpolation,
    HhatTrim := 0 }

/-- The call `rbf->Hhat.conservativeResize( rbf->Hhat.rows(), rbf->Hhat.cols() - n )`. -/
def RBFInterpolation.trimHhat (r : RBFInterpolation) (n : Int) : RBFInterpolation :=
  { r with HhatTrim := r.HhatTrim + n }

/-- What the embedding takes from outside `RBFCoarsening.C`. -/
structure Env where
  /-- The function `std::sqrt`. -/
  sqrt : ℚ → ℚ
  /-- The OpenFOAM constant `SMALL`. -/
  SMALL : ℚ
  /-- The OpenFOAM constant `GREAT`. -/
  GREAT : ℚ
  /-- The call `RBFInterpolation::interpolate( positions, positionsInterpolation, values,
  valuesInterpolation )` of a solver built with the kernel, polynomial term and
  cpu flag of `rbf`: the returned `valuesInterpolation`. -/
  interpolate : matrix → matrix → matrix → matrix
  /-- The call `RBFInterpolation::interpolate2( values, valuesInterpolation )`. -/
  interpolate2 : RBFInterpolation → matrix → matrix
  /-- The call `RBFInterpolation::interpolate( values, valuesInterpolation )` on a fitted solver. -/
  evaluate : RBFInterpolation → matrix → matrix
  /-- The call `WendlandC2Function( R ).evaluate( r )`. -/
  wendlandC2 : ℚ → ℚ → ℚ
  /-- The sum of two `double`s as the machine forms it (`+=` of source lines
  463 and 608). -/
  add : ℚ → ℚ → ℚ
  /-- The difference of two `double`s as the machine forms it (`-` of source
  line 608). -/
  sub : ℚ → ℚ → ℚ

/-! ## Eigen operations -/

/-- Eigen `m.rows()`. -/
def rows (m : matrix) : Int := (m.length : Int)

/-- Eigen `m.cols()`; a matrix without rows has no columns. -/
def cols (m : matrix) : Int :=
  match m with
  | [] => 0
  | r :: _ => (r.length : Int)

/-- Eigen `m.row( i )`; addressing a row that is not there is undefined. -/
def row (m : matrix) (i : Int) : Except Fault vector :=
  if 0 ≤ i ∧ i < (m.length : Int) then Except.ok (m.getD i.toNat []) else Except.error Fault.undefined

/-- Eigen `v.squaredNorm()`. -/
def squaredNorm (v : vector) : ℚ := (v.map (fun x => x * x)).sum

/-- Eigen `v.norm()`. -/
def norm (sqrt : ℚ → ℚ) (v : vector) : ℚ := sqrt (squaredNorm v)

/-- Eigen `m.rowwise().norm()`. -/
def rowwiseNorm (sqrt : ℚ → ℚ) (m : matrix) : vector := m.map (norm sqrt)

/-- Eigen `m.norm()` (Frobenius norm). -/
def matrixNorm (sqrt : ℚ → ℚ) (m : matrix) : ℚ := sqrt ((m.map squaredNorm).sum)

/-- Eigen `a.dot( b )`. -/
def dot (a b : vector) : ℚ := (List.zipWith (fun x y => x * y) a b).sum

/-- Difference `a - b` of two rows. -/
def vsub (a b : vector) : vector := List.zipWith (fun x y => x - y) a b

/-- Difference `a - b` of two matrices. -/
def msub (a b : matrix) : matrix := List.zipWith vsub a b

/-- Sum `a + b` of two rows, formed by the machine. -/
def vaddM (env : Env) (a b : vector) : vector := List.zipWith env.add a b

/-- Difference `a - b` of two rows, formed by the machine. -/
def vsubM (env : Env) (a b : vector) : vector := List.zipWith env.sub a b

/-- Eigen `a.array() += b.array()`, formed by the machine. -/
def maddM (env : Env) (a b : matrix) : matrix := List.zipWith (vaddM env) a b

/-- Product `c * v` of a scalar and a row. -/
def vscale (c : ℚ) (v : vector) : vector := v.map (fun x => c * x)

/-- Eigen `matrix( r, c )` followed by `setZero()` or `fill( x )` -/
def constant (r c : Nat) (x : ℚ) : matrix := List.replicate r (List.replicate c x)

/-- One pass of the running-maximum loops of the source,
`if ( key( i ) > best && ok( i ) ) { best = key( i ); index = i; }`. -/
def scanStep (key : Nat → ℚ) (ok : Nat → Bool) (acc : ℚ × Int) (i : Nat) : ℚ × Int :=
  if key i > acc.1 ∧ ok i = true then (key i, (i : Int)) else acc

/-- The running-maximum loop over the indices `idxs`, from the start value
`init` (`-1, -1` in the source). The result is the pair `(best, index)`. -/
def scan (key : Nat → ℚ) (ok : Nat → Bool) (idxs : List Nat) (init : ℚ × Int) : ℚ × Int :=
  idxs.foldl (scanStep key ok) init

/-- Eigen `v.maxCoeff( &index )`: Eigen starts from the first coefficient and moves
on to a later one only if it is strictly larger. An empty vector has no first
coefficient. -/
def maxCoeff (v : vector) : Except Fault (ℚ × Int) :=
  match v with
  | [] => Except.error Fault.undefined
  | x :: xs =>
    Except.ok (scan (fun i => (x :: xs).getD i 0) (fun _ => true) ((List.range (x :: xs).length).tail) (x, 0))

/-- The rows of `m` at the indices `sel`, in the order of `sel`
(`for j: out.row( j ) = m.row( sel( j ) )`). -/
def gather (m : matrix) : List Int → Except Fault matrix
  | [] => Except.ok []
  | i :: is =>
    match row m i with
    | Except.error e => Except.error e
    | Except.ok r =>
      match gather m is with
      | Except.error e => Except.error e
      | Except.ok rs => Except.ok (r :: rs)

/-- Eigen `m.conservativeResize( n, m.cols() )`: a negative size is refused by Eigen,
rows beyond the old ones would be unwritten. -/
def conservativeResizeRows (m : matrix) (n : Int) : Except Fault matrix :=
  if n < 0 then Except.error Fault.assertion
  else if (m.length : Int) < n then Except.error Fault.undefined
  else Except.ok (m.take n.toNat)

/-! ## The controller -/

/-- The members of `class RBFCoarsening`. -/
structure RBFCoarsening where
  rbf : RBFInterpolation
  rbfCoarse : RBFInterpolation
  enabled : Bool
  livePointSelection : Bool
  livePointSelectionSumValues : Bool
  tol : ℚ
  tolLivePointSelection : ℚ
  coarseningMinPoints : Int
  coarseningMaxPoints : Int
  twoPointSelection : Bool
  surfaceCorrection : Bool
  ratioRadiusError : ℚ
  exportTxt : Bool
  selectedPositions : List Int
  nbStaticFaceCentersRemove : Int
  positions : matrix
  positionsInterpolation : matrix
  values : matrix
  errorInterpolationCoarse : matrix
  closestBoundaryIndexCorrection : List Int
  valuesCorrection : matrix
  nbMovingFaceCenters : Int
  fileExportIndex : Int
  deriving DecidableEq, Repr

/-- The constructor with every parameter
(`RBFCoarsening( rbf, enabled, ..., ratioRadiusError, exportTxt )`). -/
def RBFCoarsening.construct (rbf : RBFInterpolation) (enabled livePointSelection
    livePointSelectionSumValues : Bool) (tol tolLivePointSelection : ℚ)
    (coarseningMinPoints coarseningMaxPoints : Int) (twoPointSelection surfaceCorrection : Bool)
    (ratioRadiusError : ℚ) (exportTxt : Bool) : Except Fault RBFCoarsening :=
  if ¬ (coarseningMinPoints ≤ coarseningMaxPoints) then Except.error Fault.assertion
  else if ¬ (coarseningMinPoints > 0) then Except.error Fault.assertion
  else if ¬ (coarseningMaxPoints > 0) then Except.error Fault.assertion
  else if ¬ (tol > 0) then Except.error Fault.assertion
  else if ¬ (tol < 1) then Except.error Fault.assertion
  else if ¬ (tolLivePointSelection > 0) then Except.error Fault.assertion
  else if ¬ (tolLivePointSelection < 1) then Except.error Fault.assertion
  else Except.ok
    { rbf := rbf
      rbfCoarse := RBFInterpolation.fresh
      enabled := enabled
      livePointSelection := livePointSelection
      livePointSelectionSumValues := livePointSelectionSumValues
      tol := tol
      tolLivePointSelection := tolLivePointSelection
      coarseningMinPoints := coarseningMinPoints
      coarseningMaxPoints := coarseningMaxPoints
      twoPointSelection := twoPointSelection
      surfaceCorrection := surfaceCorrection
      ratioRadiusError := ratioRadiusError
      exportTxt := exportTxt
      selectedPositions := []
      nbStaticFaceCentersRemove := 0
      positions := []
      positionsInterpolation := []
      values := []
      errorInterpolationCoarse := []
      closestBoundaryIndexCorrection := []
      valuesCorrection := []
      nbMovingFaceCenters := 0
      fileExportIndex := 0 }

/-- Method `RBFCoarsening::compute( positions, positionsInterpolation )`. -/
def RBFCoarsening.compute (s : RBFCoarsening) (positions positionsInterpolation : matrix) :
    RBFCoarsening :=
  { s with positions := positions, positionsInterpolation := positionsInterpolation }

/-- Method `RBFCoarsening::setNbMovingAndStaticFaceCenters`. -/
def RBFCoarsening.setNbMovingAndStaticFaceCenters (s : RBFCoarsening)
    (nbMovingFaceCenters nbStaticFaceCenters : Int) : RBFCoarsening :=
  if s.enabled then
    { s with
      nbMovingFaceCenters := nbMovingFaceCenters
      nbStaticFaceCentersRemove :=
        ((s.selectedPositions.filter (fun i => decide (i ≥ nbMovingFaceCenters))).length : Int) }
  else
    { s with
      nbMovingFaceCenters := nbMovingFaceCenters
      nbStaticFaceCentersRemove := nbStaticFaceCenters }

/-! ## Greedy selection -/

/-- The first seed (source lines 268-295). Live selection: the first row of
largest norm of `values`. Otherwise: the running maximum of the distance from
the origin over the rows whose `values` row is larger than `SMALL`. -/
def firstSeed (env : Env) (s : RBFCoarsening) (values : matrix) : Except Fault Int :=
  if s.livePointSelection then
    match maxCoeff (rowwiseNorm env.sqrt values) with
    | Except.error e => Except.error e
    | Except.ok p => Except.ok p.2
  else
    Except.ok (scan (fun i => (rowwiseNorm env.sqrt s.positions).getD i 0)
      (fun i => decide (norm env.sqrt (values.getD i []) > env.SMALL))
      (List.range (rowwiseNorm env.sqrt s.positions).length) (-1, -1)).2

/-- The distances of all control points from the row `first`
(`rad` of source line 298). -/
def seedRadius (env : Env) (positions : matrix) (first : Int) : Except Fault vector :=
  match row positions first with
  | Except.error e => Except.error e
  | Except.ok p0 => Except.ok (positions.map (fun p => norm env.sqrt (vsub p p0)))

/-- The second seed (source lines 297-312): the running maximum of the
distance from the first seed, rows at distance within `SMALL` of one left out. -/
def secondSeed (env : Env) (positions : matrix) (first : Int) : Except Fault Int :=
  match seedRadius env positions first with
  | Except.error e => Except.error e
  | Except.ok rad =>
    Except.ok (scan (fun i => rad.getD i 0)
      (fun i => decide (rad.getD i 0 < 1 - env.SMALL ∨ rad.getD i 0 > 1 + env.SMALL))
      (List.range rad.length) (-1, -1)).2

/-- The variables of the growth loop: the member `selectedPositions`, the keys
of the local `positionsMap`, `counter`, the two error scalars, and the member
`errorInterpolationCoarse`. -/
structure Growth where
  selectedPositions : List Int
  positionsMap : List Int
  counter : Int
  error : ℚ
  errorMax : ℚ
  errorInterpolationCoarse : matrix
  deriving DecidableEq, Repr

/-- The state in which the growth loop is entered (source lines 263-330). -/
def seedSelection (env : Env) (s : RBFCoarsening) (values : matrix) : Except Fault Growth :=
  match firstSeed env s values with
  | Except.error e => Except.error e
  | Except.ok first =>
    match secondSeed env s.positions first with
    | Except.error e => Except.error e
    | Except.ok second =>
      if ¬ (first ≠ second) then Except.error Fault.assertion
      else if ¬ (rows s.positions ≥ 2) then Except.error Fault.assertion
      else Except.ok
        { selectedPositions := [first, second]
          positionsMap := [second, first]
          counter := 2
          error := 0
          errorMax := 0
          errorInterpolationCoarse := s.errorInterpolationCoarse }

/-- Local `maxNbPoints`, `std::min( coarseningMaxPoints, static_cast<int>( positions.rows() ) )` -/
def maxNbPoints (s : RBFCoarsening) : Int := min s.coarseningMaxPoints (rows s.positions)

/-- Local `minPoints`, `std::min( coarseningMinPoints, static_cast<int>( positions.rows() ) )` -/
def minPoints (s : RBFCoarsening) : Int := min s.coarseningMinPoints (rows s.positions)

/-- What one pass of the loop computes before it decides (source lines 335-391). -/
structure Candidates where
  valuesInterpolationCoarse : matrix
  errorList : vector
  index : Int
  largestError : ℚ
  index2 : Int
  largestError2 : ℚ
  error : ℚ
  errorMax : ℚ
  deriving DecidableEq, Repr

/-- The coarse interpolation on the selected rows, evaluated at all control
points (source lines 335-347). The solver has to return one row per control
point: the loop of line 350 writes `errorList( j )` for each returned row. -/
def coarseInterpolation (env : Env) (s : RBFCoarsening) (values : matrix) (sel : List Int) :
    Except Fault matrix :=
  match gather s.positions sel with
  | Except.error e => Except.error e
  | Except.ok positionsCoarse =>
    match gather values sel with
    | Except.error e => Except.error e
    | Except.ok valuesCoarse =>
      if (env.interpolate positionsCoarse s.positions valuesCoarse).length = s.positions.length then
        Except.ok (env.interpolate positionsCoarse s.positions valuesCoarse)
      else Except.error Fault.undefined

/-- Vector `errorList` of source lines 350-351. -/
def residualNorms (env : Env) (valuesInterpolationCoarse values : matrix) : vector :=
  (msub valuesInterpolationCoarse values).map (norm env.sqrt)

/-- The pair `(largestError, index)` of source lines 353-367. -/
def largestErrorScan (errorList : vector) (positionsMap : List Int) : ℚ × Int :=
  scan (fun i => errorList.getD i 0) (fun i => decide (¬ ((i : Int) ∈ positionsMap)))
    (List.range errorList.length) (-1, -1)

/-- The pair `(largestError2, index2)` of source lines 369-387. -/
def oppositeErrorScan (env : Env) (s : RBFCoarsening) (valuesInterpolationCoarse values : matrix)
    (errorList : vector) (index : Int) : Except Fault (ℚ × Int) :=
  if s.twoPointSelection then
    match row valuesInterpolationCoarse index with
    | Except.error e => Except.error e
    | Except.ok a =>
      match row values index with
      | Except.error e => Except.error e
      | Except.ok b =>
        Except.ok (scan (fun j => errorList.getD j 0)
          (fun j => decide (dot (vsub a b)
            (vsub (valuesInterpolationCoarse.getD j []) (values.getD j [])) < -env.SMALL))
          (List.range errorList.length) (-1, -1))
  else Except.ok (-1, -1)

/-- Scalar `error` of source line 390. -/
def globalError (env : Env) (errorList : vector) (values : matrix) : ℚ :=
  norm env.sqrt errorList / (matrixNorm env.sqrt values + env.sqrt env.SMALL)

/-- Source lines 335-391. -/
def candidates (env : Env) (s : RBFCoarsening) (values : matrix) (g : Growth) :
    Except Fault Candidates :=
  match coarseInterpolation env s values g.selectedPositions with
  | Except.error e => Except.error e
  | Except.ok vic =>
    match oppositeErrorScan env s vic values (residualNorms env vic values)
        (largestErrorScan (residualNorms env vic values) g.positionsMap).2 with
    | Except.error e => Except.error e
    | Except.ok second =>
      match maxCoeff (rowwiseNorm env.sqrt values) with
      | Except.error e => Except.error e
      | Except.ok mx =>
        Except.ok
          { valuesInterpolationCoarse := vic
            errorList := residualNorms env vic values
            index := (largestErrorScan (residualNorms env vic values) g.positionsMap).2
            largestError := (largestErrorScan (residualNorms env vic values) g.positionsMap).1
            index2 := second.2
            largestError2 := second.1
            error := globalError env (residualNorms env vic values) values
            errorMax := (largestErrorScan (residualNorms env vic values) g.positionsMap).1 /
              (mx.1 + env.sqrt env.SMALL) }

/-- Flag `convergence` of source line 394, with the test of line 405. -/
def converged (s : RBFCoarsening) (c : Candidates) (counter : Int) : Bool :=
  decide ((c.error < s.tol ∧ c.errorMax < s.tol ∧ counter ≥ minPoints s) ∨ counter ≥ maxNbPoints s)
    || decide (counter ≥ maxNbPoints s)

/-- The loop variables when the loop is left (source lines 396-411). -/
def stopWith (s : RBFCoarsening) (values : matrix) (c : Candidates) (g : Growth) : Growth :=
  { g with
    error := c.error
    errorMax := c.errorMax
    errorInterpolationCoarse :=
      if s.livePointSelection then msub c.valuesInterpolationCoarse values
      else g.errorInterpolationCoarse }

/-- The loop variables after the appends (source lines 413-427). -/
def appendCandidates (s : RBFCoarsening) (c : Candidates) (g : Growth) : Growth :=
  if s.twoPointSelection = true ∧ c.index2 ≥ 0 ∧ c.index ≠ c.index2 then
    { g with
      selectedPositions := (g.selectedPositions ++ [c.index]) ++ [c.index2]
      counter := g.counter + 1 + 1
      positionsMap := c.index2 :: c.index :: g.positionsMap
      error := c.error
      errorMax := c.errorMax }
  else
    { g with
      selectedPositions := g.selectedPositions ++ [c.index]
      counter := g.counter + 1
      positionsMap := c.index :: g.positionsMap
      error := c.error
      errorMax := c.errorMax }

/-- One pass of `while ( true )` (source lines 332-428): `true` with the final
variables when the loop is left, `false` with the grown selection otherwise. -/
def growthIteration (env : Env) (s : RBFCoarsening) (values : matrix) (g : Growth) :
    Except Fault (Bool × Growth) :=
  match candidates env s values g with
  | Except.error e => Except.error e
  | Except.ok c =>
    if converged s c g.counter = true then Except.ok (true, stopWith s values c g)
    else Except.ok (false, appendCandidates s c g)

/-- The loop `while ( true )`, run for at most `fuel` passes. -/
def growthLoop (env : Env) (s : RBFCoarsening) (values : matrix) : Nat → Growth → Except Fault Growth
  | 0, _ => Except.error Fault.fuel
  | fuel + 1, g =>
    match growthIteration env s values g with
    | Except.error e => Except.error e
    | Except.ok (true, g1) => Except.ok g1
    | Except.ok (false, g1) => growthLoop env s values fuel g1

/-- Passes that are enough for the loop to be left: the counter starts at two,
grows in each pass that does not leave the loop, and the loop is left when it
has reached `maxNbPoints`. -/
def growthFuel (s : RBFCoarsening) : Nat := (maxNbPoints s - 2).toNat + 1

/-- The greedy algorithm of an enabled controller: seeds, then the loop
(source lines 263-428). -/
def greedyGrowth (env : Env) (s : RBFCoarsening) (values : matrix) : Except Fault Growth :=
  match seedSelection env s values with
  | Except.error e => Except.error e
  | Except.ok g0 => growthLoop env s values (growthFuel s) g0

/-- The asserts at the head of `greedySelection` (source lines 251-255). -/
def greedyAsserts (s : RBFCoarsening) (values : matrix) : Bool :=
  decide (cols s.positions = cols s.positionsInterpolation) && decide (cols s.positions > 0)
    && decide (rows s.positions > 0) && decide (rows s.positionsInterpolation > 0)
    && decide (rows s.positions = rows values)

/-- Method `RBFCoarsening::greedySelection( values )`. -/
def RBFCoarsening.greedySelection (env : Env) (s : RBFCoarsening) (values : matrix) :
    Except Fault RBFCoarsening :=
  if greedyAsserts s values = false then Except.error Fault.assertion
  else if s.enabled then
    match greedyGrowth env s values with
    | Except.error e => Except.error e
    | Except.ok g =>
      match gather s.positions g.selectedPositions with
      | Except.error e => Except.error e
      | Except.ok positionsCoarse =>
        Except.ok
          { s with
            selectedPositions := g.selectedPositions
            errorInterpolationCoarse := g.errorInterpolationCoarse
            rbf := s.rbf.compute positionsCoarse s.positionsInterpolation }
  else
    Except.ok { s with rbf := s.rbf.compute s.positions s.positionsInterpolation }

/-! ## Surface correction -/

/-- The nearest control point of one interpolation target (source lines
576-591): the pair `(smallestRadius, boundaryIndex)`. -/
def nearestBoundary (env : Env) (positions : matrix) (target : vector) : ℚ × Int :=
  (List.range positions.length).foldl
    (fun (acc : ℚ × Int) (j : Nat) =>
      if norm env.sqrt (vsub (positions.getD j []) target) < acc.1 then
        (norm env.sqrt (vsub (positions.getD j []) target), (j : Int))
      else acc)
    (env.GREAT, -1)

/-- The distances of the targets to their cached nearest control points
(source lines 596-599). -/
def cachedRadius (env : Env) (positions : matrix) : List Int → matrix → Except Fault vector
  | _, [] => Except.ok []
  | [], _ :: _ => Except.error Fault.undefined
  | j :: js, target :: targets =>
    match row positions j with
    | Except.error e => Except.error e
    | Except.ok p =>
      match cachedRadius env positions js targets with
      | Except.error e => Except.error e
      | Except.ok rs => Except.ok (norm env.sqrt (vsub p target) :: rs)

/-- The loop of source lines 605-610 over the targets: the corrected rows of
`valuesInterpolation` and the new rows of `valuesCorrection`. Rows beyond the
targets are left as they are. -/
def correctRows (env : Env) (R : ℚ) (errorInterpolationCoarse : matrix) :
    List (ℚ × Int) → matrix → matrix → Except Fault (matrix × matrix)
  | [], valuesInterpolation, valuesCorrection => Except.ok (valuesInterpolation, valuesCorrection)
  | (radius, index) :: rest, v :: valuesInterpolation, c :: valuesCorrection =>
    match row errorInterpolationCoarse index with
    | Except.error e => Except.error e
    | Except.ok residual =>
      match correctRows env R errorInterpolationCoarse rest valuesInterpolation valuesCorrection with
      | Except.error e => Except.error e
      | Except.ok (vi, vc) =>
        Except.ok
          (vaddM env v (vsubM env (vscale (-(env.wendlandC2 R radius)) residual) c) :: vi,
            vscale (-(env.wendlandC2 R radius)) residual :: vc)
  | _ :: _, [], _ => Except.error Fault.undefined
  | _ :: _, _ :: _, [] => Except.error Fault.undefined

/-- Method `RBFCoarsening::correctSurface( valuesInterpolation )`: the controller
afterwards and the corrected `valuesInterpolation`. -/
def RBFCoarsening.correctSurface (env : Env) (s : RBFCoarsening) (valuesInterpolation : matrix) :
    Except Fault (RBFCoarsening × matrix) :=
  match maxCoeff (rowwiseNorm env.sqrt s.errorInterpolationCoarse) with
  | Except.error e => Except.error e
  | Except.ok mx =>
    match (if s.closestBoundaryIndexCorrection.length = 0 then
        Except.ok (s.positionsInterpolation.map (fun t => (nearestBoundary env s.positions t).1))
      else cachedRadius env s.positions s.closestBoundaryIndexCorrection s.positionsInterpolation) with
    | Except.error e => Except.error e
    | Except.ok closestBoundaryRadius =>
      match correctRows env (s.ratioRadiusError * mx.1) s.errorInterpolationCoarse
          (List.zip closestBoundaryRadius
            (if s.closestBoundaryIndexCorrection.length = 0 then
              s.positionsInterpolation.map (fun t => (nearestBoundary env s.positions t).2)
            else s.closestBoundaryIndexCorrection))
          valuesInterpolation
          (if rows s.valuesCorrection = 0 then
            constant valuesInterpolation.length (cols valuesInterpolation).toNat 0
          else s.valuesCorrection) with
      | Except.error e => Except.error e
      | Except.ok (vi, vc) =>
        Except.ok
          ({ s with
              valuesCorrection := vc
              closestBoundaryIndexCorrection :=
                if s.closestBoundaryIndexCorrection.length = 0 then
                  s.positionsInterpolation.map (fun t => (nearestBoundary env s.positions t).2)
                else s.closestBoundaryIndexCorrection }, vi)

/-! ## Interpolation -/

/-- The member `values` after source lines 458-466. Adding arrays of different
shape is refused by Eigen. -/
def totalValues (env : Env) (s : RBFCoarsening) (values : matrix) : Except Fault matrix :=
  if s.livePointSelectionSumValues then
    if cols s.values ≠ cols values then Except.ok values
    else if s.values.length ≠ values.length then Except.error Fault.assertion
    else Except.ok (maddM env s.values values)
  else Except.ok values

/-- The test of source lines 468-501 on the controller whose member `values`
is up to date: the flag `reselection` and the member `errorInterpolationCoarse`
afterwards. -/
def reselectionCheck (env : Env) (s : RBFCoarsening) : Except Fault (Bool × matrix) :=
  if s.rbfCoarse.computed then
    match gather s.values s.selectedPositions with
    | Except.error e => Except.error e
    | Except.ok valuesCoarse =>
      match maxCoeff (rowwiseNorm env.sqrt (msub (env.interpolate2 s.rbfCoarse valuesCoarse) s.values)) with
      | Except.error e => Except.error e
      | Except.ok mxe =>
        match maxCoeff (rowwiseNorm env.sqrt s.values) with
        | Except.error e => Except.error e
        | Except.ok mxv =>
          Except.ok
            (!(decide
                (matrixNorm env.sqrt (msub (env.interpolate2 s.rbfCoarse valuesCoarse) s.values) /
                    (matrixNorm env.sqrt s.values + env.sqrt env.SMALL) < s.tolLivePointSelection ∧
                  mxe.1 / (mxv.1 + env.sqrt env.SMALL) < s.tolLivePointSelection)),
              msub (env.interpolate2 s.rbfCoarse valuesCoarse) s.values)
  else Except.ok (true, s.errorInterpolationCoarse)

/-- The matrix `unitDisplacement` of source lines 513-524. -/
def unitDisplacement (positions : matrix) (nbMovingFaceCenters : Int) : Except Fault matrix :=
  if ¬ (rows positions ≥ nbMovingFaceCenters) then Except.error Fault.assertion
  else if nbMovingFaceCenters = 0 then
    Except.ok (constant positions.length (cols positions).toNat 1)
  else
    Except.ok ((List.range positions.length).map (fun (i : Nat) =>
      List.replicate (cols positions).toNat (if (i : Int) < nbMovingFaceCenters then (1 : ℚ) else 0)))

/-- What `interpolate` decides before it selects (source lines 451-529): the
controller at that point, and the field it hands to `greedySelection`, if it
selects at all. -/
def selectionRequest (env : Env) (s : RBFCoarsening) (values : matrix) :
    Except Fault (RBFCoarsening × Option matrix) :=
  if s.enabled then
    if s.livePointSelection then
      match totalValues env s values with
      | Except.error e => Except.error e
      | Except.ok total =>
        match reselectionCheck env { s with values := total } with
        | Except.error e => Except.error e
        | Except.ok (reselection, residual) =>
          Except.ok ({ s with values := total, errorInterpolationCoarse := residual },
            if reselection then some total else none)
    else if s.rbf.computed then Except.ok (s, none)
    else
      match unitDisplacement s.positions s.nbMovingFaceCenters with
      | Except.error e => Except.error e
      | Except.ok unit => Except.ok (s, some unit)
  else Except.ok (s, none)

/-- The controller after the selection part of `interpolate` (source lines
451-545). -/
def selectionPhase (env : Env) (s : RBFCoarsening) (values : matrix) : Except Fault RBFCoarsening :=
  if s.enabled then
    match selectionRequest env s values with
    | Except.error e => Except.error e
    | Except.ok (s1, none) => Except.ok s1
    | Except.ok (s1, some field) =>
      match s1.greedySelection env field with
      | Except.error e => Except.error e
      | Except.ok s2 => Except.ok { s2 with rbf := s2.rbf.trimHhat s2.nbStaticFaceCentersRemove }
  else if s.rbf.computed then Except.ok s
  else
    Except.ok
      { s with
        rbf := (s.rbf.compute s.positions s.positionsInterpolation).trimHhat
          s.nbStaticFaceCentersRemove }

/-- The matrix `usedValues` handed to the solver (source lines 449, 531-547). -/
def usedValues (s : RBFCoarsening) (values : matrix) : Except Fault matrix :=
  match (if s.enabled then gather values s.selectedPositions else Except.ok values) with
  | Except.error e => Except.error e
  | Except.ok used => conservativeResizeRows used (rows used - s.nbStaticFaceCentersRemove)

/-- Method `RBFCoarsening::interpolate( values, valuesInterpolation )`: the
controller afterwards and the matrix written to `valuesInterpolation`. What
`valuesInterpolation` holds on entry is not read, but for a column count that
sizes a buffer of the solver. -/
def RBFCoarsening.interpolate (env : Env) (s : RBFCoarsening) (values : matrix) :
    Except Fault (RBFCoarsening × matrix) :=
  match selectionPhase env s values with
  | Except.error e => Except.error e
  | Except.ok s1 =>
    match usedValues s1 values with
    | Except.error e => Except.error e
    | Except.ok used =>
      if s1.livePointSelection = true ∧ s1.surfaceCorrection = true then
        s1.correctSurface env (env.evaluate s1.rbf used)
      else Except.ok (s1, env.evaluate s1.rbf used)

/-- Successive calls of `interpolate`, one per field; the controller after the
last call. -/
def runInterpolate (env : Env) (s : RBFCoarsening) : List matrix → Except Fault RBFCoarsening
  | [] => Except.ok s
  | v :: vs =>
    match s.interpolate env v with
    | Except.error e => Except.error e
    | Except.ok (s1, _) => runInterpolate env s1 vs

/-! ## Notions used in the statements -/

/-- The loop variables that the run of `greedySelection` on `values` passes
through: those at entry of the loop, and those after each pass that appends. -/
inductive GrowthReachable (env : Env) (s : RBFCoarsening) (values : matrix) : Growth → Prop where
  | seed {g : Growth} : seedSelection env s values = Except.ok g → GrowthReachable env s values g
  | step {g g1 : Growth} : GrowthReachable env s values g →
      growthIteration env s values g = Except.ok (false, g1) → GrowthReachable env s values g1

/-- The selected indices of a finished run, if it finished. -/
def selectedOf (r : Except Fault RBFCoarsening) : Option (List Int) :=
  match r with
  | Except.error _ => none
  | Except.ok t => some t.selectedPositions

/-- Equality of results is decidable. -/
instance instDecidableEqResult {ε α : Type} [DecidableEq ε] [DecidableEq α] :
    DecidableEq (Except ε α) := fun a b =>
  match a, b with
  | Except.ok x, Except.ok y =>
    if h : x = y then isTrue (congrArg Except.ok h) else isFalse (fun hh => h (Except.ok.inj hh))
  | Except.error x, Except.error y =>
    if h : x = y then isTrue (congrArg Except.error h)
    else isFalse (fun hh => h (Except.error.inj hh))
  | Except.ok _, Except.error _ => isFalse (fun hh => Except.noConfusion hh)
  | Except.error _, Except.ok _ => isFalse (fun hh => Except.noConfusion hh)

/-! ## Concrete data for the closed statements -/

/-- Newton iteration for the integer square root of `n`. -/
def newton (n : Nat) : Nat → Nat → Nat
  | 0, x => x
  | fuel + 1, x => if (x + n / x) / 2 < x then newton n fuel ((x + n / x) / 2) else x

/-- Integer square root, rounded down. -/
def natSqrt (n : Nat) : Nat := if n ≤ 1 then n else newton n 400 n

/-- A square root on the rationals for the closed statements: exact on the
squares of rationals, rounded down to nine decimals of `1 / den` otherwise. -/
def sqrtQ (q : ℚ) : ℚ :=
  (natSqrt (q.num.toNat * q.den * 1000000000000000000) : ℚ) / ((q.den : ℚ) * 1000000000)

/-- An environment with `SMALL = 1e-15`, `GREAT = 1e15` and the given coarse
interpolation results; the fitted solver hands back the values it is given,
the correction kernel is zero, and sums and differences are exact. -/
def sampleEnv (interpolate : matrix → matrix → matrix → matrix) : Env :=
  { sqrt := sqrtQ
    SMALL := 1 / 1000000000000000
    GREAT := 1000000000000000
    interpolate := interpolate
    interpolate2 := fun _ v => v
    evaluate := fun _ v => v
    wendlandC2 := fun _ _ => 0
    add := fun a b => a + b
    sub := fun a b => a - b }

/-- An enabled controller as the constructor and `compute( positions, positions )`
leave it (`sampleController_constructed`). -/
def sampleController (livePointSelection twoPointSelection : Bool) (tol : ℚ)
    (coarseningMinPoints coarseningMaxPoints : Int) (positions : matrix) : RBFCoarsening :=
  { rbf := RBFInterpolation.fresh
    rbfCoarse := RBFInterpolation.fresh
    enabled := true
    livePointSelection := livePointSelection
    livePointSelectionSumValues := false
    tol := tol
    tolLivePointSelection := tol
    coarseningMinPoints := coarseningMinPoints
    coarseningMaxPoints := coarseningMaxPoints
    twoPointSelection := twoPointSelection
    surfaceCorrection := false
    ratioRadiusError := 10
    exportTxt := false
    selectedPositions := []
    nbStaticFaceCentersRemove := 0
    positions := positions
    positionsInterpolation := positions
    values := []
    errorInterpolationCoarse := []
    closestBoundaryIndexCorrection := []
    valuesCorrection := []
    nbMovingFaceCenters := 0
    fileExportIndex := 0 }

/-- Four control points on a line, displaced at the first one. -/
def linePositions : matrix := [[0], [10], [5], [7]]

/-- The displacement field used with `linePositions`. -/
def lineValues : matrix := [[4], [0], [0], [0]]

/-- A coarse solver whose result on two selected points is off by a rounding
error of `1e-12` at the first selected point, by `1` at point 2 and by `1 / 2`
at point 3; on more selected points it is off by `1 / 2` at point 3 only. -/
def lineSolver : matrix → matrix → matrix → matrix :=
  fun positionsCoarse _ _ =>
    if positionsCoarse.length = 2 then [[4 - 1 / 1000000000000], [0], [1], [1 / 2]]
    else [[4], [0], [0], [1 / 2]]

/-- A coarse solver that reproduces `lineValues`. -/
def exactLineSolver : matrix → matrix → matrix → matrix :=
  fun _ _ _ => [[4], [0], [0], [0]]

/-- Two control points, the first one displaced. -/
def pairPositions : matrix := [[0], [10]]

/-- The displacement field used with `pairPositions`. -/
def pairValues : matrix := [[4], [0]]

/-- A coarse solver that reproduces the field up to a rounding error of
`1e-15` at the first point. -/
def roundingSolver : matrix → matrix → matrix → matrix :=
  fun _ _ _ => [[4 + 1 / 1000000000000000], [0]]

/-- The displacement field used with `triplePositions`. -/
def tripleValues : matrix := [[4], [0], [0]]

/-- Two control points, the second one farther from the origin. -/
def farPositions : matrix := [[1], [5]]

/-- A field on `farPositions` whose largest row is the first one. -/
def farValues : matrix := [[2], [1]]

/-- A coarse solver that reproduces `farValues`. -/
def farSolver : matrix → matrix → matrix → matrix :=
  fun _ _ _ => [[2], [1]]

/-- Three control points on a line; the first two are moving points, the
third one is a static point. -/
def orderPositions : matrix := [[10], [5], [0]]

/-- The unit-displacement field on `orderPositions` with two moving points. -/
def orderUnit : matrix := [[1], [1], [0]]

/-- A coarse solver that reproduces `orderUnit`. -/
def orderSolver : matrix → matrix → matrix → matrix :=
  fun _ _ _ => [[1], [1], [0]]

/-- A displacement of the two moving points of `orderPositions`. -/
def orderValues : matrix := [[7], [8], [0]]

/-- A static-selection controller on `orderPositions` that has to select three
points, after `setNbMovingAndStaticFaceCenters( 2, 1 )`. -/
def orderController : RBFCoarsening :=
  (sampleController false false (1 / 1000) 3 3 orderPositions).setNbMovingAndStaticFaceCenters 2 1

/-- The number of indices of `sel` that are static, `index >= nbMovingFaceCenters`. -/
def staticCount (sel : List Int) (nbMovingFaceCenters : Int) : Int :=
  ((sel.filter (fun i => decide (i ≥ nbMovingFaceCenters))).length : Int)

/-- The rows of `values` at the indices of `sel` that are moving,
`index < nbMovingFaceCenters`, in the order of `sel`. -/
def movingRows (values : matrix) (sel : List Int) (nbMovingFaceCenters : Int) :
    Except Fault matrix :=
  gather values (sel.filter (fun i => decide (i < nbMovingFaceCenters)))

/-- The members as the default constructor and the one-argument constructor
set them (source lines 14-70): coarsening off, tolerances and point counts 0. -/
def RBFCoarsening.blank (rbf : RBFInterpolation) : RBFCoarsening :=
  { rbf := rbf
    rbfCoarse := RBFInterpolation.fresh
    enabled := false
    livePointSelection := false
    livePointSelectionSumValues := false
    tol := 0
    tolLivePointSelection := 0
    coarseningMinPoints := 0
    coarseningMaxPoints := 0
    twoPointSelection := false
    surfaceCorrection := false
    ratioRadiusError := 10
    exportTxt := false
    selectedPositions := []
    nbStaticFaceCentersRemove := 0
    positions := []
    positionsInterpolation := []
    values := []
    errorInterpolationCoarse := []
    closestBoundaryIndexCorrection := []
    valuesCorrection := []
    nbMovingFaceCenters := 0
    fileExportIndex := 0 }

/-- The default constructor `RBFCoarsening()` (source lines 14-41). -/
def RBFCoarsening.constructDefault : Except Fault RBFCoarsening :=
  Except.ok (RBFCoarsening.blank RBFInterpolation.fresh)

/-- The constructor `RBFCoarsening( rbf )` (source lines 43-70). -/
def RBFCoarsening.constructShared (rbf : RBFInterpolation) : Except Fault RBFCoarsening :=
  Except.ok (RBFCoarsening.blank rbf)

/-- The constructor with nine parameters (source lines 72-123): the asserts of
the full constructor, two-point selection and surface correction off. -/
def RBFCoarsening.constructNine (rbf : RBFInterpolation) (enabled livePointSelection
    livePointSelectionSumValues : Bool) (tol tolLivePointSelection : ℚ)
    (coarseningMinPoints coarseningMaxPoints : Int) (exportTxt : Bool) :
    Except Fault RBFCoarsening :=
  RBFCoarsening.construct rbf enabled livePointSelection livePointSelectionSumValues tol
    tolLivePointSelection coarseningMinPoints coarseningMaxPoints false false 10 exportTxt

/-- The constructor with ten parameters (source lines 125-177): the asserts of
the full constructor, surface correction off. -/
def RBFCoarsening.constructTen (rbf : RBFInterpolation) (enabled livePointSelection
    livePointSelectionSumValues : Bool) (tol tolLivePointSelection : ℚ)
    (coarseningMinPoints coarseningMaxPoints : Int) (twoPointSelection exportTxt : Bool) :
    Except Fault RBFCoarsening :=
  RBFCoarsening.construct rbf enabled livePointSelection livePointSelectionSumValues tol
    tolLivePointSelection coarseningMinPoints coarseningMaxPoints twoPointSelection false 10
    exportTxt

/-- The controllers that the five constructors of the class build. -/
inductive Constructed : RBFCoarsening → Prop where
  | default {s : RBFCoarsening} : RBFCoarsening.constructDefault = Except.ok s → Constructed s
  | shared {s : RBFCoarsening} (rbf : RBFInterpolation) :
      RBFCoarsening.constructShared rbf = Except.ok s → Constructed s
  | nine {s : RBFCoarsening} (rbf : RBFInterpolation) (enabled live sum : Bool)
      (tol tolLive : ℚ) (cMin cMax : Int) (exportTxt : Bool) :
      RBFCoarsening.constructNine rbf enabled live sum tol tolLive cMin cMax exportTxt
        = Except.ok s → Constructed s
  | ten {s : RBFCoarsening} (rbf : RBFInterpolation) (enabled live sum : Bool)
      (tol tolLive : ℚ) (cMin cMax : Int) (twoPoint exportTxt : Bool) :
      RBFCoarsening.constructTen rbf enabled live sum tol tolLive cMin cMax twoPoint exportTxt
        = Except.ok s → Constructed s
  | full {s : RBFCoarsening} (rbf : RBFInterpolation) (enabled live sum : Bool)
      (tol tolLive : ℚ) (cMin cMax : Int) (twoPoint surfaceCorrection : Bool) (ratio : ℚ)
      (exportTxt : Bool) :
      RBFCoarsening.construct rbf enabled live sum tol tolLive cMin cMax twoPoint
        surfaceCorrection ratio exportTxt = Except.ok s → Constructed s

/-- The loop variables after `k` passes of the growth loop that append. -/
inductive GrowthAfter (env : Env) (s : RBFCoarsening) (values : matrix) : Nat → Growth → Prop where
  | seed {g : Growth} : seedSelection env s values = Except.ok g → GrowthAfter env s values 0 g
  | step {k : Nat} {g g1 : Growth} : GrowthAfter env s values k g →
      growthIteration env s values g = Except.ok (false, g1) → GrowthAfter env s values (k + 1) g1

/-- The reference choice of an index: `r` is below `n`, satisfies `ok`, attains
the largest `key` among the indices below `n` that satisfy `ok`, and is the
lowest index that does. -/
def LowestArgmax (key : Nat → ℚ) (ok : Nat → Bool) (n r : Nat) : Prop :=
  r < n ∧ ok r = true ∧ (∀ i, i < n → ok i = true → key i ≤ key r) ∧
    (∀ i, i < r → ok i = true → key i < key r)

/-- Elemental `El::MaxAbsLoc( v )` on a column vector: the value and the row of
the entry of largest absolute value. The search starts from the value `0` at
row `0` and moves on to a later entry only if it is strictly larger; a vector
without entries gives row `-1`. -/
def maxAbsLoc (v : vector) : ℚ × Int :=
  if v.length = 0 then (0, -1)
  else scan (fun i => |v.getD i 0|) (fun _ => true) (List.range v.length) (0, 0)

/-- The members of `class UnitCoarsening`. The solver member `rbf` (an
`ElRBFInterpolation`, external) is recorded like the solver of `RBFCoarsening`,
and its results are those of the oracle `Env.interpolate`. -/
structure UnitCoarsening where
  tol : ℚ
  minPoints : Int
  maxPoints : Int
  selectedPositions : List Int
  rbf : RBFInterpolation
  deriving DecidableEq, Repr

/-- The constructor `UnitCoarsening( tol, minPoints, maxPoints )`. -/
def UnitCoarsening.construct (tol : ℚ) (minPoints maxPoints : Int) : Except Fault UnitCoarsening :=
  if ¬ (maxPoints ≥ minPoints) then Except.error Fault.assertion
  else if ¬ (tol > 0) then Except.error Fault.assertion
  else if ¬ (tol ≤ 1) then Except.error Fault.assertion
  else Except.ok
    { tol := tol
      minPoints := minPoints
      maxPoints := maxPoints
      selectedPositions := []
      rbf := RBFInterpolation.fresh }

/-- The two seeds of `UnitCoarsening::compute` (source lines 46-72): the row of
largest norm, and the row of largest distance from it. -/
def unitSeeds (env : Env) (positions : matrix) : Except Fault (Int × Int) :=
  match row positions (maxAbsLoc (rowwiseNorm env.sqrt positions)).2 with
  | Except.error e => Except.error e
  | Except.ok p0 =>
    Except.ok ((maxAbsLoc (rowwiseNorm env.sqrt positions)).2,
      (maxAbsLoc (rowwiseNorm env.sqrt (positions.map (fun p => vsub p p0)))).2)

/-- What one pass of the loop of `UnitCoarsening::compute` computes before it
decides (source lines 81-113): the coarse interpolation of the all-ones field
on the selected rows, and the entry `locMax` of largest residual. -/
def unitResidual (env : Env) (positions : matrix) (sel : List Int) : Except Fault (ℚ × Int) :=
  match gather positions sel with
  | Except.error e => Except.error e
  | Except.ok positionsCoarse =>
    if ¬ (rows (env.interpolate positionsCoarse positions
        (constant sel.length (cols positions).toNat 1)) = rows positions) then
      Except.error Fault.assertion
    else if ¬ (cols (env.interpolate positionsCoarse positions
        (constant sel.length (cols positions).toNat 1)) = cols positions) then
      Except.error Fault.assertion
    else
      Except.ok (maxAbsLoc (rowwiseNorm env.sqrt
        (msub
          (constant
            (env.interpolate positionsCoarse positions
              (constant sel.length (cols positions).toNat 1)).length
            (cols (env.interpolate positionsCoarse positions
              (constant sel.length (cols positions).toNat 1))).toNat 1)
          (env.interpolate positionsCoarse positions
            (constant sel.length (cols positions).toNat 1)))))

/-- The loop `for ( int i = 0; i < maxPoints; i++ )` of `UnitCoarsening::compute`
(source lines 79-126) with `n` passes left: the selection when it is left. -/
def unitLoop (env : Env) (u : UnitCoarsening) (positions : matrix) :
    Nat → List Int → Except Fault (List Int)
  | 0, sel => Except.ok sel
  | n + 1, sel =>
    match unitResidual env positions sel with
    | Except.error e => Except.error e
    | Except.ok locMax =>
      if (sel.length : Int) ≥ min u.maxPoints (rows positions) then Except.ok sel
      else if locMax.1 < u.tol ∧ (sel.length : Int) ≥ min u.minPoints (rows positions) then
        Except.ok sel
      else unitLoop env u positions n (sel ++ [locMax.2])

/-- Method `UnitCoarsening::compute( rbfFunction, positions, positionsInterpolation )`. -/
def UnitCoarsening.compute (env : Env) (u : UnitCoarsening)
    (positions positionsInterpolation : matrix) : Except Fault UnitCoarsening :=
  match unitSeeds env positions with
  | Except.error e => Except.error e
  | Except.ok seeds =>
    match unitLoop env u positions (min u.maxPoints (rows positions)).toNat
        [seeds.1, seeds.2] with
    | Except.error e => Except.error e
    | Except.ok sel =>
      match gather positions sel with
      | Except.error e => Except.error e
      | Except.ok positionsCoarse =>
        Except.ok
          { u with
            selectedPositions := sel
            rbf := u.rbf.compute positionsCoarse positionsInterpolation }

/-- The all-ones field on the control points `positions`. -/
def onesField (positions : matrix) : matrix :=
  constant positions.length (cols positions).toNat 1

/-- The distributed controller that belongs to the shared-memory controller
`s`: the same `tol`, `minPoints` and `maxPoints`. -/
def unitOf (s : RBFCoarsening) : UnitCoarsening :=
  { tol := s.tol
    minPoints := s.coarseningMinPoints
    maxPoints := s.coarseningMaxPoints
    selectedPositions := []
    rbf := RBFInterpolation.fresh }

/-- A coarse solver that returns `first` when it is fitted on two points and
`later` when it is fitted on more. -/
def stagedSolver (first later : matrix) : matrix → matrix → matrix → matrix :=
  fun positionsCoarse _ _ => if positionsCoarse.length ≤ 2 then first else later

/-- Three control points on a line; the first one is at distance one from the
second one. -/
def bandPositions : matrix := [[0], [1], [1 / 2]]

/-- Four control points on a line in the plane. -/
def planePositions : matrix := [[0, 0], [10, 0], [5, 0], [7, 0]]

/-- A coarse solver for the all-ones field on `linePositions`: fitted on two
points it is off by `1 / 2` at point 2 and by `1 / 4` at point 3, fitted on
more points it is off by `1 / 100` at point 3. -/
def agreeSolver : matrix → matrix → matrix → matrix :=
  stagedSolver [[1], [1], [1 / 2], [3 / 4]] [[1], [1], [1], [99 / 100]]

/-- A static controller on `linePositions` with `tol = 1 / 10`, at least one and
at most four points. -/
def agreeController : RBFCoarsening := sampleController false false (1 / 10) 1 4 linePositions

/-- The loop variables of `agreeController` at entry of the loop. -/
def agreeSeeded : Growth := ⟨[1, 0], [0, 1], 2, 0, 0, []⟩

/-- The loop variables of `agreeController` after the first pass. -/
def agreeGrown : Growth :=
  ⟨[1, 0, 2], [2, 0, 1], 3, 559016994312500000000000 / 2000000031622776601683793,
    500000000000000000000000 / 1000000031622776601683793, []⟩

/-- The residual row of control point `j` in a pass of the growth loop:
`valuesInterpolationCoarse.row( j ) - values.row( j )`. -/
def residualRow (c : Candidates) (values : matrix) (j : Nat) : vector :=
  vsub (c.valuesInterpolationCoarse.getD j []) (values.getD j [])

/-- The opposition test of source line 381 for control point `j`: the dot
product of the residual row of the primary candidate with its residual row is
below `-SMALL`. -/
def opposed (env : Env) (c : Candidates) (values : matrix) (j : Nat) : Bool :=
  decide (dot (residualRow c values c.index.toNat) (residualRow c values j) < -env.SMALL)

/-- Five control points on a line in the plane. -/
def fivePositions : matrix := [[0, 0], [10, 0], [5, 0], [7, 0], [3, 0]]

/-- A displacement of the first of the five control points. -/
def fiveValues : matrix := [[4, 0], [0, 0], [0, 0], [0, 0], [0, 0]]

/-- A coarse solver for `fiveValues`: the residual is `(1, 0)` at point 2,
`(-1e-16, 1 / 2)` at point 3 and `(-1 / 4, 0)` at point 4. -/
def fiveSolver : matrix → matrix → matrix → matrix :=
  fun _ _ _ => [[4, 0], [0, 0], [1, 0], [-1 / 10000000000000000, 1 / 2], [-1 / 4, 0]]

/-- Modelled from the spec: the distributed row store as one process sees it
("owner-rank query, queued pull of row data"). `owner j iDim` is
`selection->Owner( j, iDim )`, `rank` is the rank of the process in
`selection->DistComm()`, and `processPullQueue data queue` is the buffer that
`data->ProcessPullQueue( buffer )` fills after the pulls `queue` have been
queued on `data`. -/
structure PullStore where
  owner : Nat → Nat → Int
  rank : Int
  processPullQueue : matrix → List (Int × Nat) → List ℚ

/-- The pairs `(j, iDim)` in the order of the nested loops
`for j < selectedPositions.size()`, `for iDim < data->Width()`. -/
def slotOrder (size width : Nat) : List (Nat × Nat) :=
  List.product (List.range size) (List.range width)

/-- The first pass of `selectData` (source lines 167-176): the counter `nbPulls`. -/
def countPulls (st : PullStore) (slots : List (Nat × Nat)) : Nat :=
  slots.foldl (fun n p => if st.owner p.1 p.2 = st.rank then n + 1 else n) 0

/-- The second pass (source lines 180-187): the pulls queued on `data`, each
the row and the column of the entry asked for. -/
def queuePulls (st : PullStore) (selectedPositions : List Int) (slots : List (Nat × Nat)) :
    List (Int × Nat) :=
  slots.foldl
    (fun q p => if st.owner p.1 p.2 = st.rank then q ++ [(selectedPositions.getD p.1 0, p.2)] else q)
    []

/-- The call `selection->Set( j, iDim, v )`; an entry outside the matrix is not
there to be set. -/
def setEntry (m : matrix) (j c : Nat) (v : ℚ) : Except Fault matrix :=
  if j < m.length ∧ c < (m.getD j []).length then
    Except.ok (m.set j ((m.getD j []).set c v))
  else Except.error Fault.undefined

/-- The third pass (source lines 189-203) over the remaining pairs: the matrix
`selection` and the counter `index` afterwards. Reading `buffer[index]` past
the end of the buffer is undefined. -/
def unpack (st : PullStore) (buffer : List ℚ) :
    List (Nat × Nat) → matrix → Nat → Except Fault (matrix × Nat)
  | [], selection, index => Except.ok (selection, index)
  | p :: ps, selection, index =>
    if st.owner p.1 p.2 = st.rank then
      match buffer.get? index with
      | none => Except.error Fault.undefined
      | some v =>
        match setEntry selection p.1 p.2 v with
        | Except.error e => Except.error e
        | Except.ok selection1 => unpack st buffer ps selection1 (index + 1)
    else unpack st buffer ps selection index

/-- What a call of `selectData` leaves behind on one process: the number of
pulls reserved, the pulls queued, the buffer returned by the exchange, and the
matrix `selection`. -/
structure Pulled where
  reserved : Nat
  queue : List (Int × Nat)
  buffer : List ℚ
  selection : matrix
  deriving DecidableEq, Repr

/-- Method `UnitCoarsening::selectData( data, selection )` on the process of `st`. -/
def UnitCoarsening.selectData (st : PullStore) (u : UnitCoarsening) (data selection : matrix) :
    Except Fault Pulled :=
  if ¬ (rows selection = (u.selectedPositions.length : Int)) then Except.error Fault.assertion
  else
    match unpack st
        (st.processPullQueue data
          (queuePulls st u.selectedPositions
            (slotOrder u.selectedPositions.length (cols data).toNat)))
        (slotOrder u.selectedPositions.length (cols data).toNat) selection 0 with
    | Except.error e => Except.error e
    | Except.ok r =>
      Except.ok
        { reserved := countPulls st (slotOrder u.selectedPositions.length (cols data).toNat)
          queue := queuePulls st u.selectedPositions
            (slotOrder u.selectedPositions.length (cols data).toNat)
          buffer := st.processPullQueue data
            (queuePulls st u.selectedPositions
              (slotOrder u.selectedPositions.length (cols data).toNat))
          selection := r.1 }

/-- The entry `m( j, c )`. -/
def entryAt (m : matrix) (j c : Nat) : ℚ := (m.getD j []).getD c 0

/-- The entry `data( i, c )` that a pull asks for, if `data` has it. -/
def pulledEntry (data : matrix) (i : Int) (c : Nat) : Option ℚ :=
  if 0 ≤ i ∧ i < (data.length : Int) ∧ c < (data.getD i.toNat []).length then
    some (entryAt data i.toNat c)
  else none

/-- The destination slots `(j, iDim)` that the process of `st` owns, in loop order. -/
def ownedSlots (st : PullStore) (size width : Nat) : List (Nat × Nat) :=
  (slotOrder size width).filter (fun p => decide (st.owner p.1 p.2 = st.rank))

/-- A store of two processes that own the entries `(j, iDim)` with `j + iDim`
even and odd; the exchange returns the entries asked for, in the order of the
queue. -/
def sampleStore (rank : Int) : PullStore :=
  { owner := fun j iDim => (((j + iDim) % 2 : Nat) : Int)
    rank := rank
    processPullQueue := fun data queue =>
      queue.map (fun q => (data.getD q.1.toNat []).getD q.2 0) }

/-- A distributed controller that has selected the rows 2 and 0. -/
def pullController : UnitCoarsening :=
  { tol := 1 / 10, minPoints := 1, maxPoints := 2, selectedPositions := [2, 0],
    rbf := RBFInterpolation.fresh }

/-- Three rows of data with two columns. -/
def pullData : matrix := [[1, 2], [3, 4], [5, 6]]

/-! # Lemmas -/

theorem seedSelection_shape {env : Env} {s : RBFCoarsening} {values : matrix} {g : Growth}
    (h : seedSelection env s values = Except.ok g) :
    ∃ a b : Int, a ≠ b ∧ g.selectedPositions = [a, b] ∧ g.counter = 2 ∧
      firstSeed env s values = Except.ok a ∧ secondSeed env s.positions a = Except.ok b ∧
      rows s.positions ≥ 2 := by
  unfold seedSelection at h
  split at h
  · cases h
  · rename_i first hf
    split at h
    · cases h
    · rename_i second hs
      split at h
      · cases h
      · split at h
        · cases h
        · rename_i h1 h2
          cases h
          refine ⟨first, second, ?_, rfl, rfl, hf, hs, ?_⟩
          · simpa using h1
          · simpa using h2

theorem growthIteration_cases {env : Env} {s : RBFCoarsening} {values : matrix} {g g1 : Growth}
    {b : Bool} (h : growthIteration env s values g = Except.ok (b, g1)) :
    ∃ c, candidates env s values g = Except.ok c ∧ b = converged s c g.counter ∧
      g1 = (if converged s c g.counter = true then stopWith s values c g else appendCandidates s c g) := by
  unfold growthIteration at h
  split at h
  · cases h
  · rename_i c hc
    refine ⟨c, hc, ?_⟩
    split at h
    · rename_i hcv
      cases h
      simp [hcv]
    · rename_i hcv
      cases h
      simp at hcv
      simp [hcv]

theorem appendCandidates_counter (s : RBFCoarsening) (c : Candidates) (g : Growth) :
    (appendCandidates s c g).counter - g.counter =
      ((appendCandidates s c g).selectedPositions.length : Int) - g.selectedPositions.length ∧
    g.counter + 1 ≤ (appendCandidates s c g).counter ∧
    (appendCandidates s c g).counter ≤ g.counter + 2 := by
  unfold appendCandidates
  split
  · simp; omega
  · simp

theorem reachable_counter {env : Env} {s : RBFCoarsening} {values : matrix} {g : Growth}
    (h : GrowthReachable env s values g) : g.counter = (g.selectedPositions.length : Int) := by
  induction h with
  | seed h0 =>
    obtain ⟨a, b, _, hsel, hc, _⟩ := seedSelection_shape h0
    simp [hsel, hc]
  | @step g g1 _ hit ih =>
    obtain ⟨c, _, hb, hg⟩ := growthIteration_cases hit
    have hcv : converged s c g.counter = false := hb.symm
    simp [hcv] at hg
    have := appendCandidates_counter s c g
    subst hg
    omega

theorem row_not_fuel {m : matrix} {i : Int} : row m i ≠ Except.error Fault.fuel := by
  unfold row
  split <;> simp

theorem gather_not_fuel {m : matrix} {sel : List Int} : gather m sel ≠ Except.error Fault.fuel := by
  induction sel with
  | nil => simp [gather]
  | cons i is ih =>
    unfold gather
    split
    · rename_i e he
      intro h
      cases h
      exact row_not_fuel he
    · split
      · rename_i e he
        intro h
        cases h
        exact ih he
      · simp

theorem maxCoeff_not_fuel {v : vector} : maxCoeff v ≠ Except.error Fault.fuel := by
  unfold maxCoeff
  split <;> simp

theorem coarseInterpolation_not_fuel {env : Env} {s : RBFCoarsening} {values : matrix}
    {sel : List Int} : coarseInterpolation env s values sel ≠ Except.error Fault.fuel := by
  unfold coarseInterpolation
  split
  · rename_i e he
    intro h
    cases h
    exact gather_not_fuel he
  · split
    · rename_i e he
      intro h
      cases h
      exact gather_not_fuel he
    · split <;> simp

theorem oppositeErrorScan_not_fuel {env : Env} {s : RBFCoarsening} {vic values : matrix}
    {errorList : vector} {index : Int} :
    oppositeErrorScan env s vic values errorList index ≠ Except.error Fault.fuel := by
  unfold oppositeErrorScan
  split
  · split
    · rename_i e he
      intro h
      cases h
      exact row_not_fuel he
    · split
      · rename_i e he
        intro h
        cases h
        exact row_not_fuel he
      · simp
  · simp

theorem candidates_not_fuel {env : Env} {s : RBFCoarsening} {values : matrix} {g : Growth} :
    candidates env s values g ≠ Except.error Fault.fuel := by
  unfold candidates
  split
  · rename_i e he
    intro h
    cases h
    exact coarseInterpolation_not_fuel he
  · split
    · rename_i e he
      intro h
      cases h
      exact oppositeErrorScan_not_fuel he
    · split
      · rename_i e he
        intro h
        cases h
        exact maxCoeff_not_fuel he
      · simp

theorem growthIteration_not_fuel {env : Env} {s : RBFCoarsening} {values : matrix} {g : Growth} :
    growthIteration env s values g ≠ Except.error Fault.fuel := by
  unfold growthIteration
  split
  · rename_i e he
    intro h
    cases h
    exact candidates_not_fuel he
  · split <;> simp

theorem converged_false_lt {s : RBFCoarsening} {c : Candidates} {counter : Int}
    (h : converged s c counter = false) : counter < maxNbPoints s := by
  unfold converged at h
  simp at h
  omega

theorem growthLoop_not_fuel {env : Env} {s : RBFCoarsening} {values : matrix} :
    ∀ (fuel : Nat) (g : Growth), (maxNbPoints s - g.counter).toNat < fuel →
      growthLoop env s values fuel g ≠ Except.error Fault.fuel := by
  intro fuel
  induction fuel with
  | zero => intro g h; omega
  | succ n ih =>
    intro g hf
    unfold growthLoop
    split
    · rename_i e he
      intro h
      cases h
      exact growthIteration_not_fuel he
    · simp
    · rename_i g1 hit
      obtain ⟨c, _, hb, hg⟩ := growthIteration_cases hit
      have hcv : converged s c g.counter = false := hb.symm
      simp [hcv] at hg
      have hlt := converged_false_lt hcv
      have := appendCandidates_counter s c g
      subst hg
      apply ih
      omega

theorem growthLoop_result {env : Env} {s : RBFCoarsening} {values : matrix} :
    ∀ (fuel : Nat) (g gf : Growth), GrowthReachable env s values g →
      growthLoop env s values fuel g = Except.ok gf →
      ∃ gl c, GrowthReachable env s values gl ∧ candidates env s values gl = Except.ok c ∧
        converged s c gl.counter = true ∧ gf = stopWith s values c gl := by
  intro fuel
  induction fuel with
  | zero => intro g gf _ h; simp [growthLoop] at h
  | succ n ih =>
    intro g gf hr h
    unfold growthLoop at h
    split at h
    · cases h
    · rename_i g1 hit
      cases h
      obtain ⟨c, hc, hb, hg⟩ := growthIteration_cases hit
      have hcv : converged s c g.counter = true := hb.symm
      simp [hcv] at hg
      exact ⟨g, c, hr, hc, hcv, hg⟩
    · rename_i g1 hit
      exact ih g1 gf (GrowthReachable.step hr hit) h

theorem greedyGrowth_result {env : Env} {s : RBFCoarsening} {values : matrix} {gf : Growth}
    (h : greedyGrowth env s values = Except.ok gf) :
    ∃ gl c, GrowthReachable env s values gl ∧ candidates env s values gl = Except.ok c ∧
      converged s c gl.counter = true ∧ gf = stopWith s values c gl := by
  unfold greedyGrowth at h
  split at h
  · cases h
  · rename_i g0 h0
    exact growthLoop_result _ g0 gf (GrowthReachable.seed h0) h

theorem greedySelection_enabled {env : Env} {s t : RBFCoarsening} {values : matrix}
    (he : s.enabled = true) (h : s.greedySelection env values = Except.ok t) :
    ∃ g positionsCoarse, greedyAsserts s values = true ∧ greedyGrowth env s values = Except.ok g ∧
      gather s.positions g.selectedPositions = Except.ok positionsCoarse ∧
      t = { s with
            selectedPositions := g.selectedPositions
            errorInterpolationCoarse := g.errorInterpolationCoarse
            rbf := s.rbf.compute positionsCoarse s.positionsInterpolation } := by
  unfold RBFCoarsening.greedySelection at h
  split at h
  · cases h
  · rename_i ha
    split at h
    · cases h
    · rename_i g hg
      split at h
      · cases h
      · rename_i pc hpc
        cases h
        refine ⟨g, pc, ?_, hg, hpc, rfl⟩
        simpa using ha

theorem selectedOf_eq_some {r : Except Fault RBFCoarsening} {sel : List Int}
    (h : selectedOf r = some sel) : ∃ t, r = Except.ok t ∧ t.selectedPositions = sel := by
  unfold selectedOf at h
  split at h
  · cases h
  · rename_i t
    cases h
    exact ⟨t, rfl, rfl⟩

theorem converged_true_cases {s : RBFCoarsening} {c : Candidates} {counter : Int}
    (h : converged s c counter = true) :
    (c.error < s.tol ∧ c.errorMax < s.tol ∧ counter ≥ minPoints s) ∨ counter ≥ maxNbPoints s := by
  unfold converged at h
  rw [Bool.or_eq_true, decide_eq_true_eq, decide_eq_true_eq] at h
  rcases h with h | h
  · exact h
  · exact Or.inr h

theorem appendCandidates_single {s : RBFCoarsening} (c : Candidates) (g : Growth)
    (ht : s.twoPointSelection = false) :
    (appendCandidates s c g).selectedPositions = g.selectedPositions ++ [c.index] := by
  unfold appendCandidates
  simp [ht]

theorem greedySelection_final {env : Env} {s t : RBFCoarsening} {values : matrix}
    (he : s.enabled = true) (h : s.greedySelection env values = Except.ok t) :
    ∃ gl c, GrowthReachable env s values gl ∧ candidates env s values gl = Except.ok c ∧
      converged s c gl.counter = true ∧ t.selectedPositions = gl.selectedPositions := by
  obtain ⟨g, pc, _, hg, _, ht⟩ := greedySelection_enabled he h
  obtain ⟨gl, c, hr, hc, hcv, hgf⟩ := greedyGrowth_result hg
  refine ⟨gl, c, hr, hc, hcv, ?_⟩
  rw [ht, hgf]
  rfl

/-- C1 (code defect shown): with two-point selection, four control points and
`coarseningMaxPoints = 3`, the seeds are 0 and 1. The residual of the coarse
solver at the seed 0 is `-1e-12`, opposed to the residual `1` of the candidate
2, so the growth pass appends 2 and then the seed 0 again: the run ends with
`[0, 1, 2, 0]`, in which the index 0 stands twice. -/
theorem C1_index_selected_twice :
    selectedOf ((sampleController true true (1 / 1000) 1 3 linePositions).greedySelection
      (sampleEnv lineSolver) lineValues) = some [0, 1, 2, 0] := by
  decide!

/-- C2 (as stated, refuted): with `coarseningMaxPoints = 1` and two-point
selection off, the run ends with the two seeds, one index more than
`maxPoints`. -/
theorem C2_two_seeds_exceed_one :
    selectedOf ((sampleController true false (1 / 1000) 1 1 linePositions).greedySelection
      (sampleEnv lineSolver) lineValues) = some [0, 1] ∧
    (sampleController true false (1 / 1000) 1 1 linePositions).coarseningMaxPoints = 1 := by
  decide!

theorem reachable_length_le {env : Env} {s : RBFCoarsening} {values : matrix} {g : Growth}
    (ht : s.twoPointSelection = false) (h : GrowthReachable env s values g) :
    (g.selectedPositions.length : Int) ≤ max 2 s.coarseningMaxPoints := by
  induction h with
  | seed h0 =>
    obtain ⟨a, b, _, hsel, _, _⟩ := seedSelection_shape h0
    simp [hsel]
  | @step g g1 hr hit _ =>
    obtain ⟨c, _, hb, hg⟩ := growthIteration_cases hit
    have hcv : converged s c g.counter = false := hb.symm
    simp [hcv] at hg
    have hlt := converged_false_lt hcv
    have hcnt := reachable_counter hr
    have hmax : maxNbPoints s ≤ s.coarseningMaxPoints := by
      unfold maxNbPoints
      exact min_le_left _ _
    rw [hg, appendCandidates_single c g ht]
    simp
    right
    omega

/-- C2 (amended): with two-point selection off, the number of selected indices
never exceeds `max(2, maxPoints)`: not at entry of the growth loop, not after
any pass of it, and not in the result of `greedySelection`. -/
theorem C2_count_le_max_points (env : Env) (s : RBFCoarsening) (values : matrix)
    (he : s.enabled = true) (ht : s.twoPointSelection = false) :
    (∀ g, GrowthReachable env s values g →
      (g.selectedPositions.length : Int) ≤ max 2 s.coarseningMaxPoints) ∧
    (∀ sel, selectedOf (s.greedySelection env values) = some sel →
      (sel.length : Int) ≤ max 2 s.coarseningMaxPoints) := by
  refine ⟨fun g hg => reachable_length_le ht hg, ?_⟩
  intro sel hsel
  obtain ⟨t, hrun, hts⟩ := selectedOf_eq_some hsel
  obtain ⟨gl, c, hr, _, _, hfin⟩ := greedySelection_final he hrun
  rw [← hts, hfin]
  exact reachable_length_le ht hr

/-- Witness for C2: the run on the line data with `maxPoints = 3`. -/
theorem C2_count_le_max_points_witness :
    (sampleController true false (1 / 1000) 1 3 linePositions).enabled = true ∧
    (sampleController true false (1 / 1000) 1 3 linePositions).twoPointSelection = false ∧
    selectedOf ((sampleController true false (1 / 1000) 1 3 linePositions).greedySelection
      (sampleEnv lineSolver) lineValues) = some [0, 1, 2] ∧
    (([0, 1, 2] : List Int).length : Int) ≤ max 2 3 :=
  ⟨rfl, rfl, by decide!,
    (C2_count_le_max_points (sampleEnv lineSolver)
      (sampleController true false (1 / 1000) 1 3 linePositions) lineValues rfl rfl).2
      [0, 1, 2] (by decide!)⟩

theorem candidates_ok {env : Env} {s : RBFCoarsening} {values : matrix} {g : Growth}
    {c : Candidates} (h : candidates env s values g = Except.ok c) :
    ∃ vic second mx, coarseInterpolation env s values g.selectedPositions = Except.ok vic ∧
      oppositeErrorScan env s vic values (residualNorms env vic values)
        (largestErrorScan (residualNorms env vic values) g.positionsMap).2 = Except.ok second ∧
      maxCoeff (rowwiseNorm env.sqrt values) = Except.ok mx ∧
      c.valuesInterpolationCoarse = vic ∧
      c.errorList = residualNorms env vic values ∧
      c.index = (largestErrorScan (residualNorms env vic values) g.positionsMap).2 ∧
      c.largestError = (largestErrorScan (residualNorms env vic values) g.positionsMap).1 ∧
      c.index2 = second.2 ∧
      c.error = globalError env (residualNorms env vic values) values ∧
      c.errorMax = (largestErrorScan (residualNorms env vic values) g.positionsMap).1 /
        (mx.1 + env.sqrt env.SMALL) := by
  unfold candidates at h
  split at h
  · cases h
  · rename_i vic hvic
    split at h
    · cases h
    · rename_i second hsecond
      split at h
      · cases h
      · rename_i mx hmx
        cases h
        exact ⟨vic, second, mx, hvic, hsecond, hmx, rfl, rfl, rfl, rfl, rfl, rfl, rfl⟩

theorem candidates_index2_off {env : Env} {s : RBFCoarsening} {values : matrix} {g : Growth}
    {c : Candidates} (ht : s.twoPointSelection = false)
    (h : candidates env s values g = Except.ok c) : c.index2 = -1 := by
  obtain ⟨vic, second, mx, _, hsec, _, _, _, _, _, hi2, _, _⟩ := candidates_ok h
  unfold oppositeErrorScan at hsec
  simp [ht] at hsec
  rw [hi2, ← hsec]

/-- C5 (as stated, refuted): two control points, `minPoints = 1`,
`maxPoints = 5`, `tol = 1e-18`. In the first pass the global error is not below
`tol` and the selected count 2 is below `maxPoints`, so the stated rule says
"continue"; the loop stops, because 2 has reached `min(maxPoints, N) = 2`. -/
theorem C5_stops_below_max_points :
    seedSelection (sampleEnv roundingSolver)
      (sampleController true false (1 / 1000000000000000000) 1 5 pairPositions) pairValues
      = Except.ok ⟨[0, 1], [1, 0], 2, 0, 0, []⟩ ∧
    ((growthIteration (sampleEnv roundingSolver)
        (sampleController true false (1 / 1000000000000000000) 1 5 pairPositions) pairValues
        ⟨[0, 1], [1, 0], 2, 0, 0, []⟩).toOption.map (fun r => r.1)) = some true ∧
    ((candidates (sampleEnv roundingSolver)
        (sampleController true false (1 / 1000000000000000000) 1 5 pairPositions) pairValues
        ⟨[0, 1], [1, 0], 2, 0, 0, []⟩).toOption.map (fun c =>
          decide ((c.error < 1 / 1000000000000000000 ∧ c.errorMax < 1 / 1000000000000000000 ∧
            (2 : Int) ≥ 1) ∨ (2 : Int) ≥ 5))) = some false := by
  decide!

/-- C5 (amended): in every pass of the growth loop, the loop stops at that pass
if and only if (global error < tol and max error < tol and selected count >=
min(minPoints, N)) or selected count >= min(maxPoints, N); otherwise exactly the
candidate index (plus index2 if valid and distinct) is appended and the loop
goes on with the next pass. -/
theorem C5_stopping_rule (env : Env) (s : RBFCoarsening) (values : matrix) (g : Growth)
    (c : Candidates) (hr : GrowthReachable env s values g)
    (hc : candidates env s values g = Except.ok c) :
    ∃ stop g1, growthIteration env s values g = Except.ok (stop, g1) ∧
      (stop = true ↔
        ((c.error < s.tol ∧ c.errorMax < s.tol ∧
            (g.selectedPositions.length : Int) ≥ min s.coarseningMinPoints (rows s.positions)) ∨
          (g.selectedPositions.length : Int) ≥ min s.coarseningMaxPoints (rows s.positions))) ∧
      (stop = true → g1.selectedPositions = g.selectedPositions ∧
        ∀ fuel, growthLoop env s values (fuel + 1) g = Except.ok g1) ∧
      (stop = false →
        g1.selectedPositions = g.selectedPositions ++ [c.index] ++
            (if c.index2 ≥ 0 ∧ c.index ≠ c.index2 then [c.index2] else []) ∧
        ∀ fuel, growthLoop env s values (fuel + 1) g = growthLoop env s values fuel g1) := by
  have hcnt := reachable_counter hr
  have hit : growthIteration env s values g =
      Except.ok (converged s c g.counter,
        if converged s c g.counter = true then stopWith s values c g
        else appendCandidates s c g) := by
    unfold growthIteration
    rw [hc]
    by_cases hcv : converged s c g.counter = true
    · simp [hcv]
    · simp [hcv]
  refine ⟨_, _, hit, ?_, ?_, ?_⟩
  · rw [← hcnt]
    constructor
    · intro h
      exact converged_true_cases h
    · intro h
      unfold converged
      rw [Bool.or_eq_true, decide_eq_true_eq, decide_eq_true_eq]
      exact Or.inl h
  · intro hcv
    rw [if_pos hcv]
    refine ⟨rfl, ?_⟩
    intro fuel
    rw [growthLoop, hit, if_pos hcv, hcv]
  · intro hcv
    have hne : ¬ (converged s c g.counter = true) := by simp [hcv]
    rw [if_neg hne]
    constructor
    · unfold appendCandidates
      by_cases ht : s.twoPointSelection = true
      · by_cases h2 : c.index2 ≥ 0 ∧ c.index ≠ c.index2
        · rw [if_pos ⟨ht, h2⟩, if_pos h2]
        · have h3 : ¬ (s.twoPointSelection = true ∧ c.index2 ≥ 0 ∧ c.index ≠ c.index2) :=
            fun h => h2 h.2
          rw [if_neg h3, if_neg h2]
          simp
      · have htf : s.twoPointSelection = false := by simpa using ht
        have hi2 := candidates_index2_off htf hc
        have h3 : ¬ (s.twoPointSelection = true ∧ c.index2 ≥ 0 ∧ c.index ≠ c.index2) :=
          fun h => ht h.1
        have h2 : ¬ (c.index2 ≥ 0 ∧ c.index ≠ c.index2) := by
          rw [hi2]
          intro h
          omega
        rw [if_neg h3, if_neg h2]
        simp
    · intro fuel
      rw [growthLoop, hit, if_neg hne, hcv]

/-- Witness for C5: the first pass on the line data. -/
theorem C5_stopping_rule_witness :
    ∃ c, candidates (sampleEnv lineSolver)
        (sampleController true true (1 / 1000) 1 3 linePositions) lineValues
        ⟨[0, 1], [1, 0], 2, 0, 0, []⟩ = Except.ok c ∧
      ∃ stop g1, growthIteration (sampleEnv lineSolver)
          (sampleController true true (1 / 1000) 1 3 linePositions) lineValues
          ⟨[0, 1], [1, 0], 2, 0, 0, []⟩ = Except.ok (stop, g1) ∧
        (stop = true ↔
          ((c.error < (1 / 1000 : ℚ) ∧ c.errorMax < (1 / 1000 : ℚ) ∧
              (2 : Int) ≥ min 1 (rows linePositions)) ∨
            (2 : Int) ≥ min 3 (rows linePositions))) ∧
        (stop = true → g1.selectedPositions = [0, 1] ∧
          ∀ fuel, growthLoop (sampleEnv lineSolver)
            (sampleController true true (1 / 1000) 1 3 linePositions) lineValues (fuel + 1)
            ⟨[0, 1], [1, 0], 2, 0, 0, []⟩ = Except.ok g1) ∧
        (stop = false →
          g1.selectedPositions = [0, 1] ++ [c.index] ++
              (if c.index2 ≥ 0 ∧ c.index ≠ c.index2 then [c.index2] else []) ∧
          ∀ fuel, growthLoop (sampleEnv lineSolver)
            (sampleController true true (1 / 1000) 1 3 linePositions) lineValues (fuel + 1)
            ⟨[0, 1], [1, 0], 2, 0, 0, []⟩ =
            growthLoop (sampleEnv lineSolver)
              (sampleController true true (1 / 1000) 1 3 linePositions) lineValues fuel g1) :=
  match hc : candidates (sampleEnv lineSolver)
      (sampleController true true (1 / 1000) 1 3 linePositions) lineValues
      ⟨[0, 1], [1, 0], 2, 0, 0, []⟩ with
  | Except.ok c =>
    ⟨c, rfl, C5_stopping_rule (sampleEnv lineSolver)
      (sampleController true true (1 / 1000) 1 3 linePositions) lineValues
      ⟨[0, 1], [1, 0], 2, 0, 0, []⟩ c (GrowthReachable.seed (by decide!)) hc⟩
  | Except.error e => by
    have h : (candidates (sampleEnv lineSolver)
      (sampleController true true (1 / 1000) 1 3 linePositions) lineValues
      ⟨[0, 1], [1, 0], 2, 0, 0, []⟩).toBool = true := by decide!
    rw [hc] at h
    cases h

theorem scan_cons (key : Nat → ℚ) (ok : Nat → Bool) (i : Nat) (idxs : List Nat) (init : ℚ × Int) :
    scan key ok (i :: idxs) init = scan key ok idxs (scanStep key ok init i) := rfl

theorem scan_stable (key : Nat → ℚ) (ok : Nat → Bool) :
    ∀ (idxs : List Nat) (init : ℚ × Int),
      (∀ i ∈ idxs, ¬ (key i > init.1 ∧ ok i = true)) → scan key ok idxs init = init := by
  intro idxs
  induction idxs with
  | nil => intro init _; rfl
  | cons i is ih =>
    intro init h
    rw [scan_cons]
    have hi : scanStep key ok init i = init := by
      unfold scanStep
      rw [if_neg (h i (List.mem_cons_self i is))]
    rw [hi]
    exact ih init (fun j hj => h j (List.mem_cons_of_mem i hj))

theorem scan_unique (key : Nat → ℚ) (ok : Nat → Bool) (r : Nat) (hok : ok r = true) :
    ∀ (idxs : List Nat) (init : ℚ × Int), r ∈ idxs → init.1 < key r →
      (∀ i ∈ idxs, i ≠ r → key i < key r) → scan key ok idxs init = (key r, (r : Int)) := by
  intro idxs
  induction idxs with
  | nil => intro init h; cases h
  | cons i is ih =>
    intro init hmem hlt hmax
    rw [scan_cons]
    by_cases hir : i = r
    · subst hir
      have hi : scanStep key ok init i = (key i, (i : Int)) := by
        unfold scanStep
        rw [if_pos ⟨hlt, hok⟩]
      rw [hi]
      apply scan_stable
      intro j hj hcon
      by_cases hji : j = i
      · subst hji
        exact lt_irrefl _ hcon.1
      · exact lt_asymm hcon.1 (hmax j (List.mem_cons_of_mem i hj) hji)
    · have hr : r ∈ is := by
        rcases List.mem_cons.mp hmem with h | h
        · exact absurd h.symm hir
        · exact h
      apply ih _ hr
      · unfold scanStep
        split
        · exact hmax i (List.mem_cons_self i is) hir
        · exact hlt
      · exact fun j hj hne => hmax j (List.mem_cons_of_mem i hj) hne

theorem mem_tail_range {n i : Nat} : i ∈ (List.range n).tail ↔ 0 < i ∧ i < n := by
  cases n with
  | zero => simp
  | succ n =>
    rw [List.range_succ_eq_map]
    simp only [List.tail_cons, List.mem_map, List.mem_range]
    constructor
    · rintro ⟨a, ha, rfl⟩
      omega
    · intro h
      exact ⟨i - 1, by omega, by omega⟩

theorem maxCoeff_unique {v : vector} {r : Nat} (hr : r < v.length)
    (hmax : ∀ i, i < v.length → i ≠ r → v.getD i 0 < v.getD r 0) :
    maxCoeff v = Except.ok (v.getD r 0, (r : Int)) := by
  cases v with
  | nil => simp at hr
  | cons x xs =>
    unfold maxCoeff
    simp only
    congr 1
    by_cases h0 : r = 0
    · subst h0
      rw [scan_stable]
      · simp
      · intro i hi hcon
        obtain ⟨hpos, hlt⟩ := mem_tail_range.mp hi
        have := hmax i hlt (by omega)
        simp only [List.getD_cons_zero] at this
        exact lt_asymm hcon.1 this
    · apply scan_unique _ _ r rfl
      · exact mem_tail_range.mpr ⟨by omega, hr⟩
      · have := hmax 0 (by simp) (by omega)
        simpa using this
      · intro i hi hne
        exact hmax i (mem_tail_range.mp hi).2 hne

theorem rowwiseNorm_getD (sqrt : ℚ → ℚ) (m : matrix) (i : Nat) (hi : i < m.length) :
    (rowwiseNorm sqrt m).getD i 0 = norm sqrt (m.getD i []) := by
  unfold rowwiseNorm
  rw [List.getD_eq_getElem _ _ (by simpa using hi), List.getD_eq_getElem _ _ hi, List.getElem_map]

theorem firstSeed_live_unique {env : Env} {s : RBFCoarsening} {values : matrix} {r : Nat}
    (hl : s.livePointSelection = true) (hr : r < values.length)
    (hmax : ∀ i, i < values.length → i ≠ r →
      norm env.sqrt (values.getD i []) < norm env.sqrt (values.getD r [])) :
    firstSeed env s values = Except.ok (r : Int) := by
  unfold firstSeed
  rw [if_pos hl]
  have hlen : (rowwiseNorm env.sqrt values).length = values.length := by
    simp [rowwiseNorm]
  rw [maxCoeff_unique (v := rowwiseNorm env.sqrt values) (r := r) (by omega)]
  intro i hi hne
  rw [rowwiseNorm_getD _ _ _ (by omega), rowwiseNorm_getD _ _ _ hr]
  exact hmax i (by omega) hne

theorem appendCandidates_prefix (s : RBFCoarsening) (c : Candidates) (g : Growth) :
    ∃ extra, (appendCandidates s c g).selectedPositions = g.selectedPositions ++ extra := by
  unfold appendCandidates
  split
  · exact ⟨[c.index, c.index2], by simp⟩
  · exact ⟨[c.index], rfl⟩

theorem reachable_head {env : Env} {s : RBFCoarsening} {values : matrix} {g : Growth}
    (h : GrowthReachable env s values g) :
    ∃ a rest, firstSeed env s values = Except.ok a ∧ g.selectedPositions = a :: rest := by
  induction h with
  | seed h0 =>
    obtain ⟨a, b, _, hsel, _, hf, _⟩ := seedSelection_shape h0
    exact ⟨a, [b], hf, hsel⟩
  | @step g g1 _ hit ih =>
    obtain ⟨a, rest, hf, hsel⟩ := ih
    obtain ⟨c, _, hb, hg⟩ := growthIteration_cases hit
    have hcv : converged s c g.counter = false := hb.symm
    simp [hcv] at hg
    obtain ⟨extra, hex⟩ := appendCandidates_prefix s c g
    refine ⟨a, rest ++ extra, hf, ?_⟩
    rw [hg, hex, hsel]
    rfl

/-- C6 (as stated, refuted): static selection on two control points at
distances 1 and 5 from the origin, with a field whose rows have the norms 2
and 1. Row 0 is the only row of largest norm, yet the first selected index
is 1, the point farthest from the origin. -/
theorem C6_static_seed_is_farthest_point :
    selectedOf ((sampleController false false (1 / 1000) 1 2 farPositions).greedySelection
      (sampleEnv farSolver) farValues) = some [1, 0] ∧
    rowwiseNorm sqrtQ farValues = [2, 1] := by
  decide!

/-- C6 (amended): with live selection, fixed positions and a value field that
has a unique maximum-norm row r, the first index selected by
`greedySelection` equals r. -/
theorem C6_live_seed_is_largest_row (env : Env) (s : RBFCoarsening) (values : matrix) (r : Nat)
    (he : s.enabled = true) (hl : s.livePointSelection = true) (hr : r < values.length)
    (hmax : ∀ i, i < values.length → i ≠ r →
      norm env.sqrt (values.getD i []) < norm env.sqrt (values.getD r [])) :
    firstSeed env s values = Except.ok (r : Int) ∧
    (∀ g, GrowthReachable env s values g → g.selectedPositions.head? = some (r : Int)) ∧
    (∀ sel, selectedOf (s.greedySelection env values) = some sel → sel.head? = some (r : Int)) := by
  have hfirst := firstSeed_live_unique hl hr hmax
  have hreach : ∀ g, GrowthReachable env s values g →
      g.selectedPositions.head? = some (r : Int) := by
    intro g hg
    obtain ⟨a, rest, hf, hsel⟩ := reachable_head hg
    rw [hfirst] at hf
    cases hf
    rw [hsel]
    rfl
  refine ⟨hfirst, hreach, ?_⟩
  intro sel hsel
  obtain ⟨t, hrun, hts⟩ := selectedOf_eq_some hsel
  obtain ⟨gl, c, hrl, _, _, hfin⟩ := greedySelection_final he hrun
  rw [← hts, hfin]
  exact hreach gl hrl

/-- Witness for C6: the line data, whose only displaced row is row 0. -/
theorem C6_live_seed_is_largest_row_witness :
    (sampleController true false (1 / 1000) 1 3 linePositions).enabled = true ∧
    (sampleController true false (1 / 1000) 1 3 linePositions).livePointSelection = true ∧
    0 < lineValues.length ∧
    (∀ i, i < lineValues.length → i ≠ 0 →
      norm (sampleEnv lineSolver).sqrt (lineValues.getD i []) <
        norm (sampleEnv lineSolver).sqrt (lineValues.getD 0 [])) ∧
    selectedOf ((sampleController true false (1 / 1000) 1 3 linePositions).greedySelection
      (sampleEnv lineSolver) lineValues) = some [0, 1, 2] ∧
    ([0, 1, 2] : List Int).head? = some ((0 : Nat) : Int) :=
  have hmax : ∀ i, i < lineValues.length → i ≠ 0 →
      norm (sampleEnv lineSolver).sqrt (lineValues.getD i []) <
        norm (sampleEnv lineSolver).sqrt (lineValues.getD 0 []) := by
    intro i hi hne
    have h4 : i < 4 := hi
    have hcases : i = 1 ∨ i = 2 ∨ i = 3 := by omega
    rcases hcases with h | h | h <;> subst h <;> decide!
  ⟨rfl, rfl, by decide, hmax, by decide!,
    (C6_live_seed_is_largest_row (sampleEnv lineSolver)
      (sampleController true false (1 / 1000) 1 3 linePositions) lineValues 0 rfl rfl
      (by decide) hmax).2.2 [0, 1, 2] (by decide!)⟩



theorem scan_index (key : Nat → ℚ) (ok : Nat → Bool) :
    ∀ (idxs : List Nat) (init : ℚ × Int),
      (scan key ok idxs init).2 = init.2 ∨
        ∃ i ∈ idxs, ok i = true ∧ (scan key ok idxs init).2 = (i : Int) := by
  intro idxs
  induction idxs with
  | nil => intro init; exact Or.inl rfl
  | cons j js ih =>
    intro init
    rw [scan_cons]
    by_cases hc : key j > init.1 ∧ ok j = true
    · have hs : scanStep key ok init j = (key j, (j : Int)) := by
        unfold scanStep
        rw [if_pos hc]
      rw [hs]
      rcases ih (key j, (j : Int)) with h | ⟨i, hi, hok, h⟩
      · exact Or.inr ⟨j, List.mem_cons_self j js, hc.2, h⟩
      · exact Or.inr ⟨i, List.mem_cons_of_mem j hi, hok, h⟩
    · have hs : scanStep key ok init j = init := by
        unfold scanStep
        rw [if_neg hc]
      rw [hs]
      rcases ih init with h | ⟨i, hi, hok, h⟩
      · exact Or.inl h
      · exact Or.inr ⟨i, List.mem_cons_of_mem j hi, hok, h⟩

theorem gather_valid {m : matrix} :
    ∀ (sel : List Int) (r : matrix), gather m sel = Except.ok r →
      ∀ x ∈ sel, 0 ≤ x ∧ x < (m.length : Int) := by
  intro sel
  induction sel with
  | nil => intro r _ x hx; cases hx
  | cons i is ih =>
    intro r h x hx
    unfold gather at h
    split at h
    · cases h
    · rename_i ri hri
      split at h
      · cases h
      · rename_i rs hrs
        rcases List.mem_cons.mp hx with hxi | hxs
        · subst hxi
          unfold row at hri
          split at hri
          · rename_i hv
            exact hv
          · cases hri
        · exact ih rs hrs x hxs

theorem candidates_selected_valid {env : Env} {s : RBFCoarsening} {values : matrix} {g : Growth}
    {c : Candidates} (h : candidates env s values g = Except.ok c) :
    ∀ x ∈ g.selectedPositions, 0 ≤ x ∧ x < (s.positions.length : Int) := by
  obtain ⟨vic, _, _, hvic, _⟩ := candidates_ok h
  unfold coarseInterpolation at hvic
  split at hvic
  · cases hvic
  · rename_i pc hpc
    exact gather_valid _ pc hpc

theorem candidates_index_new {env : Env} {s : RBFCoarsening} {values : matrix} {g : Growth}
    {c : Candidates} (h : candidates env s values g = Except.ok c)
    (hmap : ∀ x, x ∈ g.selectedPositions → x ∈ g.positionsMap) :
    ¬ (c.index ∈ g.selectedPositions) := by
  obtain ⟨vic, _, _, _, _, _, _, _, hidx, _⟩ := candidates_ok h
  have hvalid := candidates_selected_valid h
  intro hmem
  rw [hidx] at hmem
  unfold largestErrorScan at hmem
  rcases scan_index (fun i => (residualNorms env vic values).getD i 0)
      (fun i => decide (¬ ((i : Int) ∈ g.positionsMap)))
      (List.range (residualNorms env vic values).length) (-1, -1) with h0 | ⟨i, _, hok, hi⟩
  · rw [h0] at hmem
    have := (hvalid _ hmem).1
    omega
  · rw [hi] at hmem
    have hnot : ¬ ((i : Int) ∈ g.positionsMap) := by simpa using hok
    exact hnot (hmap _ hmem)

/-- With two-point selection off no index is selected twice: not at entry of
the growth loop and not after any pass of it. -/
theorem one_point_selection_nodup {env : Env} {s : RBFCoarsening} {values : matrix} {g : Growth}
    (ht : s.twoPointSelection = false) (h : GrowthReachable env s values g) :
    g.selectedPositions.Nodup ∧ ∀ x, x ∈ g.selectedPositions → x ∈ g.positionsMap := by
  induction h with
  | seed h0 =>
    unfold seedSelection at h0
    split at h0
    · cases h0
    · split at h0
      · cases h0
      · split at h0
        · cases h0
        · split at h0
          · cases h0
          · rename_i first _ second _ hne _
            have := Except.ok.inj h0
            subst this
            constructor
            · simp only [List.nodup_cons, List.mem_singleton, List.not_mem_nil, not_false_eq_true,
                List.nodup_nil, and_true]
              simpa using hne
            · intro x hx
              simp only [List.mem_cons, List.mem_singleton, List.not_mem_nil, or_false] at hx ⊢
              tauto
  | @step g g1 _ hit ih =>
    obtain ⟨c, hc, hb, hg⟩ := growthIteration_cases hit
    have hcv : converged s c g.counter = false := hb.symm
    simp [hcv] at hg
    have hnew := candidates_index_new hc ih.2
    subst hg
    have hsel := appendCandidates_single c g ht
    have hmapeq : (appendCandidates s c g).positionsMap = c.index :: g.positionsMap := by
      unfold appendCandidates
      simp [ht]
    rw [hsel, hmapeq]
    constructor
    · rw [List.nodup_append]
      refine ⟨ih.1, List.nodup_singleton _, ?_⟩
      intro x hx hx1
      rw [List.mem_singleton] at hx1
      subst hx1
      exact hnew hx
    · intro x hx
      rcases List.mem_append.mp hx with h1 | h1
      · exact List.mem_cons_of_mem _ (ih.2 x h1)
      · rw [List.mem_singleton] at h1
        subst h1
        exact List.mem_cons_self _ _

theorem greedySelection_frame {env : Env} {s t : RBFCoarsening} {values : matrix}
    (h : s.greedySelection env values = Except.ok t) :
    t.rbfCoarse = s.rbfCoarse ∧ t.enabled = s.enabled ∧
      t.livePointSelection = s.livePointSelection ∧
      t.livePointSelectionSumValues = s.livePointSelectionSumValues ∧
      t.values = s.values ∧ t.nbStaticFaceCentersRemove = s.nbStaticFaceCentersRemove ∧
      t.rbf.computed = true := by
  unfold RBFCoarsening.greedySelection at h
  split at h
  · cases h
  · split at h
    · split at h
      · cases h
      · split at h
        · cases h
        · cases h
          exact ⟨rfl, rfl, rfl, rfl, rfl, rfl, rfl⟩
    · cases h
      exact ⟨rfl, rfl, rfl, rfl, rfl, rfl, rfl⟩

theorem correctSurface_frame {env : Env} {s t : RBFCoarsening} {vi out : matrix}
    (h : s.correctSurface env vi = Except.ok (t, out)) :
    t.rbfCoarse = s.rbfCoarse ∧ t.enabled = s.enabled ∧
      t.livePointSelection = s.livePointSelection ∧
      t.livePointSelectionSumValues = s.livePointSelectionSumValues ∧
      t.values = s.values := by
  unfold RBFCoarsening.correctSurface at h
  split at h
  · cases h
  · split at h
    · cases h
    · split at h
      · cases h
      · cases h
        exact ⟨rfl, rfl, rfl, rfl, rfl⟩

theorem selectionRequest_frame {env : Env} {s s1 : RBFCoarsening} {values : matrix}
    {field : Option matrix} (h : selectionRequest env s values = Except.ok (s1, field)) :
    s1.rbfCoarse = s.rbfCoarse ∧ s1.enabled = s.enabled ∧
      s1.livePointSelection = s.livePointSelection ∧
      s1.livePointSelectionSumValues = s.livePointSelectionSumValues ∧
      s1.rbf = s.rbf ∧ s1.selectedPositions = s.selectedPositions ∧
      s1.nbStaticFaceCentersRemove = s.nbStaticFaceCentersRemove := by
  unfold selectionRequest at h
  split at h
  · split at h
    · split at h
      · cases h
      · split at h
        · cases h
        · cases h
          exact ⟨rfl, rfl, rfl, rfl, rfl, rfl, rfl⟩
    · split at h
      · cases h
        exact ⟨rfl, rfl, rfl, rfl, rfl, rfl, rfl⟩
      · split at h
        · cases h
        · cases h
          exact ⟨rfl, rfl, rfl, rfl, rfl, rfl, rfl⟩
  · cases h
    exact ⟨rfl, rfl, rfl, rfl, rfl, rfl, rfl⟩

theorem selectionPhase_enabled {env : Env} {s s1 : RBFCoarsening} {values : matrix}
    (he : s.enabled = true) (h : selectionPhase env s values = Except.ok s1) :
    ∃ s0 field, selectionRequest env s values = Except.ok (s0, field) ∧
      ((field = none ∧ s1 = s0) ∨
        ∃ fld s2, field = some fld ∧ s0.greedySelection env fld = Except.ok s2 ∧
          s1 = { s2 with rbf := s2.rbf.trimHhat s2.nbStaticFaceCentersRemove }) := by
  unfold selectionPhase at h
  rw [if_pos he] at h
  split at h
  · cases h
  · rename_i s0 hreq
    have hs := Except.ok.inj h
    exact ⟨s0, none, hreq, Or.inl ⟨rfl, hs.symm⟩⟩
  · rename_i s0 fld hreq
    split at h
    · cases h
    · rename_i s2 hsel
      have hs := Except.ok.inj h
      exact ⟨s0, some fld, hreq, Or.inr ⟨fld, s2, rfl, hsel, hs.symm⟩⟩

theorem interpolate_ok {env : Env} {s t : RBFCoarsening} {values out : matrix}
    (h : s.interpolate env values = Except.ok (t, out)) :
    ∃ s1 used, selectionPhase env s values = Except.ok s1 ∧ usedValues s1 values = Except.ok used ∧
      ((s1.livePointSelection = true ∧ s1.surfaceCorrection = true ∧
          s1.correctSurface env (env.evaluate s1.rbf used) = Except.ok (t, out)) ∨
        (¬ (s1.livePointSelection = true ∧ s1.surfaceCorrection = true) ∧ t = s1 ∧
          out = env.evaluate s1.rbf used)) := by
  unfold RBFCoarsening.interpolate at h
  split at h
  · cases h
  · rename_i s1 hs1
    split at h
    · cases h
    · rename_i used hused
      split at h
      · rename_i hc
        exact ⟨s1, used, hs1, hused, Or.inl ⟨hc.1, hc.2, h⟩⟩
      · rename_i hc
        have hh := Prod.mk.inj (Except.ok.inj h)
        exact ⟨s1, used, hs1, hused, Or.inr ⟨hc, hh.1.symm, hh.2.symm⟩⟩

theorem interpolate_live {env : Env} {s t : RBFCoarsening} {values out : matrix}
    (he : s.enabled = true) (hl : s.livePointSelection = true)
    (h : s.interpolate env values = Except.ok (t, out)) :
    ∃ total s0 field, totalValues env s values = Except.ok total ∧
      selectionRequest env s values = Except.ok (s0, field) ∧ s0.values = total ∧
      (∀ f, field = some f → f = total) ∧
      (s.rbfCoarse.computed = false → field = some total) ∧
      t.values = total ∧ t.rbfCoarse = s.rbfCoarse ∧ t.enabled = true ∧
      t.livePointSelection = true ∧
      t.livePointSelectionSumValues = s.livePointSelectionSumValues := by
  obtain ⟨s1, used, hphase, _, hfin⟩ := interpolate_ok h
  obtain ⟨s0, field, hreq, hsel⟩ := selectionPhase_enabled he hphase
  obtain ⟨f1, f2, f3, f4, _, _, _⟩ := selectionRequest_frame hreq
  have hreq0 := hreq
  unfold selectionRequest at hreq
  rw [if_pos he, if_pos hl] at hreq
  split at hreq
  · cases hreq
  · rename_i total htotal
    split at hreq
    · cases hreq
    · rename_i reselection residual hcheck
      have hh := Prod.mk.inj (Except.ok.inj hreq)
      have hs0 : s0.values = total := by rw [← hh.1]
      have hfield : ∀ f, field = some f → f = total := by
        intro f hf
        rw [← hh.2] at hf
        split at hf
        · exact (Option.some.inj hf).symm
        · cases hf
      have hunfit : s.rbfCoarse.computed = false → field = some total := by
        intro hc
        unfold reselectionCheck at hcheck
        simp only [hc] at hcheck
        have h2 := Prod.mk.inj (Except.ok.inj hcheck)
        rw [← hh.2, ← h2.1]
        rfl
      have hs1 : s1.values = total ∧ s1.rbfCoarse = s.rbfCoarse ∧ s1.enabled = true ∧
          s1.livePointSelection = true ∧
          s1.livePointSelectionSumValues = s.livePointSelectionSumValues := by
        rcases hsel with ⟨_, h1⟩ | ⟨fld, s2, _, hg, h1⟩
        · rw [h1]
          exact ⟨hs0, f1, f2.trans he, f3.trans hl, f4⟩
        · obtain ⟨g1, g2, g3, g4, g5, _, _⟩ := greedySelection_frame hg
          rw [h1]
          exact ⟨g5.trans hs0, g1.trans f1, g2.trans (f2.trans he), g3.trans (f3.trans hl),
            g4.trans f4⟩
      refine ⟨total, s0, field, htotal, hreq0, hs0, hfield, hunfit, ?_⟩
      rcases hfin with ⟨_, _, hcs⟩ | ⟨_, ht, _⟩
      · obtain ⟨c1, c2, c3, c4, c5⟩ := correctSurface_frame hcs
        exact ⟨c5.trans hs1.1, c1.trans hs1.2.1, c2.trans hs1.2.2.1, c3.trans hs1.2.2.2.1,
          c4.trans hs1.2.2.2.2⟩
      · rw [ht]
        exact hs1

theorem interpolate_keeps_unfitted {env : Env} (s : RBFCoarsening) (he : s.enabled = true)
    (hl : s.livePointSelection = true) (hc : s.rbfCoarse.computed = false) :
    ∀ (vs : List matrix) (t : RBFCoarsening), runInterpolate env s vs = Except.ok t →
      t.enabled = true ∧ t.livePointSelection = true ∧ t.rbfCoarse.computed = false := by
  intro vs
  induction vs generalizing s with
  | nil =>
    intro t h
    have := Except.ok.inj h
    subst this
    exact ⟨he, hl, hc⟩
  | cons v vs ih =>
    intro t h
    unfold runInterpolate at h
    split at h
    · cases h
    · rename_i s1 out h1
      obtain ⟨_, _, _, _, _, _, _, _, _, hr, he1, hl1, _⟩ := interpolate_live he hl h1
      exact ih s1 he1 hl1 (by rw [hr]; exact hc) t h

theorem selectionRequest_unfitted {env : Env} {s s0 : RBFCoarsening} {values : matrix}
    {field : Option matrix} (he : s.enabled = true) (hl : s.livePointSelection = true)
    (hc : s.rbfCoarse.computed = false)
    (h : selectionRequest env s values = Except.ok (s0, field)) : field ≠ none := by
  unfold selectionRequest at h
  rw [if_pos he, if_pos hl] at h
  split at h
  · cases h
  · rename_i total htotal
    split at h
    · cases h
    · rename_i reselection residual hcheck
      unfold reselectionCheck at hcheck
      simp only [hc] at hcheck
      have h2 := Prod.mk.inj (Except.ok.inj hcheck)
      have hh := Prod.mk.inj (Except.ok.inj h)
      rw [← hh.2, ← h2.1]
      simp

theorem unfitted_always_selects {env : Env} (s : RBFCoarsening) (he : s.enabled = true)
    (hl : s.livePointSelection = true) (hc : s.rbfCoarse.computed = false)
    (pre : List matrix) (sp s0 : RBFCoarsening) (values : matrix) (field : Option matrix)
    (hpre : runInterpolate env s pre = Except.ok sp)
    (h : selectionRequest env sp values = Except.ok (s0, field)) : field ≠ none := by
  obtain ⟨he1, hl1, hc1⟩ := interpolate_keeps_unfitted s he hl hc pre sp hpre
  exact selectionRequest_unfitted he1 hl1 hc1 h

theorem construct_fresh_unfitted {rbf : RBFInterpolation} {enabled live sum two sc ex : Bool}
    {tol tolLive ratio : ℚ} {cMin cMax : Int} {s : RBFCoarsening}
    (h : RBFCoarsening.construct rbf enabled live sum tol tolLive cMin cMax two sc ratio ex
      = Except.ok s) :
    s.rbfCoarse.computed = false ∧ s.values = [] ∧ s.enabled = enabled ∧
      s.livePointSelection = live := by
  unfold RBFCoarsening.construct at h
  repeat' split at h
  all_goals (cases h; try exact ⟨rfl, rfl, rfl, rfl⟩)

theorem sampleController_constructed (live two : Bool) (tol : ℚ) (cMin cMax : Int)
    (positions : matrix) (h1 : 0 < cMin) (h2 : cMin ≤ cMax) (h3 : 0 < tol) (h4 : tol < 1) :
    (RBFCoarsening.construct RBFInterpolation.fresh true live false tol tol cMin cMax two false 10
      false).map (fun s => s.compute positions positions)
      = Except.ok (sampleController live two tol cMin cMax positions) := by
  have h5 : 0 < cMax := lt_of_lt_of_le h1 h2
  unfold RBFCoarsening.construct
  simp only [gt_iff_lt, not_le, not_lt]
  rw [if_neg (not_lt.mpr h2), if_neg (not_le.mpr h1), if_neg (not_le.mpr h5),
    if_neg (not_le.mpr h3), if_neg (not_le.mpr h4), if_neg (not_le.mpr h3),
    if_neg (not_le.mpr h4)]
  rfl

/-- C7 (code defect shown): a live controller with a coarse solver that
reproduces the field. After the first call the selection is `[0, 1]`, it
reproduces the field without any error, and the member `rbfCoarse` is still
not fitted; the second call with the same field hands the field to
`greedySelection` again. -/
theorem C7_second_call_reselects :
    (runInterpolate (sampleEnv exactLineSolver)
        (sampleController true false (1 / 1000) 1 3 linePositions) [lineValues]).toOption.map
      (fun t => (t.selectedPositions, t.rbfCoarse.computed)) = some ([0, 1], false) ∧
    coarseInterpolation (sampleEnv exactLineSolver)
      (sampleController true false (1 / 1000) 1 3 linePositions) lineValues [0, 1]
      = Except.ok lineValues ∧
    (runInterpolate (sampleEnv exactLineSolver)
        (sampleController true false (1 / 1000) 1 3 linePositions) [lineValues]).toOption.bind
      (fun t => (selectionRequest (sampleEnv exactLineSolver) t lineValues).toOption.map
        (fun r => r.2)) = some (some lineValues) := by
  decide!

theorem selectionPhase_static_fitted {env : Env} {s : RBFCoarsening} {values : matrix}
    (he : s.enabled = true) (hl : s.livePointSelection = false) (hc : s.rbf.computed = true) :
    selectionPhase env s values = Except.ok s := by
  have hreq : selectionRequest env s values = Except.ok (s, none) := by
    unfold selectionRequest
    simp [he, hl, hc]
  unfold selectionPhase
  rw [if_pos he, hreq]

theorem selectionPhase_static {env : Env} {s s1 : RBFCoarsening} {values : matrix}
    (he : s.enabled = true) (hl : s.livePointSelection = false)
    (h : selectionPhase env s values = Except.ok s1) :
    s1.enabled = true ∧ s1.livePointSelection = false ∧ (s.rbf.computed = true → s1 = s) ∧
      (s.rbf.computed = false → s1.rbf.computed = true) := by
  by_cases hc : s.rbf.computed = true
  · rw [selectionPhase_static_fitted he hl hc] at h
    have := Except.ok.inj h
    subst this
    exact ⟨he, hl, fun _ => rfl, fun h2 => by rw [hc] at h2; cases h2⟩
  · obtain ⟨s0, field, hreq, hsel⟩ := selectionPhase_enabled he h
    obtain ⟨_, f2, f3, _, f5, _, _⟩ := selectionRequest_frame hreq
    rcases hsel with ⟨hnone, _⟩ | ⟨fld, s2, _, hg, h1⟩
    · exfalso
      unfold selectionRequest at hreq
      simp [he, hl, hc] at hreq
      split at hreq
      · cases hreq
      · have hh := Prod.mk.inj (Except.ok.inj hreq)
        rw [hnone] at hh
        cases hh.2
    · obtain ⟨_, g2, g3, _, _, _, g7⟩ := greedySelection_frame hg
      rw [h1]
      refine ⟨g2.trans (f2.trans he), g3.trans (f3.trans hl), fun h2 => absurd h2 hc, fun _ => ?_⟩
      exact g7

/-- C9: static selection. If `interpolate` returns on an input field, a second
call with the same field returns the same output and leaves the controller,
with its selected indices and its fitted solver, as the first call left it. -/
theorem C9_static_interpolate_repeats (env : Env) (s t : RBFCoarsening) (values out : matrix)
    (he : s.enabled = true) (hl : s.livePointSelection = false)
    (h : s.interpolate env values = Except.ok (t, out)) :
    t.interpolate env values = Except.ok (t, out) ∧
    (∀ t2 out2, t.interpolate env values = Except.ok (t2, out2) →
      out2 = out ∧ t2.selectedPositions = t.selectedPositions ∧ t2.rbf = t.rbf) := by
  have hsecond : t.interpolate env values = Except.ok (t, out) := by
    obtain ⟨s1, used, hphase, hused, hfin⟩ := interpolate_ok h
    obtain ⟨he1, hl1, hkeep, hfit⟩ := selectionPhase_static he hl hphase
    rcases hfin with ⟨hlive, _, _⟩ | ⟨hno, ht, hout⟩
    · rw [hl1] at hlive
      cases hlive
    · subst ht
      by_cases hc : s.rbf.computed = true
      · have := hkeep hc
        subst this
        exact h
      · have hc1 : t.rbf.computed = true := hfit (by simpa using hc)
        unfold RBFCoarsening.interpolate
        rw [selectionPhase_static_fitted he1 hl1 hc1]
        simp only [hused, if_neg hno]
        rw [hout]
  refine ⟨hsecond, ?_⟩
  intro t2 out2 h2
  rw [hsecond] at h2
  have hh := Prod.mk.inj (Except.ok.inj h2)
  rw [← hh.1, ← hh.2]
  exact ⟨rfl, rfl, rfl⟩

/-- Witness for C9: a static controller on the line data. -/
theorem C9_static_interpolate_repeats_witness :
    (sampleController false false (1 / 1000) 1 3 linePositions).enabled = true ∧
    (sampleController false false (1 / 1000) 1 3 linePositions).livePointSelection = false ∧
    ∃ t out, (sampleController false false (1 / 1000) 1 3 linePositions).interpolate
        (sampleEnv lineSolver) lineValues = Except.ok (t, out) ∧
      t.interpolate (sampleEnv lineSolver) lineValues = Except.ok (t, out) :=
  ⟨rfl, rfl,
    match h : (sampleController false false (1 / 1000) 1 3 linePositions).interpolate
        (sampleEnv lineSolver) lineValues with
    | Except.ok (t, out) =>
      ⟨t, out, rfl,
        (C9_static_interpolate_repeats (sampleEnv lineSolver)
          (sampleController false false (1 / 1000) 1 3 linePositions) t lineValues out
          rfl rfl h).1⟩
    | Except.error e => by
      have hb : ((sampleController false false (1 / 1000) 1 3 linePositions).interpolate
          (sampleEnv lineSolver) lineValues).toBool = true := by decide!
      rw [h] at hb
      cases hb⟩

/-- C10 (as stated, refuted): with `nbMovingFaceCenters = 0` no control point
is a moving point, and every row of the unit-displacement field is 1. -/
theorem C10_all_rows_one_without_moving_points :
    (sampleController false false (1 / 1000) 1 3 pairPositions).nbMovingFaceCenters = 0 ∧
    (selectionRequest (sampleEnv roundingSolver)
        (sampleController false false (1 / 1000) 1 3 pairPositions) pairValues).toOption.map
      (fun r => r.2) = some (some [[1], [1]]) := by
  decide!

theorem getD_map_range {α : Type} (f : Nat → α) (n i : Nat) (d : α) (hi : i < n) :
    ((List.range n).map f).getD i d = f i := by
  rw [List.getD_eq_getElem _ _ (by simpa using hi)]
  simp

/-- C10 (amended): static selection on a solver that is not fitted yet. The
field that `interpolate` hands to `greedySelection` has one row per control
point; if `nbMovingFaceCenters` is not 0, row i is 1 in every component for
i < nbMovingFaceCenters and 0 in every component otherwise; if
`nbMovingFaceCenters` is 0, every row is 1 in every component. The field is
the same for all values of the caller. -/
theorem C10_unit_displacement_field (env : Env) (s : RBFCoarsening) (values : matrix)
    (he : s.enabled = true) (hl : s.livePointSelection = false)
    (hc : s.rbf.computed = false) (hn : s.nbMovingFaceCenters ≤ rows s.positions) :
    ∃ unit, (∀ other, selectionRequest env s other = Except.ok (s, some unit)) ∧
      selectionRequest env s values = Except.ok (s, some unit) ∧
      unit.length = s.positions.length ∧
      ∀ i, i < s.positions.length →
        unit.getD i [] = List.replicate (cols s.positions).toNat
          (if s.nbMovingFaceCenters = 0 ∨ (i : Int) < s.nbMovingFaceCenters then (1 : ℚ) else 0) := by
  have hreq : ∀ other, selectionRequest env s other =
      match unitDisplacement s.positions s.nbMovingFaceCenters with
      | Except.error e => Except.error e
      | Except.ok unit => Except.ok (s, some unit) := by
    intro other
    unfold selectionRequest
    simp [he, hl, hc]
  have hge : ¬ ¬ (rows s.positions ≥ s.nbMovingFaceCenters) := by
    intro h
    exact h hn
  by_cases h0 : s.nbMovingFaceCenters = 0
  · have hu : unitDisplacement s.positions s.nbMovingFaceCenters =
        Except.ok (constant s.positions.length (cols s.positions).toNat 1) := by
      unfold unitDisplacement
      rw [if_neg hge, if_pos h0]
    refine ⟨_, fun other => by rw [hreq other, hu], by rw [hreq values, hu], ?_, ?_⟩
    · simp [constant]
    · intro i hi
      rw [if_pos (Or.inl h0)]
      unfold constant
      rw [List.getD_eq_getElem _ _ (by simpa using hi)]
      simp
  · have hu : unitDisplacement s.positions s.nbMovingFaceCenters =
        Except.ok ((List.range s.positions.length).map (fun (i : Nat) =>
          List.replicate (cols s.positions).toNat
            (if (i : Int) < s.nbMovingFaceCenters then (1 : ℚ) else 0))) := by
      unfold unitDisplacement
      rw [if_neg hge, if_neg h0]
    refine ⟨_, fun other => by rw [hreq other, hu], by rw [hreq values, hu], ?_, ?_⟩
    · simp
    · intro i hi
      rw [getD_map_range _ _ _ _ hi]
      simp [h0]

/-- Witness for C10: two control points, the first of them moving. -/
theorem C10_unit_displacement_field_witness :
    ({ sampleController false false (1 / 1000) 1 3 pairPositions with
        nbMovingFaceCenters := 1 } : RBFCoarsening).enabled = true ∧
    ({ sampleController false false (1 / 1000) 1 3 pairPositions with
        nbMovingFaceCenters := 1 } : RBFCoarsening).livePointSelection = false ∧
    ({ sampleController false false (1 / 1000) 1 3 pairPositions with
        nbMovingFaceCenters := 1 } : RBFCoarsening).rbf.computed = false ∧
    (1 : Int) ≤ rows pairPositions ∧
    (selectionRequest (sampleEnv roundingSolver)
        { sampleController false false (1 / 1000) 1 3 pairPositions with
          nbMovingFaceCenters := 1 } pairValues).toOption.map
      (fun r => r.2) = some (some [[1], [0]]) ∧
    ∃ unit : matrix, unit.length = pairPositions.length :=
  ⟨rfl, rfl, rfl, by decide, by decide!,
    match C10_unit_displacement_field (sampleEnv roundingSolver)
      { sampleController false false (1 / 1000) 1 3 pairPositions with
        nbMovingFaceCenters := 1 } pairValues rfl rfl rfl (by decide) with
    | ⟨unit, _, _, hlen, _⟩ => ⟨unit, hlen⟩⟩

theorem length_filter_positions {α : Type} (p : α → Bool) (d : α) (l : List α) :
    (l.filter p).length = ((List.range l.length).filter (fun j => p (l.getD j d))).length := by
  induction l with
  | nil => rfl
  | cons x xs ih =>
    rw [List.length_cons, List.range_succ_eq_map, List.filter_cons, List.filter_cons,
      List.filter_map, List.getD_cons_zero]
    have hcomp : ((fun j => p ((x :: xs).getD j d)) ∘ Nat.succ) = fun j => p (xs.getD j d) := by
      funext j
      simp
    rw [hcomp]
    by_cases hp : p x = true
    · simp only [hp, if_true, List.length_cons, List.length_map]
      rw [ih]
    · simp only [hp, List.length_map]
      simpa using ih

/-- C11: after `setNbMovingAndStaticFaceCenters( nbMoving, nbStatic )` the member
`nbMovingFaceCenters` is `nbMoving`; the trim count `nbStaticFaceCentersRemove`
is `nbStatic` if coarsening is disabled, and the number of positions j of the
selected-index sequence with `selectedPositions[j] >= nbMoving` if it is
enabled; the selected-index sequence is unchanged. -/
theorem C11_set_moving_and_static (s : RBFCoarsening) (nbMoving nbStatic : Int) :
    (s.setNbMovingAndStaticFaceCenters nbMoving nbStatic).nbMovingFaceCenters = nbMoving ∧
    (s.setNbMovingAndStaticFaceCenters nbMoving nbStatic).nbStaticFaceCentersRemove =
      (if s.enabled = true then
        (((List.range s.selectedPositions.length).filter
          (fun j => decide (s.selectedPositions.getD j 0 ≥ nbMoving))).length : Int)
      else nbStatic) ∧
    (s.setNbMovingAndStaticFaceCenters nbMoving nbStatic).selectedPositions
      = s.selectedPositions := by
  unfold RBFCoarsening.setNbMovingAndStaticFaceCenters
  by_cases he : s.enabled = true
  · rw [if_pos he, if_pos he]
    refine ⟨rfl, ?_, rfl⟩
    show ((s.selectedPositions.filter (fun i => decide (i ≥ nbMoving))).length : Int) = _
    rw [length_filter_positions (fun i => decide (i ≥ nbMoving)) 0 s.selectedPositions]
  · rw [if_neg he, if_neg he]
    exact ⟨rfl, rfl, rfl⟩

/-- C12 (code defect shown): static selection on three control points, the
third of them static, with `setNbMovingAndStaticFaceCenters( 2, 1 )` called
before the first `interpolate`. The trim count is taken from the empty
selection and is 0; `interpolate` then selects `[0, 2, 1]`, which holds one
static index, takes 0 columns off the operator and hands all three gathered
rows to the solver. -/
theorem C12_trim_count_is_stale :
    orderController.nbStaticFaceCentersRemove = 0 ∧
    (orderController.interpolate (sampleEnv orderSolver) orderValues).toOption.map
      (fun r => (r.1.selectedPositions, staticCount r.1.selectedPositions r.1.nbMovingFaceCenters,
        r.1.rbf.HhatTrim, r.2)) = some ([0, 2, 1], 1, 0, [[7], [0], [8]]) := by
  decide!

/-- C13 (code defect shown): the controller of C12 after its first
`interpolate` and a second `setNbMovingAndStaticFaceCenters( 2, 1 )`, which
sets the trim count to 1. The selection is `[0, 2, 1]`; the rows at its moving
indices are `[[7], [8]]`, but the solver is handed `[[7], [0]]`: the row of
the static index 2 is kept and the row of the moving index 1 is dropped. -/
theorem C13_last_rows_are_dropped :
    (runInterpolate (sampleEnv orderSolver) orderController [orderValues]).toOption.map
      (fun t => ((t.setNbMovingAndStaticFaceCenters 2 1).selectedPositions,
        (t.setNbMovingAndStaticFaceCenters 2 1).nbStaticFaceCentersRemove))
      = some ([0, 2, 1], 1) ∧
    (runInterpolate (sampleEnv orderSolver) orderController [orderValues]).toOption.bind
      (fun t => (usedValues (t.setNbMovingAndStaticFaceCenters 2 1) orderValues).toOption)
      = some [[7], [0]] ∧
    (runInterpolate (sampleEnv orderSolver) orderController [orderValues]).toOption.bind
      (fun t => (movingRows orderValues
        (t.setNbMovingAndStaticFaceCenters 2 1).selectedPositions 2).toOption)
      = some [[7], [8]] := by
  decide!

theorem construct_refuses (rbf : RBFInterpolation) (enabled live sum : Bool) (tol tolLive : ℚ)
    (cMin cMax : Int) (twoPoint sc : Bool) (ratio : ℚ) (exportTxt : Bool)
    (h : tol ≤ 0 ∨ tolLive ≤ 0 ∨ cMin > cMax) :
    RBFCoarsening.construct rbf enabled live sum tol tolLive cMin cMax twoPoint sc ratio exportTxt
      = Except.error Fault.assertion := by
  unfold RBFCoarsening.construct
  repeat' split
  all_goals first
    | rfl
    | (exfalso; rcases h with h | h | h <;> simp_all)

theorem construct_accepts {rbf : RBFInterpolation} {enabled live sum : Bool} {tol tolLive : ℚ}
    {cMin cMax : Int} {twoPoint sc : Bool} {ratio : ℚ} {exportTxt : Bool} {s : RBFCoarsening}
    (h : RBFCoarsening.construct rbf enabled live sum tol tolLive cMin cMax twoPoint sc ratio
      exportTxt = Except.ok s) :
    s.coarseningMinPoints ≤ s.coarseningMaxPoints ∧ 0 < s.tol ∧ 0 < s.tolLivePointSelection := by
  unfold RBFCoarsening.construct at h
  repeat' split at h
  all_goals (cases h; try (refine ⟨?_, ?_, ?_⟩ <;> simp_all))

theorem greedySelection_refuses_rows (env : Env) (s : RBFCoarsening) (values : matrix)
    (h : rows s.positions ≠ rows values) :
    s.greedySelection env values = Except.error Fault.assertion := by
  have ha : greedyAsserts s values = false := by
    unfold greedyAsserts
    simp [h]
  unfold RBFCoarsening.greedySelection
  rw [if_pos ha]

theorem constructed_bounds {s : RBFCoarsening} (h : Constructed s) :
    s.coarseningMinPoints ≤ s.coarseningMaxPoints ∧
      (s.tol ≤ 0 ∨ s.tolLivePointSelection ≤ 0 →
        s.enabled = false ∧ s.tol = 0 ∧ s.tolLivePointSelection = 0) := by
  cases h with
  | default h =>
    have := Except.ok.inj h
    subst this
    exact ⟨le_refl _, fun _ => ⟨rfl, rfl, rfl⟩⟩
  | shared rbf h =>
    have := Except.ok.inj h
    subst this
    exact ⟨le_refl _, fun _ => ⟨rfl, rfl, rfl⟩⟩
  | nine rbf enabled live sum tol tolLive cMin cMax exportTxt h =>
    obtain ⟨h1, h2, h3⟩ := construct_accepts h
    refine ⟨h1, fun hh => ?_⟩
    rcases hh with hh | hh
    · exact absurd h2 (not_lt.mpr hh)
    · exact absurd h3 (not_lt.mpr hh)
  | ten rbf enabled live sum tol tolLive cMin cMax twoPoint exportTxt h =>
    obtain ⟨h1, h2, h3⟩ := construct_accepts h
    refine ⟨h1, fun hh => ?_⟩
    rcases hh with hh | hh
    · exact absurd h2 (not_lt.mpr hh)
    · exact absurd h3 (not_lt.mpr hh)
  | full rbf enabled live sum tol tolLive cMin cMax twoPoint sc ratio exportTxt h =>
    obtain ⟨h1, h2, h3⟩ := construct_accepts h
    refine ⟨h1, fun hh => ?_⟩
    rcases hh with hh | hh
    · exact absurd h2 (not_lt.mpr hh)
    · exact absurd h3 (not_lt.mpr hh)

/-- C14 (as stated, refuted): the one-argument constructor and the default
constructor build a controller whose `tol` is 0; nothing is refused. -/
theorem C14_blank_controller_has_zero_tol :
    (RBFCoarsening.constructShared RBFInterpolation.fresh).toOption.map
      (fun s => (decide (s.tol ≤ 0), s.enabled)) = some (true, false) ∧
    RBFCoarsening.constructDefault.toOption.map
      (fun s => (decide (s.tol ≤ 0), s.enabled)) = some (true, false) := by
  decide!

/-- C14 (amended): each constructor that takes `tol`, `tolLivePointSelection`,
`minPoints` and `maxPoints` refuses a non-positive `tol`, a non-positive
`tolLivePointSelection` and `minPoints > maxPoints`; the default and the
one-argument constructor take none of them and build a disabled controller
with both tolerances 0. So no constructed controller has
`minPoints > maxPoints`, and a constructed controller with a non-positive
tolerance is disabled. `greedySelection` refuses a value field whose row count
differs from the row count of the control points. -/
theorem C14_refused_parameters (env : Env) :
    (∀ (rbf : RBFInterpolation) (enabled live sum : Bool) (tol tolLive : ℚ) (cMin cMax : Int)
        (twoPoint sc : Bool) (ratio : ℚ) (exportTxt : Bool),
      (tol ≤ 0 ∨ tolLive ≤ 0 ∨ cMin > cMax) →
        RBFCoarsening.constructNine rbf enabled live sum tol tolLive cMin cMax exportTxt
          = Except.error Fault.assertion ∧
        RBFCoarsening.constructTen rbf enabled live sum tol tolLive cMin cMax twoPoint exportTxt
          = Except.error Fault.assertion ∧
        RBFCoarsening.construct rbf enabled live sum tol tolLive cMin cMax twoPoint sc ratio
          exportTxt = Except.error Fault.assertion) ∧
    (∀ s, Constructed s →
      s.coarseningMinPoints ≤ s.coarseningMaxPoints ∧
        (s.tol ≤ 0 ∨ s.tolLivePointSelection ≤ 0 →
          s.enabled = false ∧ s.tol = 0 ∧ s.tolLivePointSelection = 0)) ∧
    (∀ (s : RBFCoarsening) (values : matrix), rows s.positions ≠ rows values →
      s.greedySelection env values = Except.error Fault.assertion) := by
  refine ⟨?_, fun s hs => constructed_bounds hs, greedySelection_refuses_rows env⟩
  intro rbf enabled live sum tol tolLive cMin cMax twoPoint sc ratio exportTxt h
  exact ⟨construct_refuses rbf enabled live sum tol tolLive cMin cMax false false 10 exportTxt h,
    construct_refuses rbf enabled live sum tol tolLive cMin cMax twoPoint false 10 exportTxt h,
    construct_refuses rbf enabled live sum tol tolLive cMin cMax twoPoint sc ratio exportTxt h⟩

/-- Witness for C14: a zero `tol` is refused by the full constructor, the
blank controller is constructed, and a field of three rows is refused on two
control points. -/
theorem C14_refused_parameters_witness :
    ((0 : ℚ) ≤ 0 ∨ (1 / 2 : ℚ) ≤ 0 ∨ (1 : Int) > 3) ∧
    RBFCoarsening.construct RBFInterpolation.fresh true true false 0 (1 / 2) 1 3 false false 10
      false = Except.error Fault.assertion ∧
    Constructed (RBFCoarsening.blank RBFInterpolation.fresh) ∧
    (RBFCoarsening.blank RBFInterpolation.fresh).enabled = false ∧
    rows (sampleController true false (1 / 1000) 1 3 pairPositions).positions ≠ rows tripleValues ∧
    (sampleController true false (1 / 1000) 1 3 pairPositions).greedySelection
      (sampleEnv roundingSolver) tripleValues = Except.error Fault.assertion :=
  ⟨Or.inl (le_refl 0),
    ((C14_refused_parameters (sampleEnv roundingSolver)).1 RBFInterpolation.fresh true true false
      0 (1 / 2) 1 3 false false 10 false (Or.inl (le_refl 0))).2.2,
    Constructed.default rfl,
    ((C14_refused_parameters (sampleEnv roundingSolver)).2.1
      (RBFCoarsening.blank RBFInterpolation.fresh) (Constructed.default rfl)).2
      (Or.inl (le_refl 0)) |>.1,
    by decide,
    (C14_refused_parameters (sampleEnv roundingSolver)).2.2
      (sampleController true false (1 / 1000) 1 3 pairPositions) tripleValues (by decide)⟩

theorem growthAfter_reachable {env : Env} {s : RBFCoarsening} {values : matrix} {k : Nat}
    {g : Growth} (h : GrowthAfter env s values k g) : GrowthReachable env s values g := by
  induction h with
  | seed h0 => exact GrowthReachable.seed h0
  | step _ hit ih => exact GrowthReachable.step ih hit

theorem growthAfter_counter {env : Env} {s : RBFCoarsening} {values : matrix} {k : Nat}
    {g : Growth} (h : GrowthAfter env s values k g) :
    (2 : Int) + k ≤ g.counter ∧ (k : Int) ≤ max 0 (maxNbPoints s - 2) := by
  induction h with
  | seed h0 =>
    obtain ⟨a, b, _, _, hc, _⟩ := seedSelection_shape h0
    rw [hc]
    simp
  | @step k g g1 _ hit ih =>
    obtain ⟨c, _, hb, hg⟩ := growthIteration_cases hit
    have hcv : converged s c g.counter = false := hb.symm
    simp [hcv] at hg
    have hlt := converged_false_lt hcv
    have hcnt := appendCandidates_counter s c g
    subst hg
    constructor
    · push_cast
      omega
    · push_cast
      have : (k : Int) + 1 ≤ maxNbPoints s - 2 := by omega
      exact le_trans this (le_max_right _ _)

/-- C17: the growth loop of `greedySelection` terminates. After k passes that
append, k is at most `max(0, min(maxPoints, N) - 2)`; each pass that does not
stop makes the selected-index sequence strictly longer; and from the seed
state the loop is left within `max(0, min(maxPoints, N) - 2) + 1` passes,
whatever the solver returns. -/
theorem C17_growth_loop_terminates (env : Env) (s : RBFCoarsening) (values : matrix) :
    (∀ k g, GrowthAfter env s values k g →
      (k : Int) ≤ max 0 (min s.coarseningMaxPoints (rows s.positions) - 2)) ∧
    (∀ g g1, GrowthReachable env s values g →
      growthIteration env s values g = Except.ok (false, g1) →
      g.selectedPositions.length < g1.selectedPositions.length) ∧
    (∀ g0, seedSelection env s values = Except.ok g0 →
      growthLoop env s values
        ((max 0 (min s.coarseningMaxPoints (rows s.positions) - 2)).toNat + 1) g0
        ≠ Except.error Fault.fuel) := by
  refine ⟨fun k g h => (growthAfter_counter h).2, ?_, ?_⟩
  · intro g g1 hr hit
    obtain ⟨c, _, hb, hg⟩ := growthIteration_cases hit
    have hcv : converged s c g.counter = false := hb.symm
    simp [hcv] at hg
    obtain ⟨extra, hex⟩ := appendCandidates_prefix s c g
    have hcnt := appendCandidates_counter s c g
    have h1 := reachable_counter hr
    have h2 := reachable_counter (GrowthReachable.step hr hit)
    subst hg
    omega
  · intro g0 h0
    obtain ⟨a, b, _, _, hc, _⟩ := seedSelection_shape h0
    apply growthLoop_not_fuel
    rw [hc]
    have : maxNbPoints s = min s.coarseningMaxPoints (rows s.positions) := rfl
    rw [this]
    omega

/-- Witness for C17: the run on the line data appends once and then stops. -/
theorem C17_growth_loop_terminates_witness :
    GrowthAfter (sampleEnv lineSolver) (sampleController true false (1 / 1000) 1 3 linePositions)
      lineValues 1 ⟨[0, 1, 2], [2, 1, 0], 3,
        1118033988749894848204587281579233 / 4000000031622776601683793000000000,
        1000000000000000000000000 / 4000000031622776601683793, []⟩ ∧
    ((1 : Nat) : Int) ≤ max 0 (min 3 (rows linePositions) - 2) :=
  have h1 : GrowthAfter (sampleEnv lineSolver)
      (sampleController true false (1 / 1000) 1 3 linePositions) lineValues 1
      ⟨[0, 1, 2], [2, 1, 0], 3, 1118033988749894848204587281579233 / 4000000031622776601683793000000000,
        1000000000000000000000000 / 4000000031622776601683793, []⟩ :=
    GrowthAfter.step (GrowthAfter.seed (g := ⟨[0, 1], [1, 0], 2, 0, 0, []⟩) (by decide!))
      (by decide!)
  ⟨h1, (C17_growth_loop_terminates (sampleEnv lineSolver)
    (sampleController true false (1 / 1000) 1 3 linePositions) lineValues).1 1 _ h1⟩

theorem scan_snoc (key : Nat → ℚ) (ok : Nat → Bool) (idxs : List Nat) (n : Nat) (init : ℚ × Int) :
    scan key ok (idxs ++ [n]) init = scanStep key ok (scan key ok idxs init) n := by
  unfold scan
  rw [List.foldl_append]
  rfl

theorem lowestArgmax_congr {key key1 : Nat → ℚ} {ok ok1 : Nat → Bool} {n r : Nat}
    (hk : ∀ i, i < n → key i = key1 i) (ho : ∀ i, i < n → ok i = ok1 i)
    (h : LowestArgmax key ok n r) : LowestArgmax key1 ok1 n r := by
  obtain ⟨h1, h2, h3, h4⟩ := h
  refine ⟨h1, ?_, ?_, ?_⟩
  · rw [← ho r h1]
    exact h2
  · intro i hi hoi
    rw [← hk i hi, ← hk r h1]
    exact h3 i hi (by rw [ho i hi]; exact hoi)
  · intro i hi hoi
    have hin : i < n := lt_trans hi h1
    rw [← hk i hin, ← hk r h1]
    exact h4 i hi (by rw [ho i hin]; exact hoi)

theorem lowestArgmax_unique {key : Nat → ℚ} {ok : Nat → Bool} {n r r1 : Nat}
    (h : LowestArgmax key ok n r) (h1 : LowestArgmax key ok n r1) : r = r1 := by
  obtain ⟨a1, a2, a3, a4⟩ := h
  obtain ⟨b1, b2, b3, b4⟩ := h1
  rcases Nat.lt_trichotomy r r1 with hlt | heq | hgt
  · exact absurd (a3 r1 b1 b2) (not_le.mpr (b4 r hlt a2))
  · exact heq
  · exact absurd (b3 r a1 a2) (not_le.mpr (a4 r1 hgt b2))

/-- The running-maximum loop from `(b, -1)` over the indices below `n`: if no
index satisfies `ok` the start value is left, otherwise the result is the
reference choice, as long as every `key` that counts lies above `b`. -/
theorem scan_range_spec (key : Nat → ℚ) (ok : Nat → Bool) (b : ℚ) :
    ∀ n, (∀ i, i < n → ok i = true → b < key i) →
      ((∀ i, i < n → ok i = false) ∧ scan key ok (List.range n) (b, -1) = (b, -1)) ∨
      (∃ r, LowestArgmax key ok n r ∧ scan key ok (List.range n) (b, -1) = (key r, (r : Int))) := by
  intro n
  induction n with
  | zero =>
    intro _
    left
    exact ⟨fun i hi => absurd hi (Nat.not_lt_zero i), rfl⟩
  | succ n ih =>
    intro hb
    rw [List.range_succ, scan_snoc]
    have hb1 : ∀ i, i < n → ok i = true → b < key i := fun i hi => hb i (Nat.lt_succ_of_lt hi)
    rcases ih hb1 with ⟨hnone, hres⟩ | ⟨r, ⟨hr1, hr2, hr3, hr4⟩, hres⟩
    · rw [hres]
      by_cases hok : ok n = true
      · right
        refine ⟨n, ⟨Nat.lt_succ_self n, hok, ?_, ?_⟩, ?_⟩
        · intro i hi hoi
          rcases Nat.lt_succ_iff_lt_or_eq.mp hi with h | h
          · rw [hnone i h] at hoi
            cases hoi
          · rw [h]
        · intro i hi hoi
          rw [hnone i hi] at hoi
          cases hoi
        · unfold scanStep
          rw [if_pos ⟨hb n (Nat.lt_succ_self n) hok, hok⟩]
      · left
        constructor
        · intro i hi
          rcases Nat.lt_succ_iff_lt_or_eq.mp hi with h | h
          · exact hnone i h
          · rw [h]
            simpa using hok
        · unfold scanStep
          rw [if_neg (fun h => hok h.2)]
    · rw [hres]
      right
      by_cases hc : key n > key r ∧ ok n = true
      · refine ⟨n, ⟨Nat.lt_succ_self n, hc.2, ?_, ?_⟩, ?_⟩
        · intro i hi hoi
          rcases Nat.lt_succ_iff_lt_or_eq.mp hi with h | h
          · exact le_trans (hr3 i h hoi) (le_of_lt hc.1)
          · rw [h]
        · intro i hi hoi
          exact lt_of_le_of_lt (hr3 i hi hoi) hc.1
        · unfold scanStep
          rw [if_pos hc]
      · refine ⟨r, ⟨Nat.lt_succ_of_lt hr1, hr2, ?_, hr4⟩, ?_⟩
        · intro i hi hoi
          rcases Nat.lt_succ_iff_lt_or_eq.mp hi with h | h
          · exact hr3 i h hoi
          · rw [h] at hoi ⊢
            by_contra hgt
            exact hc ⟨not_le.mp hgt, hoi⟩
        · unfold scanStep
          rw [if_neg hc]

theorem sqrtQ_nonneg (x : ℚ) : 0 ≤ sqrtQ x := by
  unfold sqrtQ
  apply div_nonneg
  · exact Nat.cast_nonneg _
  · apply mul_nonneg
    · exact Nat.cast_nonneg _
    · norm_num

theorem norm_nonneg_of {sqrt : ℚ → ℚ} (hs : ∀ x, 0 ≤ sqrt x) (v : vector) : 0 ≤ norm sqrt v :=
  hs _

theorem firstSeed_static_spec {env : Env} {s : RBFCoarsening} {values : matrix}
    (hs : ∀ x, 0 ≤ env.sqrt x) (hl : s.livePointSelection = false)
    (hex : ∃ i, i < s.positions.length ∧ norm env.sqrt (values.getD i []) > env.SMALL) :
    ∃ r : Nat, firstSeed env s values = Except.ok (r : Int) ∧
      LowestArgmax (fun i => norm env.sqrt (s.positions.getD i []))
        (fun i => decide (norm env.sqrt (values.getD i []) > env.SMALL)) s.positions.length r := by
  have hlen : (rowwiseNorm env.sqrt s.positions).length = s.positions.length := by
    simp [rowwiseNorm]
  have hb : ∀ i, i < (rowwiseNorm env.sqrt s.positions).length →
      (fun i => decide (norm env.sqrt (values.getD i []) > env.SMALL)) i = true →
      (-1 : ℚ) < (fun i => (rowwiseNorm env.sqrt s.positions).getD i 0) i := by
    intro i hi _
    simp only
    rw [rowwiseNorm_getD env.sqrt s.positions i (by omega)]
    exact lt_of_lt_of_le (by norm_num) (hs _)
  have hl1 : ¬ (s.livePointSelection = true) := by simp [hl]
  rcases scan_range_spec (fun i => (rowwiseNorm env.sqrt s.positions).getD i 0)
      (fun i => decide (norm env.sqrt (values.getD i []) > env.SMALL)) (-1)
      (rowwiseNorm env.sqrt s.positions).length hb with ⟨hnone, _⟩ | ⟨r, hr, hres⟩
  · obtain ⟨i, hi, hgt⟩ := hex
    have := hnone i (by omega)
    simp only [decide_eq_false_iff_not] at this
    exact absurd hgt this
  · refine ⟨r, ?_, ?_⟩
    · unfold firstSeed
      rw [if_neg hl1, hres]
    · rw [hlen] at hr
      exact lowestArgmax_congr (fun i hi => rowwiseNorm_getD env.sqrt s.positions i hi)
        (fun _ _ => rfl) hr

theorem row_ok_getD {m : matrix} {i : Int} {p : vector} (h : row m i = Except.ok p) :
    0 ≤ i ∧ i < (m.length : Int) ∧ p = m.getD i.toNat [] := by
  unfold row at h
  split at h
  · rename_i hv
    exact ⟨hv.1, hv.2, (Except.ok.inj h).symm⟩
  · cases h

theorem map_getD_lt {α : Type} (f : vector → α) (m : matrix) (i : Nat) (d : α)
    (hi : i < m.length) : (m.map f).getD i d = f (m.getD i []) := by
  rw [List.getD_eq_getElem _ _ (by simpa using hi), List.getD_eq_getElem _ _ hi, List.getElem_map]

theorem appendCandidates_map (s : RBFCoarsening) (c : Candidates) (g : Growth) :
    ∃ extra, (appendCandidates s c g).selectedPositions = g.selectedPositions ++ extra ∧
      ∀ x, x ∈ (appendCandidates s c g).positionsMap ↔ (x ∈ extra ∨ x ∈ g.positionsMap) := by
  unfold appendCandidates
  split
  · refine ⟨[c.index, c.index2], by simp, ?_⟩
    intro x
    simp only [List.mem_cons, List.not_mem_nil, or_false]
    tauto
  · refine ⟨[c.index], rfl, ?_⟩
    intro x
    simp only [List.mem_cons, List.not_mem_nil, or_false]

/-- The keys of `positionsMap` are the selected indices. -/
theorem reachable_map_iff {env : Env} {s : RBFCoarsening} {values : matrix} {g : Growth}
    (h : GrowthReachable env s values g) :
    ∀ x, x ∈ g.positionsMap ↔ x ∈ g.selectedPositions := by
  induction h with
  | seed h0 =>
    unfold seedSelection at h0
    split at h0
    · cases h0
    · split at h0
      · cases h0
      · split at h0
        · cases h0
        · split at h0
          · cases h0
          · have := Except.ok.inj h0
            subst this
            intro x
            simp only [List.mem_cons, List.not_mem_nil, or_false]
            tauto
  | @step g g1 _ hit ih =>
    obtain ⟨c, _, hb, hg⟩ := growthIteration_cases hit
    have hcv : converged s c g.counter = false := hb.symm
    simp [hcv] at hg
    subst hg
    obtain ⟨extra, hsel, hmap⟩ := appendCandidates_map s c g
    intro x
    rw [hmap x, hsel, List.mem_append, ih x]
    tauto

theorem residualNorms_length (env : Env) (vic values : matrix) (h : vic.length = values.length) :
    (residualNorms env vic values).length = values.length := by
  unfold residualNorms msub
  simp [h]

theorem residualNorms_getD (env : Env) (vic values : matrix) (i : Nat)
    (h : vic.length = values.length) (hi : i < values.length) :
    (residualNorms env vic values).getD i 0 =
      norm env.sqrt (vsub (vic.getD i []) (values.getD i [])) := by
  have hi1 : i < vic.length := by omega
  have hz : i < (msub vic values).length := by
    unfold msub
    simp [h, hi]
  unfold residualNorms
  rw [List.getD_eq_getElem _ _ (by simpa using hz), List.getElem_map,
    List.getD_eq_getElem _ _ hi1, List.getD_eq_getElem _ _ hi]
  unfold msub
  rw [List.getElem_zipWith]

/-- C20: a pass of the growth loop in which some control point is not yet
selected. The candidate `index` is a control point that is not yet selected,
its residual norm is the largest among the points not yet selected, and it is
the lowest index of that kind. -/
theorem C20_candidate_reference (env : Env) (s : RBFCoarsening) (values : matrix) (g : Growth)
    (c : Candidates) (hs : ∀ x, 0 ≤ env.sqrt x) (hrows : values.length = s.positions.length)
    (hr : GrowthReachable env s values g) (hc : candidates env s values g = Except.ok c)
    (hfree : ∃ i, i < s.positions.length ∧ ¬ ((i : Int) ∈ g.selectedPositions)) :
    ∃ r : Nat, c.index = (r : Int) ∧
      LowestArgmax
        (fun i => norm env.sqrt (vsub (c.valuesInterpolationCoarse.getD i []) (values.getD i [])))
        (fun i => decide (¬ ((i : Int) ∈ g.selectedPositions))) s.positions.length r ∧
      c.largestError =
        norm env.sqrt (vsub (c.valuesInterpolationCoarse.getD r []) (values.getD r [])) := by
  obtain ⟨vic, _, _, hvic, _, _, hcv, _, hidx, hlarge, _⟩ := candidates_ok hc
  have hviclen : vic.length = values.length := by
    unfold coarseInterpolation at hvic
    split at hvic
    · cases hvic
    · split at hvic
      · cases hvic
      · split at hvic
        · rename_i hl
          have := Except.ok.inj hvic
          rw [← this, hl, hrows]
        · cases hvic
  have hlen := residualNorms_length env vic values hviclen
  have hmap := reachable_map_iff hr
  have hb : ∀ i, i < (residualNorms env vic values).length →
      (fun i : Nat => decide (¬ ((i : Int) ∈ g.positionsMap))) i = true →
      (-1 : ℚ) < (fun i => (residualNorms env vic values).getD i 0) i := by
    intro i hi _
    simp only
    rw [residualNorms_getD env vic values i hviclen (by omega)]
    exact lt_of_lt_of_le (by norm_num) (hs _)
  rcases scan_range_spec _ _ (-1) _ hb with ⟨hnone, _⟩ | ⟨r, hr1, hres⟩
  · obtain ⟨i, hi, hni⟩ := hfree
    have := hnone i (by omega)
    simp only [decide_eq_false_iff_not, not_not] at this
    exact absurd ((hmap _).mp this) hni
  · have hscan : largestErrorScan (residualNorms env vic values) g.positionsMap
        = ((residualNorms env vic values).getD r 0, (r : Int)) := hres
    have hrlt : r < values.length := by
      have := hr1.1
      omega
    refine ⟨r, ?_, ?_, ?_⟩
    · rw [hidx, hscan]
    · rw [hlen, hrows] at hr1
      rw [hcv]
      refine lowestArgmax_congr
        (fun i hi => residualNorms_getD env vic values i hviclen (by omega)) (fun i _ => ?_) hr1
      simp only [decide_eq_decide]
      rw [hmap]
    · rw [hlarge, hscan, hcv]
      exact residualNorms_getD env vic values r hviclen hrlt

/-- Witness for C20: the first pass on the line data, where the points 2 and 3
are not yet selected and point 2 has the larger residual. -/
theorem C20_candidate_reference_witness :
    (∀ x, 0 ≤ (sampleEnv lineSolver).sqrt x) ∧
    lineValues.length = (sampleController true false (1 / 1000) 1 3 linePositions).positions.length ∧
    (candidates (sampleEnv lineSolver) (sampleController true false (1 / 1000) 1 3 linePositions)
      lineValues ⟨[0, 1], [1, 0], 2, 0, 0, []⟩).toOption.map (fun c => c.index) = some 2 ∧
    ∃ c, candidates (sampleEnv lineSolver)
        (sampleController true false (1 / 1000) 1 3 linePositions) lineValues
        ⟨[0, 1], [1, 0], 2, 0, 0, []⟩ = Except.ok c ∧
      ∃ r : Nat, c.index = (r : Int) ∧
        LowestArgmax
          (fun i => norm (sampleEnv lineSolver).sqrt
            (vsub (c.valuesInterpolationCoarse.getD i []) (lineValues.getD i [])))
          (fun i => decide (¬ ((i : Int) ∈ ([0, 1] : List Int))))
          (sampleController true false (1 / 1000) 1 3 linePositions).positions.length r :=
  ⟨sqrtQ_nonneg, rfl, by decide!,
    match hc : candidates (sampleEnv lineSolver)
        (sampleController true false (1 / 1000) 1 3 linePositions) lineValues
        ⟨[0, 1], [1, 0], 2, 0, 0, []⟩ with
    | Except.ok c =>
      match C20_candidate_reference (sampleEnv lineSolver)
          (sampleController true false (1 / 1000) 1 3 linePositions) lineValues
          ⟨[0, 1], [1, 0], 2, 0, 0, []⟩ c sqrtQ_nonneg rfl
          (GrowthReachable.seed (by decide!)) hc ⟨2, by decide, by decide⟩ with
      | ⟨r, h1, h2, _⟩ => ⟨c, rfl, r, h1, h2⟩
    | Except.error e => by
      have hb : (candidates (sampleEnv lineSolver)
          (sampleController true false (1 / 1000) 1 3 linePositions) lineValues
          ⟨[0, 1], [1, 0], 2, 0, 0, []⟩).toBool = true := by decide!
      rw [hc] at hb
      cases hb⟩

theorem vsub_length (a b : vector) (h : a.length = b.length) : (vsub a b).length = a.length := by
  simp [vsub, h]

/-- C15 does not hold as stated. On three control points of which one lies at
distance one from the first seed the two seeds differ (the shared-memory code
leaves that point out, the distributed code takes it). On four points with the
largest residual at the selected point 0 the growth candidates differ (point 3
against point 0 once more). On four points in the plane with one residual of
norm `1 / 8` and `tol = 1 / 10` the stopping passes differ (the shared-memory
code divides by the largest row norm of the field, the distributed code does
not). -/
theorem C15_selections_differ :
    (selectedOf ((sampleController false false (1 / 10) 1 2 bandPositions).greedySelection
        (sampleEnv (stagedSolver [[1], [1], [1]] [[1], [1], [1]])) (onesField bandPositions))
      = some [1, 2] ∧
    ((unitOf (sampleController false false (1 / 10) 1 2 bandPositions)).compute
        (sampleEnv (stagedSolver [[1], [1], [1]] [[1], [1], [1]])) bandPositions
        bandPositions).toOption.map (fun u => u.selectedPositions) = some [1, 0]) ∧
    (selectedOf ((sampleController false false (1 / 10) 1 4 linePositions).greedySelection
        (sampleEnv (stagedSolver [[1 / 2], [1], [1], [3 / 4]] [[1], [1], [1], [1]]))
        (onesField linePositions)) = some [1, 0, 3] ∧
    ((unitOf (sampleController false false (1 / 10) 1 4 linePositions)).compute
        (sampleEnv (stagedSolver [[1 / 2], [1], [1], [3 / 4]] [[1], [1], [1], [1]])) linePositions
        linePositions).toOption.map (fun u => u.selectedPositions) = some [1, 0, 0]) ∧
    (selectedOf ((sampleController false false (1 / 10) 1 4 planePositions).greedySelection
        (sampleEnv (stagedSolver [[1, 1], [1, 1], [7 / 8, 1], [1, 1]]
          [[1, 1], [1, 1], [1, 1], [1, 1]])) (onesField planePositions)) = some [1, 0] ∧
    ((unitOf (sampleController false false (1 / 10) 1 4 planePositions)).compute
        (sampleEnv (stagedSolver [[1, 1], [1, 1], [7 / 8, 1], [1, 1]]
          [[1, 1], [1, 1], [1, 1], [1, 1]])) planePositions
        planePositions).toOption.map (fun u => u.selectedPositions) = some [1, 0, 2]) := by
  refine ⟨⟨?_, ?_⟩, ⟨?_, ?_⟩, ⟨?_, ?_⟩⟩ <;> decide!

/-- The running-maximum loop from `(0, 0)` over the indices below `n` on keys
that are not negative: the lowest index of the largest key. -/
theorem scan_zero_spec (key : Nat → ℚ) :
    ∀ n, 0 < n → (∀ i, i < n → 0 ≤ key i) →
      ∃ r, LowestArgmax key (fun _ => true) n r ∧
        scan key (fun _ => true) (List.range n) (0, 0) = (key r, (r : Int)) := by
  intro n
  induction n with
  | zero => intro h; exact absurd h (Nat.lt_irrefl 0)
  | succ n ih =>
    intro _ hk
    rw [List.range_succ, scan_snoc]
    by_cases hn : n = 0
    · subst hn
      refine ⟨0, ⟨Nat.zero_lt_one, rfl, ?_, ?_⟩, ?_⟩
      · intro i hi _
        have : i = 0 := by omega
        rw [this]
      · intro i hi _
        exact absurd hi (Nat.not_lt_zero i)
      · have h0 := hk 0 Nat.zero_lt_one
        have hs : scan key (fun _ => true) (List.range 0) (0, 0) = (0, 0) := rfl
        rw [hs]
        unfold scanStep
        by_cases hc : key 0 > 0 ∧ true = true
        · rw [if_pos hc]
        · rw [if_neg hc]
          have : key 0 = 0 := le_antisymm (not_lt.mp (fun h => hc ⟨h, rfl⟩)) h0
          rw [this]
          rfl
    · have hpos : 0 < n := Nat.pos_of_ne_zero hn
      obtain ⟨r, ⟨hr1, hr2, hr3, hr4⟩, hres⟩ := ih hpos (fun i hi => hk i (Nat.lt_succ_of_lt hi))
      rw [hres]
      by_cases hc : key n > key r ∧ true = true
      · refine ⟨n, ⟨Nat.lt_succ_self n, rfl, ?_, ?_⟩, ?_⟩
        · intro i hi hoi
          rcases Nat.lt_succ_iff_lt_or_eq.mp hi with h | h
          · exact le_trans (hr3 i h hoi) (le_of_lt hc.1)
          · rw [h]
        · intro i hi hoi
          exact lt_of_le_of_lt (hr3 i hi hoi) hc.1
        · unfold scanStep
          rw [if_pos hc]
      · refine ⟨r, ⟨Nat.lt_succ_of_lt hr1, hr2, ?_, hr4⟩, ?_⟩
        · intro i hi hoi
          rcases Nat.lt_succ_iff_lt_or_eq.mp hi with h | h
          · exact hr3 i h hoi
          · rw [h]
            by_contra hgt
            exact hc ⟨not_le.mp hgt, rfl⟩
        · unfold scanStep
          rw [if_neg hc]

/-- Elemental `MaxAbsLoc` on a vector of entries that are not negative: the lowest
row of the largest entry. -/
theorem maxAbsLoc_spec (v : vector) (hv : 0 < v.length) (h0 : ∀ i, i < v.length → 0 ≤ v.getD i 0) :
    ∃ r, LowestArgmax (fun i => v.getD i 0) (fun _ => true) v.length r ∧
      maxAbsLoc v = (v.getD r 0, (r : Int)) := by
  obtain ⟨r, hr, hres⟩ := scan_zero_spec (fun i => |v.getD i 0|) v.length hv
    (fun i _ => abs_nonneg _)
  have habs : ∀ i, i < v.length → (fun i => |v.getD i 0|) i = (fun i => v.getD i 0) i :=
    fun i hi => abs_of_nonneg (h0 i hi)
  refine ⟨r, lowestArgmax_congr habs (fun _ _ => rfl) hr, ?_⟩
  unfold maxAbsLoc
  rw [if_neg (by omega), hres]
  have := habs r hr.1
  simp only at this
  rw [this]

/-- A filtered running maximum from `(b, -1)` finds the unfiltered lowest argmax
whenever that index passes the filter. -/
theorem scan_filtered_eq (key : Nat → ℚ) (ok : Nat → Bool) (b : ℚ) (n r : Nat)
    (hr : LowestArgmax key (fun _ => true) n r) (hok : ok r = true)
    (hb : ∀ i, i < n → b < key i) :
    scan key ok (List.range n) (b, -1) = (key r, (r : Int)) := by
  obtain ⟨h1, _, h3, h4⟩ := hr
  have hr1 : LowestArgmax key ok n r :=
    ⟨h1, hok, fun i hi _ => h3 i hi rfl, fun i hi _ => h4 i hi rfl⟩
  rcases scan_range_spec key ok b n (fun i hi _ => hb i hi) with ⟨hnone, _⟩ | ⟨r1, hr2, hres⟩
  · rw [hnone r h1] at hok
    cases hok
  · rw [hres, lowestArgmax_unique hr2 hr1]

theorem squaredNorm_vsub_comm : ∀ (a b : vector), squaredNorm (vsub a b) = squaredNorm (vsub b a) := by
  intro a
  induction a with
  | nil =>
    intro b
    cases b <;> rfl
  | cons x xs ih =>
    intro b
    cases b with
    | nil => rfl
    | cons y ys =>
      have h := ih ys
      simp only [squaredNorm, vsub, List.zipWith_cons_cons, List.map_cons, List.sum_cons] at h ⊢
      rw [h]
      ring

theorem rowwiseNorm_msub_comm (sqrt : ℚ → ℚ) :
    ∀ (a b : matrix), rowwiseNorm sqrt (msub a b) = rowwiseNorm sqrt (msub b a) := by
  intro a
  induction a with
  | nil =>
    intro b
    cases b <;> rfl
  | cons x xs ih =>
    intro b
    cases b with
    | nil => rfl
    | cons y ys =>
      have h := ih ys
      simp only [rowwiseNorm, msub, List.zipWith_cons_cons, List.map_cons] at h ⊢
      rw [h]
      simp only [norm, squaredNorm_vsub_comm x y]

theorem getD_constant (n d : Nat) (x : ℚ) (i : Nat) (hi : i < n) :
    (constant n d x).getD i [] = List.replicate d x := by
  unfold constant
  rw [List.getD_eq_getElem?_getD, List.getElem?_replicate, if_pos hi]
  rfl

/-- Gathering rows of a constant matrix gives a constant matrix. -/
theorem gather_constant (m : matrix) (d : Nat) (x : ℚ) :
    ∀ (sel : List Int) (r : matrix), gather m sel = Except.ok r →
      gather (constant m.length d x) sel = Except.ok (constant sel.length d x) := by
  intro sel
  induction sel with
  | nil =>
    intro r _
    rfl
  | cons i is ih =>
    intro r h
    unfold gather at h
    split at h
    · cases h
    · rename_i p hp
      split at h
      · cases h
      · rename_i rs hrs
        obtain ⟨hi0, hi1, _⟩ := row_ok_getD hp
        have hrow : row (constant m.length d x) i = Except.ok (List.replicate d x) := by
          unfold row
          have hl : (constant m.length d x).length = m.length := by simp [constant]
          rw [hl, if_pos ⟨hi0, hi1⟩, getD_constant _ _ _ _ (by omega)]
        unfold gather
        rw [hrow, ih rs hrs]
        rfl

theorem onesField_getD (positions : matrix) (i : Nat) (hi : i < positions.length) :
    (onesField positions).getD i [] = List.replicate (cols positions).toNat 1 :=
  getD_constant _ _ _ i hi

theorem onesField_length (positions : matrix) : (onesField positions).length = positions.length := by
  simp [onesField, constant]

/-- The seeds of the distributed code are those of the shared-memory code in
static mode on the all-ones field, when the largest distance from the first
seed is outside the band around one. -/
theorem unitSeeds_eq {env : Env} {s : RBFCoarsening} {g : Growth}
    (hs : ∀ x, 0 ≤ env.sqrt x) (hl : s.livePointSelection = false)
    (hones : env.SMALL < norm env.sqrt (List.replicate (cols s.positions).toNat 1))
    (hband : ∀ a b, unitSeeds env s.positions = Except.ok (a, b) →
      norm env.sqrt (vsub (s.positions.getD b.toNat []) (s.positions.getD a.toNat []))
          < 1 - env.SMALL ∨
        norm env.sqrt (vsub (s.positions.getD b.toNat []) (s.positions.getD a.toNat []))
          > 1 + env.SMALL)
    (h : seedSelection env s (onesField s.positions) = Except.ok g) :
    ∃ a b, unitSeeds env s.positions = Except.ok (a, b) ∧ g.selectedPositions = [a, b] := by
  obtain ⟨a, b, _, hsel, _, hfirst, hsecond, hrows⟩ := seedSelection_shape h
  have hN : 2 ≤ s.positions.length := by
    unfold rows at hrows
    omega
  have hall : ∀ i, i < s.positions.length →
      decide (norm env.sqrt ((onesField s.positions).getD i []) > env.SMALL) = true := by
    intro i hi
    rw [onesField_getD _ i hi]
    exact decide_eq_true hones
  obtain ⟨r, hr, hrarg⟩ := @firstSeed_static_spec env s (onesField s.positions) hs hl
    ⟨0, by omega, by rw [onesField_getD _ 0 (by omega)]; exact hones⟩
  have ha : a = (r : Int) := by
    rw [hfirst] at hr
    exact Except.ok.inj hr
  have hlen : (rowwiseNorm env.sqrt s.positions).length = s.positions.length := by
    simp [rowwiseNorm]
  obtain ⟨r1, hr1, hloc1⟩ := maxAbsLoc_spec (rowwiseNorm env.sqrt s.positions) (by omega)
    (fun i hi => by
      rw [rowwiseNorm_getD _ _ i (by omega)]
      exact hs _)
  rw [hlen] at hr1
  have hr1k : LowestArgmax (fun i => norm env.sqrt (s.positions.getD i [])) (fun _ => true)
      s.positions.length r1 :=
    lowestArgmax_congr (fun i hi => rowwiseNorm_getD env.sqrt s.positions i hi) (fun _ _ => rfl) hr1
  have hrk : LowestArgmax (fun i => norm env.sqrt (s.positions.getD i [])) (fun _ => true)
      s.positions.length r :=
    lowestArgmax_congr (fun _ _ => rfl) (fun i hi => hall i hi) hrarg
  have hrr : r1 = r := lowestArgmax_unique hr1k hrk
  subst hrr
  have hrow : row s.positions ((r1 : Nat) : Int) = Except.ok (s.positions.getD r1 []) := by
    unfold row
    rw [if_pos ⟨by omega, by have := hrk.1; omega⟩]
    simp
  have hmap : rowwiseNorm env.sqrt (s.positions.map (fun p => vsub p (s.positions.getD r1 []))) =
      s.positions.map (fun p => norm env.sqrt (vsub p (s.positions.getD r1 []))) := by
    simp [rowwiseNorm, List.map_map, Function.comp_def]
  have hlen2 : (s.positions.map (fun p => norm env.sqrt (vsub p (s.positions.getD r1 [])))).length
      = s.positions.length := by simp
  have hkey : ∀ i, i < s.positions.length →
      (s.positions.map (fun p => norm env.sqrt (vsub p (s.positions.getD r1 [])))).getD i 0 =
        norm env.sqrt (vsub (s.positions.getD i []) (s.positions.getD r1 [])) :=
    fun i hi => map_getD_lt (fun p => norm env.sqrt (vsub p (s.positions.getD r1 []))) s.positions i 0 hi
  have hnn : ∀ i, i < (s.positions.map
        (fun p => norm env.sqrt (vsub p (s.positions.getD r1 [])))).length →
      0 ≤ (s.positions.map (fun p => norm env.sqrt (vsub p (s.positions.getD r1 [])))).getD i 0 := by
    intro i hi
    rw [hkey i (by omega)]
    exact hs _
  obtain ⟨r2, hr2, hloc2⟩ := maxAbsLoc_spec
    (s.positions.map (fun p => norm env.sqrt (vsub p (s.positions.getD r1 [])))) (by omega) hnn
  have hunit : unitSeeds env s.positions = Except.ok ((r1 : Int), (r2 : Int)) := by
    unfold unitSeeds
    rw [hloc1]
    simp only
    rw [hrow]
    simp only
    rw [hmap, hloc2]
  have hb := hband _ _ hunit
  simp only [Int.toNat_ofNat] at hb
  have hok : (fun i => decide
      ((s.positions.map (fun p => norm env.sqrt (vsub p (s.positions.getD r1 [])))).getD i 0
          < 1 - env.SMALL ∨
        (s.positions.map (fun p => norm env.sqrt (vsub p (s.positions.getD r1 [])))).getD i 0
          > 1 + env.SMALL)) r2 = true := by
    simp only
    rw [hkey r2 (by have := hr2.1; omega)]
    exact decide_eq_true hb
  have hscan := scan_filtered_eq
    (fun i => (s.positions.map (fun p => norm env.sqrt (vsub p (s.positions.getD r1 [])))).getD i 0)
    (fun i => decide
      ((s.positions.map (fun p => norm env.sqrt (vsub p (s.positions.getD r1 [])))).getD i 0
          < 1 - env.SMALL ∨
        (s.positions.map (fun p => norm env.sqrt (vsub p (s.positions.getD r1 [])))).getD i 0
          > 1 + env.SMALL))
    (-1) _ r2 hr2 hok (fun i hi => lt_of_lt_of_le (by norm_num) (hnn i hi))
  have hb2 : b = (r2 : Int) := by
    rw [ha] at hsecond
    unfold secondSeed seedRadius at hsecond
    rw [hrow] at hsecond
    simp only at hsecond
    rw [hscan] at hsecond
    exact (Except.ok.inj hsecond).symm
  exact ⟨(r1 : Int), (r2 : Int), hunit, by rw [hsel, ha, hb2]⟩

/-- The residual entry the distributed pass finds is the entry of largest
residual over all control points of the shared-memory pass. -/
theorem unitResidual_eq {env : Env} {s : RBFCoarsening} {g : Growth} {c : Candidates}
    (hc : candidates env s (onesField s.positions) g = Except.ok c)
    (hw : cols c.valuesInterpolationCoarse = cols s.positions) :
    unitResidual env s.positions g.selectedPositions = Except.ok (maxAbsLoc c.errorList) := by
  obtain ⟨vic, _, _, hci, _, _, hvic, herr, _⟩ := candidates_ok hc
  unfold coarseInterpolation at hci
  split at hci
  · cases hci
  · rename_i pc hpc
    have hg := gather_constant s.positions (cols s.positions).toNat 1 _ pc hpc
    have hg1 : gather (onesField s.positions) g.selectedPositions =
        Except.ok (constant g.selectedPositions.length (cols s.positions).toNat 1) := hg
    rw [hg1] at hci
    simp only at hci
    split at hci
    · rename_i hlen
      have hv := Except.ok.inj hci
      rw [hvic, ← hv] at hw
      unfold unitResidual
      rw [hpc]
      simp only
      have hrows : rows (env.interpolate pc s.positions
          (constant g.selectedPositions.length (cols s.positions).toNat 1)) = rows s.positions := by
        unfold rows
        rw [hlen]
      rw [if_neg (not_not.mpr hrows), if_neg (not_not.mpr hw), hlen, hw, herr, ← hv]
      unfold residualNorms
      have := rowwiseNorm_msub_comm env.sqrt
        (constant s.positions.length (cols s.positions).toNat 1)
        (env.interpolate pc s.positions
          (constant g.selectedPositions.length (cols s.positions).toNat 1))
      rw [this]
      rfl
    · cases hci

theorem map_norm_nonneg {sqrt : ℚ → ℚ} (hs : ∀ x, 0 ≤ sqrt x) (m : matrix) (i : Nat)
    (hi : i < (m.map (norm sqrt)).length) : 0 ≤ (m.map (norm sqrt)).getD i 0 := by
  rw [List.getD_eq_getElem _ _ hi, List.getElem_map]
  exact hs _

/-- The candidate of the shared-memory pass is the row the distributed pass
finds, when that row is not yet selected. -/
theorem largestErrorScan_eq (errorList : vector) (positionsMap : List Int)
    (hpos : 0 < errorList.length) (h0 : ∀ i, i < errorList.length → 0 ≤ errorList.getD i 0)
    (hsel : ¬ ((maxAbsLoc errorList).2 ∈ positionsMap)) :
    largestErrorScan errorList positionsMap = maxAbsLoc errorList := by
  obtain ⟨r, hr, hloc⟩ := maxAbsLoc_spec errorList hpos h0
  rw [hloc] at hsel ⊢
  unfold largestErrorScan
  exact scan_filtered_eq (fun i => errorList.getD i 0)
    (fun i => decide (¬ ((i : Int) ∈ positionsMap))) (-1) _ r hr (decide_eq_true hsel)
    (fun i hi => lt_of_lt_of_le (by norm_num) (h0 i hi))

theorem converged_false_not {s : RBFCoarsening} {c : Candidates} {counter : Int}
    (h : converged s c counter = false) :
    ¬ (c.error < s.tol ∧ c.errorMax < s.tol ∧ counter ≥ minPoints s) := by
  intro hA
  unfold converged at h
  have : decide ((c.error < s.tol ∧ c.errorMax < s.tol ∧ counter ≥ minPoints s) ∨
      counter ≥ maxNbPoints s) = true := decide_eq_true (Or.inl hA)
  rw [this] at h
  simp at h

theorem stopWith_selected (s : RBFCoarsening) (values : matrix) (c : Candidates) (g : Growth) :
    (stopWith s values c g).selectedPositions = g.selectedPositions := rfl

/-- The two loops run in lock step as long as, in each pass below the cap, the
two tolerance tests agree and the row of largest residual is not yet selected. -/
theorem unitLoop_lockstep {env : Env} {s : RBFCoarsening}
    (hs : ∀ x, 0 ≤ env.sqrt x) (ht : s.twoPointSelection = false) (hN : 0 < s.positions.length)
    (hwidth : ∀ g c, GrowthReachable env s (onesField s.positions) g →
      candidates env s (onesField s.positions) g = Except.ok c →
      cols c.valuesInterpolationCoarse = cols s.positions)
    (hpass : ∀ g c, GrowthReachable env s (onesField s.positions) g →
      candidates env s (onesField s.positions) g = Except.ok c → g.counter < maxNbPoints s →
      (g.counter ≥ minPoints s →
        ((c.error < s.tol ∧ c.errorMax < s.tol) ↔ (maxAbsLoc c.errorList).1 < s.tol)) ∧
      (converged s c g.counter = false → ¬ ((maxAbsLoc c.errorList).2 ∈ g.selectedPositions))) :
    ∀ (fuel n : Nat) (g gf : Growth), GrowthReachable env s (onesField s.positions) g →
      (n : Int) + g.counter ≥ maxNbPoints s + 2 →
      growthLoop env s (onesField s.positions) fuel g = Except.ok gf →
      unitLoop env (unitOf s) s.positions n g.selectedPositions =
        Except.ok gf.selectedPositions := by
  intro fuel
  induction fuel with
  | zero =>
    intro n g gf _ _ h
    unfold growthLoop at h
    cases h
  | succ fuel ih =>
    intro n g gf hreach hinv h
    have hcount := reachable_counter hreach
    unfold growthLoop at h
    split at h
    · cases h
    · rename_i g1 hit
      obtain ⟨c, hc, hconv, hg1⟩ := growthIteration_cases hit
      have hconv1 : converged s c g.counter = true := hconv.symm
      rw [if_pos hconv1] at hg1
      have hgf : gf.selectedPositions = g.selectedPositions := by
        rw [← Except.ok.inj h, hg1]
        rfl
      rw [hgf]
      cases n with
      | zero => rfl
      | succ n =>
        unfold unitLoop
        rw [unitResidual_eq hc (hwidth g c hreach hc)]
        simp only
        by_cases hcap : g.counter ≥ maxNbPoints s
        · have hcap1 : (g.selectedPositions.length : Int) ≥
              min (unitOf s).maxPoints (rows s.positions) := by
            rw [← hcount]
            exact hcap
          rw [if_pos hcap1]
        · have hcap1 : ¬ ((g.selectedPositions.length : Int) ≥
              min (unitOf s).maxPoints (rows s.positions)) := by
            rw [← hcount]
            exact hcap
          rw [if_neg hcap1]
          rcases converged_true_cases hconv1 with hA | hB
          · have hp := (hpass g c hreach hc (not_le.mp hcap)).1 hA.2.2
            have htest : (maxAbsLoc c.errorList).1 < (unitOf s).tol ∧
                (g.selectedPositions.length : Int) ≥ min (unitOf s).minPoints (rows s.positions) := by
              refine ⟨hp.mp ⟨hA.1, hA.2.1⟩, ?_⟩
              rw [← hcount]
              exact hA.2.2
            rw [if_pos htest]
          · exact absurd hB hcap
    · rename_i g1 hit
      obtain ⟨c, hc, hconv, hg1⟩ := growthIteration_cases hit
      have hconv1 : converged s c g.counter = false := hconv.symm
      rw [hconv1] at hg1
      simp only [Bool.false_eq_true, if_false] at hg1
      have hlt := converged_false_lt hconv1
      obtain ⟨hp1, hp2⟩ := hpass g c hreach hc hlt
      cases n with
      | zero =>
        exfalso
        simp only [Nat.cast_zero, zero_add] at hinv
        omega
      | succ n =>
        obtain ⟨vic, _, _, hci, _, _, hvic, herr, hidx, _⟩ := candidates_ok hc
        have hvl : vic.length = (onesField s.positions).length := by
          unfold coarseInterpolation at hci
          split at hci
          · cases hci
          · split at hci
            · cases hci
            · split at hci
              · rename_i hlen
                rw [← Except.ok.inj hci, hlen, onesField_length]
              · cases hci
        have hel : c.errorList.length = s.positions.length := by
          rw [herr, residualNorms_length env vic _ hvl, onesField_length]
        have hnn : ∀ i, i < c.errorList.length → 0 ≤ c.errorList.getD i 0 := by
          rw [herr]
          exact fun i hi => map_norm_nonneg hs _ i hi
        have hnew : ¬ ((maxAbsLoc c.errorList).2 ∈ g.positionsMap) := by
          rw [reachable_map_iff hreach]
          exact hp2 hconv1
        have hindex : c.index = (maxAbsLoc c.errorList).2 := by
          rw [hidx, ← herr, largestErrorScan_eq c.errorList g.positionsMap (by omega) hnn hnew]
        unfold unitLoop
        rw [unitResidual_eq hc (hwidth g c hreach hc)]
        simp only
        have hcap1 : ¬ ((g.selectedPositions.length : Int) ≥
            min (unitOf s).maxPoints (rows s.positions)) := by
          rw [← hcount]
          exact not_le.mpr hlt
        rw [if_neg hcap1]
        have htest : ¬ ((maxAbsLoc c.errorList).1 < (unitOf s).tol ∧
            (g.selectedPositions.length : Int) ≥ min (unitOf s).minPoints (rows s.positions)) := by
          rintro ⟨h1, h2⟩
          rw [← hcount] at h2
          have hA := (hp1 h2).mpr h1
          exact converged_false_not hconv1 ⟨hA.1, hA.2, h2⟩
        rw [if_neg htest]
        have hsel1 : g1.selectedPositions = g.selectedPositions ++ [(maxAbsLoc c.errorList).2] := by
          rw [hg1, appendCandidates_single c g ht, hindex]
        rw [← hsel1]
        have hreach1 : GrowthReachable env s (onesField s.positions) g1 :=
          GrowthReachable.step hreach hit
        have hcnt := (appendCandidates_counter s c g).2.1
        rw [← hg1] at hcnt
        exact ih n g1 gf hreach1 (by push_cast at hinv ⊢; omega) h

/-- C15, as far as it holds: for the same control positions, solver results,
`tol`, `minPoints` and `maxPoints`, whenever `greedySelection` of an enabled
static controller with two-point selection off returns on the all-ones field,
`UnitCoarsening::compute` returns the same sequence of selected indices,
provided that the norm of a row of ones exceeds `SMALL`, the solver results
have the width of the positions, the largest distance from the first seed is
not within `SMALL` of one, and in each pass below the cap the absolute test
`largest residual < tol` agrees with the two relative tests once `minPoints`
are selected and the first row of largest residual over all control points is
not yet selected when the loop goes on. -/
theorem C15_unit_selection_agrees (env : Env) (s t : RBFCoarsening)
    (hs : ∀ x, 0 ≤ env.sqrt x)
    (hones : env.SMALL < norm env.sqrt (List.replicate (cols s.positions).toNat 1))
    (he : s.enabled = true) (hl : s.livePointSelection = false)
    (ht : s.twoPointSelection = false)
    (hband : ∀ a b, unitSeeds env s.positions = Except.ok (a, b) →
      norm env.sqrt (vsub (s.positions.getD b.toNat []) (s.positions.getD a.toNat []))
          < 1 - env.SMALL ∨
        norm env.sqrt (vsub (s.positions.getD b.toNat []) (s.positions.getD a.toNat []))
          > 1 + env.SMALL)
    (hwidth : ∀ g c, GrowthReachable env s (onesField s.positions) g →
      candidates env s (onesField s.positions) g = Except.ok c →
      cols c.valuesInterpolationCoarse = cols s.positions)
    (hpass : ∀ g c, GrowthReachable env s (onesField s.positions) g →
      candidates env s (onesField s.positions) g = Except.ok c → g.counter < maxNbPoints s →
      (g.counter ≥ minPoints s →
        ((c.error < s.tol ∧ c.errorMax < s.tol) ↔ (maxAbsLoc c.errorList).1 < s.tol)) ∧
      (converged s c g.counter = false → ¬ ((maxAbsLoc c.errorList).2 ∈ g.selectedPositions)))
    (hrun : s.greedySelection env (onesField s.positions) = Except.ok t) :
    ∃ u, (unitOf s).compute env s.positions s.positionsInterpolation = Except.ok u ∧
      u.selectedPositions = t.selectedPositions := by
  obtain ⟨g, pc, _, hgrow, hgather, htt⟩ := greedySelection_enabled he hrun
  unfold greedyGrowth at hgrow
  split at hgrow
  · cases hgrow
  · rename_i g0 hseed
    obtain ⟨a, b, hunit, hsel0⟩ := unitSeeds_eq hs hl hones hband hseed
    obtain ⟨_, _, _, _, hc0, _, _, hrows⟩ := seedSelection_shape hseed
    have hN : 0 < s.positions.length := by
      unfold rows at hrows
      omega
    have hloop := unitLoop_lockstep hs ht hN hwidth hpass (growthFuel s)
      (min (unitOf s).maxPoints (rows s.positions)).toNat g0 g (GrowthReachable.seed hseed)
      (by
        rw [hc0]
        have : maxNbPoints s = min (unitOf s).maxPoints (rows s.positions) := rfl
        rw [this]
        omega)
      hgrow
    rw [hsel0] at hloop
    refine ⟨{ unitOf s with
        selectedPositions := g.selectedPositions
        rbf := (unitOf s).rbf.compute pc s.positionsInterpolation }, ?_, ?_⟩
    · unfold UnitCoarsening.compute
      rw [hunit]
      simp only
      rw [hloop]
      simp only
      rw [hgather]
    · rw [htt]

/-- The run of `agreeController` passes through two sets of loop variables. -/
theorem agree_reachable {g : Growth}
    (h : GrowthReachable (sampleEnv agreeSolver) agreeController
      (onesField agreeController.positions) g) : g = agreeSeeded ∨ g = agreeGrown := by
  induction h with
  | seed hseed =>
    left
    have h0 : seedSelection (sampleEnv agreeSolver) agreeController
        (onesField agreeController.positions) = Except.ok agreeSeeded := by decide!
    rw [h0] at hseed
    exact (Except.ok.inj hseed).symm
  | step _ hit ih =>
    rcases ih with hg | hg
    · right
      rw [hg] at hit
      have h1 : growthIteration (sampleEnv agreeSolver) agreeController
          (onesField agreeController.positions) agreeSeeded = Except.ok (false, agreeGrown) := by
        decide!
      rw [h1] at hit
      exact (Prod.mk.inj (Except.ok.inj hit)).2.symm
    · exfalso
      rw [hg] at hit
      have h2 : (growthIteration (sampleEnv agreeSolver) agreeController
          (onesField agreeController.positions) agreeGrown).toOption.map (fun r => r.1)
            = some true := by decide!
      rw [hit] at h2
      cases h2

theorem agree_band : ∀ a b,
    unitSeeds (sampleEnv agreeSolver) agreeController.positions = Except.ok (a, b) →
    norm (sampleEnv agreeSolver).sqrt (vsub (agreeController.positions.getD b.toNat [])
        (agreeController.positions.getD a.toNat [])) < 1 - (sampleEnv agreeSolver).SMALL ∨
      norm (sampleEnv agreeSolver).sqrt (vsub (agreeController.positions.getD b.toNat [])
        (agreeController.positions.getD a.toNat [])) > 1 + (sampleEnv agreeSolver).SMALL := by
  intro a b h
  have h0 : unitSeeds (sampleEnv agreeSolver) agreeController.positions = Except.ok (1, 0) := by
    decide!
  rw [h0] at h
  obtain ⟨ha, hb⟩ := Prod.mk.inj (Except.ok.inj h)
  rw [← ha, ← hb]
  decide!

theorem agree_width : ∀ g c,
    GrowthReachable (sampleEnv agreeSolver) agreeController (onesField agreeController.positions) g →
    candidates (sampleEnv agreeSolver) agreeController (onesField agreeController.positions) g
      = Except.ok c →
    cols c.valuesInterpolationCoarse = cols agreeController.positions := by
  intro g c hreach hc
  have key : ∀ g0 : Growth, g0 = agreeSeeded ∨ g0 = agreeGrown →
      (candidates (sampleEnv agreeSolver) agreeController (onesField agreeController.positions)
        g0).toOption.all (fun c => decide (cols c.valuesInterpolationCoarse =
          cols agreeController.positions)) = true := by
    intro g0 hg0
    rcases hg0 with h | h <;> rw [h] <;> decide!
  have := key g (agree_reachable hreach)
  rw [hc] at this
  exact of_decide_eq_true this

theorem agree_pass : ∀ g c,
    GrowthReachable (sampleEnv agreeSolver) agreeController (onesField agreeController.positions) g →
    candidates (sampleEnv agreeSolver) agreeController (onesField agreeController.positions) g
      = Except.ok c →
    g.counter < maxNbPoints agreeController →
    (g.counter ≥ minPoints agreeController →
      ((c.error < agreeController.tol ∧ c.errorMax < agreeController.tol) ↔
        (maxAbsLoc c.errorList).1 < agreeController.tol)) ∧
    (converged agreeController c g.counter = false →
      ¬ ((maxAbsLoc c.errorList).2 ∈ g.selectedPositions)) := by
  intro g c hreach hc _
  have key : ∀ g0 : Growth, g0 = agreeSeeded ∨ g0 = agreeGrown →
      (candidates (sampleEnv agreeSolver) agreeController (onesField agreeController.positions)
        g0).toOption.all (fun c => decide (
          (g0.counter ≥ minPoints agreeController →
            ((c.error < agreeController.tol ∧ c.errorMax < agreeController.tol) ↔
              (maxAbsLoc c.errorList).1 < agreeController.tol)) ∧
          (converged agreeController c g0.counter = false →
            ¬ ((maxAbsLoc c.errorList).2 ∈ g0.selectedPositions)))) = true := by
    intro g0 hg0
    rcases hg0 with h | h <;> rw [h] <;> decide!
  have := key g (agree_reachable hreach)
  rw [hc] at this
  exact of_decide_eq_true this

/-- Witness for C15: on `linePositions` both codes select the points 1, 0 and 2:
the first pass goes on with point 2, whose residual `1 / 2` is the largest, and
the second pass stops on the tolerance with three of four points. -/
theorem C15_unit_selection_agrees_witness :
    (∀ x, 0 ≤ (sampleEnv agreeSolver).sqrt x) ∧
    (sampleEnv agreeSolver).SMALL < norm (sampleEnv agreeSolver).sqrt
      (List.replicate (cols agreeController.positions).toNat 1) ∧
    agreeController.enabled = true ∧ agreeController.livePointSelection = false ∧
    agreeController.twoPointSelection = false ∧
    selectedOf (agreeController.greedySelection (sampleEnv agreeSolver)
      (onesField agreeController.positions)) = some [1, 0, 2] ∧
    ∃ t, agreeController.greedySelection (sampleEnv agreeSolver)
        (onesField agreeController.positions) = Except.ok t ∧
      ∃ u, (unitOf agreeController).compute (sampleEnv agreeSolver) agreeController.positions
          agreeController.positionsInterpolation = Except.ok u ∧
        u.selectedPositions = t.selectedPositions :=
  ⟨sqrtQ_nonneg, by decide!, rfl, rfl, rfl, by decide!,
    match hr : agreeController.greedySelection (sampleEnv agreeSolver)
        (onesField agreeController.positions) with
    | Except.ok t =>
      ⟨t, rfl, C15_unit_selection_agrees (sampleEnv agreeSolver) agreeController t sqrtQ_nonneg
        (by decide!) rfl rfl rfl agree_band agree_width agree_pass hr⟩
    | Except.error e => by
      have hb : (agreeController.greedySelection (sampleEnv agreeSolver)
          (onesField agreeController.positions)).toBool = true := by decide!
      rw [hr] at hb
      cases hb⟩

/-- C21 (as stated, refuted). First pass on the five points in the plane (second
part): the second candidate is point 4 with residual norm `1 / 4`, although
point 3 is not yet selected, its residual has a negative dot product with the
residual of the primary candidate and its residual norm is about `1 / 2`: that
dot product, `-1e-16`, is not below `-SMALL`, the threshold of the code. First
pass on the line data with the seeds 0 and 1 (first part): the second candidate
is the seed 0, a point that is selected already, as its residual passes the
opposition test; this is the missing test for selected points shown in C1. -/
theorem C21_second_candidate_differs :
    (candidates (sampleEnv lineSolver) (sampleController true true (1 / 1000) 1 3 linePositions)
        lineValues ⟨[0, 1], [1, 0], 2, 0, 0, []⟩).toOption.map
      (fun c => (c.index, c.index2, decide (c.index2 ∈ ([0, 1] : List Int)))) = some (2, 0, true) ∧
    (candidates (sampleEnv fiveSolver) (sampleController true true (1 / 1000) 1 5 fivePositions)
        fiveValues ⟨[0, 1], [1, 0], 2, 0, 0, []⟩).toOption.map
      (fun c => (c.index, c.index2, decide (((3 : Nat) : Int) ∈ ([0, 1] : List Int)),
        decide (dot (residualRow c fiveValues 2) (residualRow c fiveValues 3) < 0),
        decide (c.errorList.getD 4 0 < c.errorList.getD 3 0))) = some (2, 4, false, true, true) := by
  constructor <;> decide!

theorem oppositeErrorScan_two {env : Env} {s : RBFCoarsening} {vic values : matrix}
    {errorList : vector} {index : Int} {second : ℚ × Int} (ht : s.twoPointSelection = true)
    (h : oppositeErrorScan env s vic values errorList index = Except.ok second) :
    0 ≤ index ∧ index < (vic.length : Int) ∧ index < (values.length : Int) ∧
      second = scan (fun j => errorList.getD j 0)
        (fun j => decide (dot (vsub (vic.getD index.toNat []) (values.getD index.toNat []))
          (vsub (vic.getD j []) (values.getD j [])) < -env.SMALL))
        (List.range errorList.length) (-1, -1) := by
  unfold oppositeErrorScan at h
  rw [if_pos ht] at h
  split at h
  · cases h
  · rename_i a ha
    split at h
    · cases h
    · rename_i b hb
      obtain ⟨ha1, ha2, ha3⟩ := row_ok_getD ha
      obtain ⟨_, hb2, hb3⟩ := row_ok_getD hb
      refine ⟨ha1, ha2, hb2, ?_⟩
      rw [← ha3, ← hb3]
      exact (Except.ok.inj h).symm

theorem coarseInterpolation_length {env : Env} {s : RBFCoarsening} {values vic : matrix}
    {sel : List Int} (h : coarseInterpolation env s values sel = Except.ok vic) :
    vic.length = s.positions.length := by
  unfold coarseInterpolation at h
  split at h
  · cases h
  · split at h
    · cases h
    · split at h
      · rename_i hl
        rw [← Except.ok.inj h, hl]
      · cases h

theorem candidates_second {env : Env} {s : RBFCoarsening} {values : matrix} {g : Growth}
    {c : Candidates} (h : candidates env s values g = Except.ok c) :
    ∃ vic second, coarseInterpolation env s values g.selectedPositions = Except.ok vic ∧
      oppositeErrorScan env s vic values (residualNorms env vic values)
        (largestErrorScan (residualNorms env vic values) g.positionsMap).2 = Except.ok second ∧
      c.valuesInterpolationCoarse = vic ∧
      c.index = (largestErrorScan (residualNorms env vic values) g.positionsMap).2 ∧
      c.index2 = second.2 ∧ c.largestError2 = second.1 := by
  unfold candidates at h
  split at h
  · cases h
  · rename_i vic hvic
    split at h
    · cases h
    · rename_i second hsecond
      split at h
      · cases h
      · cases h
        exact ⟨vic, second, hvic, hsecond, rfl, rfl, rfl, rfl⟩

/-- C21 (amended): a pass of the growth loop with two-point selection in which
no control point that is selected already passes the opposition test. The
primary candidate is a valid row. If the second candidate `index2` is valid, it
is a control point that is not yet selected, the dot product of its residual
row with the residual row of the primary candidate is below `-SMALL`, its
residual norm is the largest among the not yet selected control points of that
kind, and it is the lowest index of that kind. If some not yet selected control
point passes the opposition test `index2` is valid; if no control point does,
`index2` stays `-1` and exactly the primary candidate is appended. -/
theorem C21_second_candidate_reference (env : Env) (s : RBFCoarsening) (values : matrix)
    (g : Growth) (c : Candidates) (hs : ∀ x, 0 ≤ env.sqrt x)
    (hrows : values.length = s.positions.length) (ht : s.twoPointSelection = true)
    (hc : candidates env s values g = Except.ok c)
    (hsel : ∀ j, j < s.positions.length → (j : Int) ∈ g.selectedPositions →
      opposed env c values j = false) :
    (0 ≤ c.index ∧ c.index < (s.positions.length : Int)) ∧
    (0 ≤ c.index2 →
      ∃ r : Nat, c.index2 = (r : Int) ∧ ¬ ((r : Int) ∈ g.selectedPositions) ∧
        LowestArgmax (fun j => norm env.sqrt (residualRow c values j))
          (fun j => opposed env c values j && decide (¬ ((j : Int) ∈ g.selectedPositions)))
          s.positions.length r ∧
        c.largestError2 = norm env.sqrt (residualRow c values r)) ∧
    ((∃ j, j < s.positions.length ∧ ¬ ((j : Int) ∈ g.selectedPositions) ∧
        opposed env c values j = true) → 0 ≤ c.index2) ∧
    ((∀ j, j < s.positions.length → opposed env c values j = false) →
      c.index2 = -1 ∧
        (appendCandidates s c g).selectedPositions = g.selectedPositions ++ [c.index]) := by
  obtain ⟨vic, second, hvic, hopp, hcv, hidx, hidx2, hl2⟩ := candidates_second hc
  have hviclen : vic.length = values.length := by
    rw [coarseInterpolation_length hvic, hrows]
  have hlen := residualNorms_length env vic values hviclen
  obtain ⟨h0, h1, _, hscan⟩ := oppositeErrorScan_two ht hopp
  rw [← hidx] at hscan h0 h1
  have hkey : ∀ j, j < s.positions.length →
      (residualNorms env vic values).getD j 0 = norm env.sqrt (residualRow c values j) := by
    intro j hj
    rw [residualNorms_getD env vic values j hviclen (by omega)]
    unfold residualRow
    rw [hcv]
  have hok : ∀ j,
      (fun j => decide (dot (vsub (vic.getD c.index.toNat []) (values.getD c.index.toNat []))
        (vsub (vic.getD j []) (values.getD j [])) < -env.SMALL)) j = opposed env c values j := by
    intro j
    unfold opposed residualRow
    rw [hcv]
  have hfilter : ∀ j, j < s.positions.length →
      opposed env c values j =
        (opposed env c values j && decide (¬ ((j : Int) ∈ g.selectedPositions))) := by
    intro j hj
    by_cases hm : (j : Int) ∈ g.selectedPositions
    · rw [hsel j hj hm]
      rfl
    · simp [hm]
  have hb : ∀ j, j < (residualNorms env vic values).length →
      (fun j => decide (dot (vsub (vic.getD c.index.toNat []) (values.getD c.index.toNat []))
        (vsub (vic.getD j []) (values.getD j [])) < -env.SMALL)) j = true →
      (-1 : ℚ) < (fun j => (residualNorms env vic values).getD j 0) j := by
    intro j hj _
    simp only
    rw [residualNorms_getD env vic values j hviclen (by omega)]
    exact lt_of_lt_of_le (by norm_num) (hs _)
  have hcases := scan_range_spec (fun j => (residualNorms env vic values).getD j 0)
    (fun j => decide (dot (vsub (vic.getD c.index.toNat []) (values.getD c.index.toNat []))
      (vsub (vic.getD j []) (values.getD j [])) < -env.SMALL)) (-1) _ hb
  rw [← hscan, hlen, hrows] at hcases
  refine ⟨⟨h0, by rw [hviclen, hrows] at h1; exact h1⟩, ?_, ?_, ?_⟩
  · intro hvalid
    rcases hcases with ⟨_, hnone⟩ | ⟨r, hr, hres⟩
    · rw [hidx2, hnone] at hvalid
      simp at hvalid
    · have hopr : opposed env c values r = true := by
        rw [← hok r]
        exact hr.2.1
      have hnew : ¬ ((r : Int) ∈ g.selectedPositions) := by
        intro hm
        rw [hsel r hr.1 hm] at hopr
        cases hopr
      refine ⟨r, by rw [hidx2, hres], hnew,
        lowestArgmax_congr hkey (fun j hj => (hok j).trans (hfilter j hj)) hr, ?_⟩
      rw [hl2, hres]
      exact hkey r hr.1
  · rintro ⟨j, hj, _, hopj⟩
    rcases hcases with ⟨hnone, _⟩ | ⟨r, _, hres⟩
    · have := hnone j hj
      rw [hok j, hopj] at this
      cases this
    · rw [hidx2, hres]
      simp
  · intro hnone
    have hi2 : c.index2 = -1 := by
      rcases hcases with ⟨_, hres⟩ | ⟨r, hr, _⟩
      · rw [hidx2, hres]
      · have := hr.2.1
        rw [hok r, hnone r hr.1] at this
        cases this
    refine ⟨hi2, ?_⟩
    unfold appendCandidates
    rw [if_neg (by rw [hi2]; simp)]

/-- Witness for C21: the first pass on the five points in the plane. The
residual rows of the seeds 0 and 1 are zero, so neither passes the opposition
test; the second candidate is point 4, the only control point whose residual
row has a dot product below `-SMALL` with the residual row of the primary
candidate 2. -/
theorem C21_second_candidate_reference_witness :
    (∀ x, 0 ≤ (sampleEnv fiveSolver).sqrt x) ∧
    fiveValues.length = (sampleController true true (1 / 1000) 1 5 fivePositions).positions.length ∧
    (sampleController true true (1 / 1000) 1 5 fivePositions).twoPointSelection = true ∧
    ∃ c, candidates (sampleEnv fiveSolver) (sampleController true true (1 / 1000) 1 5 fivePositions)
        fiveValues ⟨[0, 1], [1, 0], 2, 0, 0, []⟩ = Except.ok c ∧
      (∀ j, j < (sampleController true true (1 / 1000) 1 5 fivePositions).positions.length →
        (j : Int) ∈ ([0, 1] : List Int) → opposed (sampleEnv fiveSolver) c fiveValues j = false) ∧
      c.index2 = 4 ∧
      ∃ r : Nat, c.index2 = (r : Int) ∧ ¬ ((r : Int) ∈ ([0, 1] : List Int)) ∧
        LowestArgmax (fun j => norm (sampleEnv fiveSolver).sqrt (residualRow c fiveValues j))
          (fun j => opposed (sampleEnv fiveSolver) c fiveValues j &&
            decide (¬ ((j : Int) ∈ ([0, 1] : List Int))))
          (sampleController true true (1 / 1000) 1 5 fivePositions).positions.length r :=
  ⟨sqrtQ_nonneg, rfl, rfl,
    match hc : candidates (sampleEnv fiveSolver)
        (sampleController true true (1 / 1000) 1 5 fivePositions) fiveValues
        ⟨[0, 1], [1, 0], 2, 0, 0, []⟩ with
    | Except.ok c =>
      have h4 : c.index2 = 4 := by
        have hb : (candidates (sampleEnv fiveSolver)
            (sampleController true true (1 / 1000) 1 5 fivePositions) fiveValues
            ⟨[0, 1], [1, 0], 2, 0, 0, []⟩).toOption.map (fun c => c.index2) = some 4 := by
          decide!
        rw [hc] at hb
        exact Option.some.inj hb
      have hsel : ∀ j,
          j < (sampleController true true (1 / 1000) 1 5 fivePositions).positions.length →
          (j : Int) ∈ ([0, 1] : List Int) →
          opposed (sampleEnv fiveSolver) c fiveValues j = false := by
        have hb : (candidates (sampleEnv fiveSolver)
            (sampleController true true (1 / 1000) 1 5 fivePositions) fiveValues
            ⟨[0, 1], [1, 0], 2, 0, 0, []⟩).toOption.all (fun c => decide (∀ j,
              j < (sampleController true true (1 / 1000) 1 5 fivePositions).positions.length →
              (j : Int) ∈ ([0, 1] : List Int) →
              opposed (sampleEnv fiveSolver) c fiveValues j = false)) = true := by
          decide!
        rw [hc] at hb
        exact of_decide_eq_true hb
      match (C21_second_candidate_reference (sampleEnv fiveSolver)
          (sampleController true true (1 / 1000) 1 5 fivePositions) fiveValues
          ⟨[0, 1], [1, 0], 2, 0, 0, []⟩ c sqrtQ_nonneg rfl rfl hc hsel).2.1
          (by rw [h4]; decide) with
      | ⟨r, h1, h2, h3, _⟩ => ⟨c, rfl, hsel, h4, r, h1, h2, h3⟩
    | Except.error e => by
      have hb : (candidates (sampleEnv fiveSolver)
          (sampleController true true (1 / 1000) 1 5 fivePositions) fiveValues
          ⟨[0, 1], [1, 0], 2, 0, 0, []⟩).toBool = true := by decide!
      rw [hc] at hb
      cases hb⟩

/-- With two-point selection, a pass that is entered with every control point
selected reads row `-1`. -/
theorem candidates_all_selected {env : Env} {s : RBFCoarsening} {values vic : matrix}
    {g : Growth} (ht : s.twoPointSelection = true)
    (hvic : coarseInterpolation env s values g.selectedPositions = Except.ok vic)
    (hall : ∀ i, i < (residualNorms env vic values).length → (i : Int) ∈ g.positionsMap) :
    (largestErrorScan (residualNorms env vic values) g.positionsMap).2 = -1 ∧
      candidates env s values g = Except.error Fault.undefined := by
  have hscan : largestErrorScan (residualNorms env vic values) g.positionsMap = (-1, -1) := by
    unfold largestErrorScan
    apply scan_stable
    intro i hi h
    have hlt : i < (residualNorms env vic values).length := List.mem_range.mp hi
    have := h.2
    simp only [decide_eq_true_eq] at this
    exact this (hall i hlt)
  refine ⟨by rw [hscan], ?_⟩
  have hopp : oppositeErrorScan env s vic values (residualNorms env vic values) (-1) =
      Except.error Fault.undefined := by
    unfold oppositeErrorScan
    rw [if_pos ht]
    have hrow : row vic (-1) = Except.error Fault.undefined := by
      unfold row
      rw [if_neg (by omega)]
    rw [hrow]
  unfold candidates
  rw [hvic]
  simp only
  rw [hscan, hopp]

/-- C24 (code defect shown): two control points, two-point selection, any
`coarseningMaxPoints >= 2`. Both points are seeds, so the candidate search of
the first pass finds no point that is not yet selected and leaves `index` at
`-1`; the opposition test then reads `valuesInterpolationCoarse.row( -1 )`,
before the loop tests for the maximum number of points. The same run without
two-point selection returns the two seeds. -/
theorem C24_row_read_at_minus_one :
    seedSelection (sampleEnv roundingSolver) (sampleController true true (1 / 1000) 1 3 pairPositions)
      pairValues = Except.ok ⟨[0, 1], [1, 0], 2, 0, 0, []⟩ ∧
    (coarseInterpolation (sampleEnv roundingSolver)
        (sampleController true true (1 / 1000) 1 3 pairPositions) pairValues [0, 1]).toOption.map
      (fun vic => (largestErrorScan (residualNorms (sampleEnv roundingSolver) vic pairValues)
        [1, 0]).2) = some (-1) ∧
    candidates (sampleEnv roundingSolver) (sampleController true true (1 / 1000) 1 3 pairPositions)
      pairValues ⟨[0, 1], [1, 0], 2, 0, 0, []⟩ = Except.error Fault.undefined ∧
    (sampleController true true (1 / 1000) 1 3 pairPositions).greedySelection
      (sampleEnv roundingSolver) pairValues = Except.error Fault.undefined ∧
    selectedOf ((sampleController true false (1 / 1000) 1 3 pairPositions).greedySelection
      (sampleEnv roundingSolver) pairValues) = some [0, 1] := by
  refine ⟨?_, ?_, ?_, ?_, ?_⟩ <;> decide!

theorem countPulls_fold (st : PullStore) :
    ∀ (ps : List (Nat × Nat)) (n : Nat),
      ps.foldl (fun n p => if st.owner p.1 p.2 = st.rank then n + 1 else n) n =
        n + (ps.filter (fun p => decide (st.owner p.1 p.2 = st.rank))).length := by
  intro ps
  induction ps with
  | nil => intro n; rfl
  | cons p ps ih =>
    intro n
    rw [List.foldl_cons, ih]
    by_cases hp : st.owner p.1 p.2 = st.rank
    · rw [if_pos hp, List.filter_cons_of_pos (by simpa using hp), List.length_cons]
      omega
    · rw [if_neg hp, List.filter_cons_of_neg (by simpa using hp)]

theorem queuePulls_fold (st : PullStore) (sel : List Int) :
    ∀ (ps : List (Nat × Nat)) (q : List (Int × Nat)),
      ps.foldl (fun q p =>
          if st.owner p.1 p.2 = st.rank then q ++ [(sel.getD p.1 0, p.2)] else q) q =
        q ++ (ps.filter (fun p => decide (st.owner p.1 p.2 = st.rank))).map
          (fun p => (sel.getD p.1 0, p.2)) := by
  intro ps
  induction ps with
  | nil => intro q; simp
  | cons p ps ih =>
    intro q
    rw [List.foldl_cons, ih]
    by_cases hp : st.owner p.1 p.2 = st.rank
    · rw [if_pos hp, List.filter_cons_of_pos (by simpa using hp)]
      simp
    · rw [if_neg hp, List.filter_cons_of_neg (by simpa using hp)]

theorem getD_set_self {α : Type} (l : List α) (i : Nat) (a d : α) (h : i < l.length) :
    (l.set i a).getD i d = a := by
  rw [List.getD_eq_getElem?_getD, List.getElem?_set_self h]
  rfl

theorem getD_set_ne {α : Type} (l : List α) (i j : Nat) (a d : α) (h : i ≠ j) :
    (l.set i a).getD j d = l.getD j d := by
  rw [List.getD_eq_getElem?_getD, List.getElem?_set_ne h, ← List.getD_eq_getElem?_getD]

theorem setEntry_spec {m m1 : matrix} {j c : Nat} {v : ℚ}
    (h : setEntry m j c v = Except.ok m1) :
    entryAt m1 j c = v ∧
      ∀ j1 c1, (j1, c1) ≠ (j, c) → entryAt m1 j1 c1 = entryAt m j1 c1 := by
  unfold setEntry at h
  split at h
  · rename_i hin
    have hm := Except.ok.inj h
    rw [← hm]
    constructor
    · unfold entryAt
      rw [getD_set_self m j _ [] hin.1, getD_set_self _ c v 0 hin.2]
    · intro j1 c1 hne
      unfold entryAt
      by_cases hj : j1 = j
      · subst hj
        have hc : c1 ≠ c := fun hc => hne (by rw [hc])
        rw [getD_set_self m j1 _ [] hin.1, getD_set_ne _ c c1 v 0 (Ne.symm hc)]
      · rw [getD_set_ne m j j1 _ [] (Ne.symm hj)]
  · cases h

/-- The third pass writes the buffer values, in order, to the owned slots. -/
theorem unpack_spec (st : PullStore) (buffer : List ℚ) :
    ∀ (ps : List (Nat × Nat)) (sel : matrix) (idx : Nat) (sel1 : matrix) (idx1 : Nat),
      ps.Nodup → unpack st buffer ps sel idx = Except.ok (sel1, idx1) →
      idx1 = idx + (ps.filter (fun p => decide (st.owner p.1 p.2 = st.rank))).length ∧
      (∀ k, k < (ps.filter (fun p => decide (st.owner p.1 p.2 = st.rank))).length →
        entryAt sel1
            ((ps.filter (fun p => decide (st.owner p.1 p.2 = st.rank))).getD k (0, 0)).1
            ((ps.filter (fun p => decide (st.owner p.1 p.2 = st.rank))).getD k (0, 0)).2 =
          buffer.getD (idx + k) 0) ∧
      (∀ p, p ∉ ps → entryAt sel1 p.1 p.2 = entryAt sel p.1 p.2) := by
  intro ps
  induction ps with
  | nil =>
    intro sel idx sel1 idx1 _ h
    unfold unpack at h
    have hh := Prod.mk.inj (Except.ok.inj h)
    refine ⟨by simp [hh.2.symm], fun k hk => absurd hk (by simp), fun p _ => by rw [hh.1]⟩
  | cons p ps ih =>
    intro sel idx sel1 idx1 hnd h
    have hnd1 : ps.Nodup := (List.nodup_cons.mp hnd).2
    have hpn : p ∉ ps := (List.nodup_cons.mp hnd).1
    unfold unpack at h
    by_cases hp : st.owner p.1 p.2 = st.rank
    · rw [if_pos hp] at h
      split at h
      · cases h
      · rename_i v hv
        split at h
        · cases h
        · rename_i sel2 hset
          obtain ⟨hset1, hset2⟩ := setEntry_spec hset
          obtain ⟨h1, h2, h3⟩ := ih sel2 (idx + 1) sel1 idx1 hnd1 h
          rw [List.filter_cons_of_pos (by simpa using hp)]
          refine ⟨by rw [h1, List.length_cons]; omega, ?_, ?_⟩
          · intro k hk
            cases k with
            | zero =>
              simp only [List.getD_cons_zero, Nat.add_zero]
              rw [h3 p hpn, hset1, List.getD_eq_getElem?_getD, ← List.get?_eq_getElem?, hv]
              rfl
            | succ k =>
              simp only [List.getD_cons_succ]
              have := h2 k (by simpa using hk)
              rw [this]
              congr 1
              omega
          · intro q hq
            have hq1 : q ∉ ps := fun hmem => hq (List.mem_cons_of_mem p hmem)
            have hq2 : q ≠ p := fun heq => hq (by rw [heq]; exact List.mem_cons_self p ps)
            rw [h3 q hq1]
            exact hset2 q.1 q.2 hq2
    · rw [if_neg hp] at h
      obtain ⟨h1, h2, h3⟩ := ih sel idx sel1 idx1 hnd1 h
      rw [List.filter_cons_of_neg (by simpa using hp)]
      refine ⟨h1, h2, ?_⟩
      intro q hq
      exact h3 q (fun hmem => hq (List.mem_cons_of_mem p hmem))

theorem slotOrder_nodup (size width : Nat) : (slotOrder size width).Nodup :=
  List.Nodup.product (List.nodup_range size) (List.nodup_range width)

theorem mem_slotOrder (size width j c : Nat) :
    (j, c) ∈ slotOrder size width ↔ j < size ∧ c < width := by
  unfold slotOrder
  rw [List.pair_mem_product, List.mem_range, List.mem_range]

theorem setEntry_shape {m m1 : matrix} {j c : Nat} {v : ℚ}
    (h : setEntry m j c v = Except.ok m1) :
    m1.length = m.length ∧ ∀ j1, (m1.getD j1 []).length = (m.getD j1 []).length := by
  unfold setEntry at h
  split at h
  · rename_i hin
    rw [← Except.ok.inj h]
    refine ⟨by simp, fun j1 => ?_⟩
    by_cases hj : j1 = j
    · subst hj
      rw [getD_set_self m j1 _ [] hin.1]
      simp
    · rw [getD_set_ne m j j1 _ [] (Ne.symm hj)]
  · cases h

/-- The third pass returns when every slot lies in `selection` and the buffer
holds a value for every owned slot. -/
theorem unpack_total (st : PullStore) (buffer : List ℚ) :
    ∀ (ps : List (Nat × Nat)) (sel : matrix) (idx : Nat),
      (∀ p ∈ ps, p.1 < sel.length ∧ p.2 < (sel.getD p.1 []).length) →
      idx + (ps.filter (fun p => decide (st.owner p.1 p.2 = st.rank))).length ≤ buffer.length →
      ∃ r, unpack st buffer ps sel idx = Except.ok r := by
  intro ps
  induction ps with
  | nil =>
    intro sel idx _ _
    exact ⟨(sel, idx), rfl⟩
  | cons p ps ih =>
    intro sel idx hin hbuf
    unfold unpack
    by_cases hp : st.owner p.1 p.2 = st.rank
    · rw [if_pos hp]
      rw [List.filter_cons_of_pos (by simpa using hp), List.length_cons] at hbuf
      have hidx : idx < buffer.length := by omega
      rw [List.get?_eq_get hidx]
      simp only
      have hpin := hin p (List.mem_cons_self p ps)
      have hset : setEntry sel p.1 p.2 (buffer.get ⟨idx, hidx⟩) =
          Except.ok (sel.set p.1 ((sel.getD p.1 []).set p.2 (buffer.get ⟨idx, hidx⟩))) := by
        unfold setEntry
        rw [if_pos hpin]
      rw [hset]
      simp only
      obtain ⟨hs1, hs2⟩ := setEntry_shape hset
      apply ih
      · intro q hq
        have := hin q (List.mem_cons_of_mem p hq)
        rw [hs1, hs2]
        exact this
      · omega
    · rw [if_neg hp]
      rw [List.filter_cons_of_neg (by simpa using hp)] at hbuf
      exact ih sel idx (fun q hq => hin q (List.mem_cons_of_mem p hq)) hbuf

/-- C23: `selectData` on one process. When it returns, the pulls queued are as
many as the pulls reserved, one per destination slot `(j, iDim)` that the
process owns; the k-th pull asks for the entry `(selectedPositions[j], iDim)`
of the k-th owned slot in loop order, and the k-th value of the buffer is
written to that slot; so, if the exchange returns for every pull the entry of
`data` that it asks for, every owned entry of `selection` is
`data( selectedPositions[j], iDim )`. And it returns whenever `selection` has a
row per selected index, as many columns as `data`, and the buffer holds a
value per pull. -/
theorem C23_select_data (st : PullStore) (u : UnitCoarsening) (data selection : matrix) :
    (∀ r, u.selectData st data selection = Except.ok r →
      r.queue.length = r.reserved ∧
      r.reserved = (ownedSlots st u.selectedPositions.length (cols data).toNat).length ∧
      r.buffer = st.processPullQueue data r.queue ∧
      (∀ k, k < r.reserved →
        r.queue.getD k (0, 0) =
            (u.selectedPositions.getD
              ((ownedSlots st u.selectedPositions.length (cols data).toNat).getD k (0, 0)).1 0,
              ((ownedSlots st u.selectedPositions.length (cols data).toNat).getD k (0, 0)).2) ∧
          entryAt r.selection
              ((ownedSlots st u.selectedPositions.length (cols data).toNat).getD k (0, 0)).1
              ((ownedSlots st u.selectedPositions.length (cols data).toNat).getD k (0, 0)).2 =
            r.buffer.getD k 0) ∧
      ((∀ k, k < r.queue.length →
          pulledEntry data (r.queue.getD k (0, 0)).1 (r.queue.getD k (0, 0)).2 =
            some (r.buffer.getD k 0)) →
        ∀ j iDim, j < u.selectedPositions.length → iDim < (cols data).toNat →
          st.owner j iDim = st.rank →
          pulledEntry data (u.selectedPositions.getD j 0) iDim =
            some (entryAt r.selection j iDim))) ∧
    (selection.length = u.selectedPositions.length →
      (∀ j, j < u.selectedPositions.length → (cols data).toNat ≤ (selection.getD j []).length) →
      (ownedSlots st u.selectedPositions.length (cols data).toNat).length ≤
        (st.processPullQueue data (queuePulls st u.selectedPositions
          (slotOrder u.selectedPositions.length (cols data).toNat))).length →
      ∃ r, u.selectData st data selection = Except.ok r) := by
  have hq : queuePulls st u.selectedPositions
      (slotOrder u.selectedPositions.length (cols data).toNat) =
      (ownedSlots st u.selectedPositions.length (cols data).toNat).map
        (fun p => (u.selectedPositions.getD p.1 0, p.2)) := by
    unfold queuePulls ownedSlots
    rw [queuePulls_fold]
    rfl
  have hn : countPulls st (slotOrder u.selectedPositions.length (cols data).toNat) =
      (ownedSlots st u.selectedPositions.length (cols data).toNat).length := by
    unfold countPulls ownedSlots
    rw [countPulls_fold]
    omega
  constructor
  · intro r h
    unfold UnitCoarsening.selectData at h
    split at h
    · cases h
    · split at h
      · cases h
      · rename_i rr hun
        have hr := Except.ok.inj h
        obtain ⟨sel1, idx1⟩ := rr
        obtain ⟨_, h2, _⟩ := unpack_spec st _ _ selection 0 sel1 idx1
          (slotOrder_nodup _ _) hun
        have hqueue : r.queue = (ownedSlots st u.selectedPositions.length (cols data).toNat).map
            (fun p => (u.selectedPositions.getD p.1 0, p.2)) := by
          rw [← hr]
          exact hq
        have hres : r.reserved =
            (ownedSlots st u.selectedPositions.length (cols data).toNat).length := by
          rw [← hr]
          exact hn
        have hbuf : r.buffer = st.processPullQueue data r.queue := by
          rw [← hr]
        have hsel : r.selection = sel1 := by
          rw [← hr]
        have hqk : ∀ k, k < (ownedSlots st u.selectedPositions.length (cols data).toNat).length →
            r.queue.getD k (0, 0) =
              (u.selectedPositions.getD
                ((ownedSlots st u.selectedPositions.length (cols data).toNat).getD k (0, 0)).1 0,
                ((ownedSlots st u.selectedPositions.length (cols data).toNat).getD k (0, 0)).2) := by
          intro k hk
          rw [hqueue, List.getD_eq_getElem _ _ (by simpa using hk), List.getElem_map,
            List.getD_eq_getElem _ _ hk]
        have hek : ∀ k, k < (ownedSlots st u.selectedPositions.length (cols data).toNat).length →
            entryAt r.selection
                ((ownedSlots st u.selectedPositions.length (cols data).toNat).getD k (0, 0)).1
                ((ownedSlots st u.selectedPositions.length (cols data).toNat).getD k (0, 0)).2 =
              r.buffer.getD k 0 := by
          intro k hk
          have := h2 k hk
          rw [Nat.zero_add] at this
          rw [hsel, hbuf, hqueue, ← hq]
          exact this
        refine ⟨by rw [hqueue, hres]; simp, hres, hbuf, ?_, ?_⟩
        · intro k hk
          rw [hres] at hk
          exact ⟨hqk k hk, hek k hk⟩
        · intro hpull j iDim hj hc hown
          have hmem : (j, iDim) ∈ ownedSlots st u.selectedPositions.length (cols data).toNat := by
            unfold ownedSlots
            rw [List.mem_filter]
            exact ⟨(mem_slotOrder _ _ j iDim).mpr ⟨hj, hc⟩, by simpa using hown⟩
          obtain ⟨k, hk, hget⟩ := List.getElem_of_mem hmem
          have hgd : (ownedSlots st u.selectedPositions.length (cols data).toNat).getD k (0, 0)
              = (j, iDim) := by
            rw [List.getD_eq_getElem _ _ hk, hget]
          have h5 := hpull k (by rw [hqueue]; simpa using hk)
          rw [hqk k hk, hgd] at h5
          have h6 := hek k hk
          rw [hgd] at h6
          rw [h5, h6]
  · intro hlen hwidth hbuf
    obtain ⟨rr, hrr⟩ := unpack_total st
      (st.processPullQueue data (queuePulls st u.selectedPositions
        (slotOrder u.selectedPositions.length (cols data).toNat)))
      (slotOrder u.selectedPositions.length (cols data).toNat) selection 0
      (by
        intro p hp
        have := (mem_slotOrder _ _ p.1 p.2).mp hp
        exact ⟨by rw [hlen]; exact this.1, lt_of_lt_of_le this.2 (hwidth p.1 this.1)⟩)
      (by
        rw [Nat.zero_add]
        exact hbuf)
    unfold UnitCoarsening.selectData
    rw [if_neg (by unfold rows; rw [hlen]; simp), hrr]
    exact ⟨_, rfl⟩

/-- Witness for C23: the process of rank 0 of two, rows 2 and 0 selected from
three rows of data. It owns the slots `(0, 0)` and `(1, 1)`, pulls the entries
`(2, 0)` and `(0, 1)` and writes 5 and 2 to its slots. -/
theorem C23_select_data_witness :
    (constant 2 2 0).length = pullController.selectedPositions.length ∧
    pullController.selectData (sampleStore 0) pullData (constant 2 2 0) =
      Except.ok ⟨2, [(2, 0), (0, 1)], [5, 2], [[5, 0], [0, 2]]⟩ ∧
    (∀ k, k < ([(2, 0), (0, 1)] : List (Int × Nat)).length →
      pulledEntry pullData (([(2, 0), (0, 1)] : List (Int × Nat)).getD k (0, 0)).1
        (([(2, 0), (0, 1)] : List (Int × Nat)).getD k (0, 0)).2 =
          some (([5, 2] : List ℚ).getD k 0)) ∧
    pulledEntry pullData (pullController.selectedPositions.getD 1 0) 1 =
      some (entryAt [[5, 0], [0, 2]] 1 1) ∧
    ∃ r, pullController.selectData (sampleStore 0) pullData (constant 2 2 0) = Except.ok r :=
  have hrun : pullController.selectData (sampleStore 0) pullData (constant 2 2 0) =
      Except.ok ⟨2, [(2, 0), (0, 1)], [5, 2], [[5, 0], [0, 2]]⟩ := by decide!
  have hpull : ∀ k, k < ([(2, 0), (0, 1)] : List (Int × Nat)).length →
      pulledEntry pullData (([(2, 0), (0, 1)] : List (Int × Nat)).getD k (0, 0)).1
        (([(2, 0), (0, 1)] : List (Int × Nat)).getD k (0, 0)).2 =
          some (([5, 2] : List ℚ).getD k 0) := by decide!
  ⟨rfl, hrun, hpull,
    ((C23_select_data (sampleStore 0) pullController pullData (constant 2 2 0)).1 _ hrun).2.2.2.2
      hpull 1 1 (by decide) (by decide) (by decide),
    (C23_select_data (sampleStore 0) pullController pullData (constant 2 2 0)).2 rfl
      (by decide) (by decide!)⟩

end rbf
